import Mathlib

/-!
The calculator core of gtk-calculator (`src/calculator.c`, `src/calculator.h`).

A shallow embedding of `calc_evaluate` and its helpers, followed by theorems
about it.

Conventions of the embedding.

* A C string is a `List Char`; the terminating NUL is the end of the list.
* The two fixed arrays `val_stack` / `op_stack` with their `*_top` indices are
  lists whose head is the top of the stack; `top = length - 1`, so the guard
  `top >= MAX_STACK_SIZE - 1` reads `MAX_STACK_SIZE ≤ length`.
* A helper that reports failure by `set_error(err, code, msg); return 0;`
  returns `Except.error (code, msg)`; the public function performs the write
  into `out_error`.
* `double` arithmetic, `pow` and `strtod` come from the C library, not from
  this repository.  They are the fields of `Arith`, so every theorem that
  quantifies over `Arith` holds for IEEE-754 doubles as well as for exact
  arithmetic.
-/

namespace Calc

/-! ## Data model (`calculator.h`) -/

/-- Error codes describing why an evaluation failed. -/
inductive CalcErrorCode where
  | CALC_OK
  | CALC_ERR_SYNTAX
  | CALC_ERR_DIV_BY_ZERO
  | CALC_ERR_UNKNOWN
  deriving DecidableEq

/-- Detailed error record returned to the caller (`char message[128]`). -/
structure CalcError where
  code : CalcErrorCode
  message : String
  deriving DecidableEq

/-- Capacity of both stacks. -/
def MAX_STACK_SIZE : Nat := 256

/-- The arguments of one failing `set_error` call. -/
abbrev Failure := CalcErrorCode × String

/-- The C library as seen by `calculator.c`: `double` with `+ - * /`, `pow`,
the test `x == 0.0`, and `strtod`.  `strtod s` returns the converted value and
the number of characters consumed (`endptr - s`); `0` means no conversion. -/
structure Arith (V : Type) where
  add : V → V → V
  sub : V → V → V
  mul : V → V → V
  div : V → V → V
  pow : V → V → V
  isZero : V → Bool
  strtod : List Char → V × Nat

/-! ## Utility functions -/

/-- Writes `code` and `msg` (cut to 127 characters by `snprintf`) through a
possibly null pointer. -/
def set_error (err : Option CalcError) (code : CalcErrorCode) (msg : String) :
    Option CalcError :=
  match err with
  | none => none
  | some _ => some ⟨code, ⟨msg.data.take 127⟩⟩

/-- Operator precedence; `-1` for anything that is not an operator. -/
def precedence (op : Char) : Int :=
  if op = '+' ∨ op = '-' then 1
  else if op = '*' ∨ op = '/' then 2
  else if op = '^' then 3
  else -1

/-- Only `^` is right-associative. -/
def is_right_associative (op : Char) : Bool :=
  op == '^'

/-- The five binary operators. -/
def is_operator (c : Char) : Bool :=
  c == '+' || c == '-' || c == '*' || c == '/' || c == '^'

/-- The `isspace` of the C locale. -/
def isspace (c : Char) : Bool :=
  c == ' ' || c == '\t' || c == '\n' || c == Char.ofNat 11 || c == Char.ofNat 12 || c == '\r'

/-- The `isdigit` of the C library. -/
def isdigit (c : Char) : Bool :=
  decide ('0' ≤ c ∧ c ≤ '9')

/-! ## The operator applier -/

/-- Apply an operator to the top two values on the value stack. -/
def apply_operator {V : Type} (A : Arith V) (op : Char) (val_stack : List V) :
    Except Failure (List V) :=
  match val_stack with
  | right :: left :: below =>
    if op = '+' then .ok (A.add left right :: below)
    else if op = '-' then .ok (A.sub left right :: below)
    else if op = '*' then .ok (A.mul left right :: below)
    else if op = '/' then
      if A.isZero right then .error (.CALC_ERR_DIV_BY_ZERO, "Division by zero")
      else .ok (A.div left right :: below)
    else if op = '^' then .ok (A.pow left right :: below)
    else .error (.CALC_ERR_UNKNOWN, "Unknown operator")
  | _ => .error (.CALC_ERR_SYNTAX, "Syntax error")

/-! ## The three reduction loops of `calc_evaluate` -/

/-- The loop run on `)` (lines 166-180): pop and apply operators until a `(`
is popped; an operator stack that empties first is a mismatch. -/
def reduce_to_lparen {V : Type} (A : Arith V) :
    List V → List Char → Except Failure (List V × List Char)
  | _, [] => .error (.CALC_ERR_SYNTAX, "Mismatched parentheses")
  | vs, op :: os =>
    if op = '(' then .ok (vs, os)
    else
      match apply_operator A op vs with
      | .error e => .error e
      | .ok vs' => reduce_to_lparen A vs' os

/-- The loop run on an operator `c` (lines 186-200): while the top of the
operator stack is an operator that binds at least as tightly, pop and apply. -/
def reduce_for_operator {V : Type} (A : Arith V) (c : Char) :
    List V → List Char → Except Failure (List V × List Char)
  | vs, [] => .ok (vs, [])
  | vs, top_op :: os =>
    if is_operator top_op then
      if precedence top_op > precedence c ∨
          (precedence top_op = precedence c ∧ is_right_associative c = false) then
        match apply_operator A top_op vs with
        | .error e => .error e
        | .ok vs' => reduce_for_operator A c vs' os
      else .ok (vs, top_op :: os)
    else .ok (vs, top_op :: os)

/-- The loop after the scan (lines 218-227): apply the remaining operators; a
parenthesis left on the stack is a mismatch. -/
def apply_remaining {V : Type} (A : Arith V) :
    List V → List Char → Except Failure (List V)
  | vs, [] => .ok vs
  | vs, op :: os =>
    if op = '(' ∨ op = ')' then .error (.CALC_ERR_SYNTAX, "Mismatched parentheses")
    else
      match apply_operator A op vs with
      | .error e => .error e
      | .ok vs' => apply_remaining A vs' os

/-- Lines 217-238: drain the operator stack, then require exactly one value
(`val_top == 0`). -/
def finish {V : Type} (A : Arith V) (vs : List V) (os : List Char) : Except Failure V :=
  match apply_remaining A vs os with
  | .error e => .error e
  | .ok [v] => .ok v
  | .ok _ => .error (.CALC_ERR_SYNTAX, "Syntax error")

/-! ## The scan loop and the public function -/

/-- The `while (expr[i] != 0)` loop (lines 130-215) followed by the final
reduction, as a function of the unread input and the two stacks. -/
def scan_loop {V : Type} (A : Arith V) :
    List Char → List V → List Char → Except Failure V
  | [], vs, os => finish A vs os
  | c :: rest, vs, os =>
    if isspace c then scan_loop A rest vs os
    else if isdigit c ∨ c = '.' then
      if (A.strtod (c :: rest)).2 = 0 then
        .error (.CALC_ERR_SYNTAX, "Invalid number")
      else if MAX_STACK_SIZE ≤ vs.length then
        .error (.CALC_ERR_UNKNOWN, "Value stack overflow")
      else
        scan_loop A ((c :: rest).drop (A.strtod (c :: rest)).2) ((A.strtod (c :: rest)).1 :: vs) os
    else if c = '(' then
      if MAX_STACK_SIZE ≤ os.length then
        .error (.CALC_ERR_UNKNOWN, "Operator stack overflow")
      else scan_loop A rest vs (c :: os)
    else if c = ')' then
      match reduce_to_lparen A vs os with
      | .error e => .error e
      | .ok (vs', os') => scan_loop A rest vs' os'
    else if is_operator c then
      match reduce_for_operator A c vs os with
      | .error e => .error e
      | .ok (vs', os') =>
        if MAX_STACK_SIZE ≤ os'.length then
          .error (.CALC_ERR_UNKNOWN, "Operator stack overflow")
        else scan_loop A rest vs' (c :: os')
    else .error (.CALC_ERR_SYNTAX, "Invalid character in expression")
termination_by s => s.length
decreasing_by
  all_goals simp_wf
  all_goals omega

/-- The public entry point.  `expr = none` is the null pointer; `out_result`
and `out_error` are `none` for a null pointer and otherwise hold the previous
contents of the pointed-to storage.  Returns the `bool` result and the
contents of the two output locations afterwards. -/
def calc_evaluate {V : Type} (A : Arith V) (expr : Option (List Char))
    (out_result : Option V) (out_error : Option CalcError) :
    Bool × Option V × Option CalcError :=
  match expr with
  | none => (false, out_result, set_error out_error .CALC_ERR_SYNTAX "Empty expression")
  | some s =>
    match scan_loop A s [] [] with
    | .error e => (false, out_result, set_error (set_error out_error .CALC_OK "") e.1 e.2)
    | .ok v => (true, out_result.map (fun _ => v), set_error out_error .CALC_OK "")

/-! ## A concrete instance: exact arithmetic on plain decimal literals

Used to run the definitions on concrete inputs.  Values are rationals, so
`+ - * /` are exact; literals are `digits`, `digits.digits`, `.digits` or
`digits.`.  A power with a non-integer exponent has no rational value in
general; the instance returns `0` there and nothing below uses such a power.
The theorems that quantify over `Arith` do not depend on this instance. -/

/-- The number written by a string of decimal digits. -/
def digitsValue (ds : List Char) : Nat :=
  ds.foldl (fun n c => 10 * n + (c.toNat - 48)) 0

/-- Longest-match conversion of a plain decimal literal at the head of `s`. -/
def decimalStrtod (s : List Char) : ℚ × Nat :=
  match s.dropWhile isdigit with
  | '.' :: r =>
    if (s.takeWhile isdigit).length + (r.takeWhile isdigit).length = 0 then (0, 0)
    else
      ((digitsValue (s.takeWhile isdigit ++ r.takeWhile isdigit) : ℚ)
          / 10 ^ (r.takeWhile isdigit).length,
        (s.takeWhile isdigit).length + 1 + (r.takeWhile isdigit).length)
  | _ =>
    if (s.takeWhile isdigit).length = 0 then (0, 0)
    else ((digitsValue (s.takeWhile isdigit) : ℚ), (s.takeWhile isdigit).length)

/-- Exact rational arithmetic with `decimalStrtod`. -/
def decimalArith : Arith ℚ where
  add := fun l r => l + r
  sub := fun l r => l - r
  mul := fun l r => l * r
  div := fun l r => l / r
  pow := fun l r => if r.den = 1 then l ^ r.num else 0
  isZero := fun r => decide (r = 0)
  strtod := decimalStrtod

/-! ## Reference semantics of infix expressions -/

/-- The value of `left op right` for the five operators. -/
def opValue {V : Type} (A : Arith V) (op : Char) (left right : V) : V :=
  if op = '+' then A.add left right
  else if op = '-' then A.sub left right
  else if op = '*' then A.mul left right
  else if op = '/' then A.div left right
  else A.pow left right

/-- What may follow a number literal inside an expression without
whitespace: the end of the text, an operator or a closing parenthesis. -/
def endsLiteral : List Char → Bool
  | [] => true
  | c :: _ => is_operator c || c == ')'

/-- The string `a` is an unsigned number literal for `A.strtod`: it starts
with a digit or `.`, and `strtod` converts exactly `a` whenever `a` is followed
by the end of the text, an operator or `)`. -/
def IsLiteral {V : Type} (A : Arith V) (a : List Char) : Prop :=
  (∃ c tl, a = c :: tl ∧ (isdigit c = true ∨ c = '.')) ∧
  ∀ rest, endsLiteral rest = true → A.strtod (a ++ rest) = ((A.strtod a).1, a.length)

/-- Infix expressions: number literals, binary operations, parentheses. -/
inductive Expr where
  | num (a : List Char)
  | bin (op : Char) (l r : Expr)
  | paren (e : Expr)

/-- The text of an expression, written without whitespace. -/
def Expr.text : Expr → List Char
  | .num a => a
  | .bin op l r => l.text ++ op :: r.text
  | .paren e => '(' :: (e.text ++ [')'])

/-- The value of an expression. -/
def Expr.value {V : Type} (A : Arith V) : Expr → V
  | .num a => (A.strtod a).1
  | .bin op l r => opValue A op (l.value A) (r.value A)
  | .paren e => e.value A

/-- A left operand `l` of `op` that is itself an unparenthesised operation
binds tighter, or equally tight when `op` is left-associative. -/
def Expr.leftOperandOk (op : Char) : Expr → Prop
  | .bin op' _ _ =>
    precedence op' > precedence op ∨ (precedence op' = precedence op ∧ op ≠ '^')
  | _ => True

/-- A right operand `r` of `op` that is itself an unparenthesised operation
binds tighter, or equally tight when `op` is the right-associative `^`. -/
def Expr.rightOperandOk (op : Char) : Expr → Prop
  | .bin op' _ _ =>
    precedence op' > precedence op ∨ (precedence op' = precedence op ∧ op = '^')
  | _ => True

/-- The tree is the reading of its own text under precedence
`^ > {*,/} > {+,-}`, left-associative `+ - * /` and right-associative `^`, and
its leaves are number literals. -/
def Expr.WellFormed {V : Type} (A : Arith V) : Expr → Prop
  | .num a => IsLiteral A a
  | .bin op l r =>
    is_operator op = true ∧ l.WellFormed A ∧ r.WellFormed A ∧
      Expr.leftOperandOk op l ∧ Expr.rightOperandOk op r
  | .paren e => e.WellFormed A

/-- No division in the expression has a divisor whose value is zero. -/
def Expr.NoZeroDivisor {V : Type} (A : Arith V) : Expr → Prop
  | .num _ => True
  | .bin op l r =>
    l.NoZeroDivisor A ∧ r.NoZeroDivisor A ∧ (op = '/' → A.isZero (r.value A) = false)
  | .paren e => e.NoZeroDivisor A

/-- Largest height the value stack reaches while the expression is
evaluated from empty stacks. -/
def Expr.valNeed : Expr → Nat
  | .num _ => 1
  | .bin _ l r => max l.valNeed (1 + r.valNeed)
  | .paren e => e.valNeed

/-- Largest height the operator stack reaches while the expression is
evaluated from empty stacks. -/
def Expr.opNeed : Expr → Nat
  | .num _ => 0
  | .bin _ l r => max l.opNeed (1 + r.opNeed)
  | .paren e => e.opNeed + 1

/-- Values left on the value stack once the text of the expression has been
read: the operands still waiting along the right spine, innermost first. -/
def Expr.pendingVals {V : Type} (A : Arith V) : Expr → List V
  | .bin _ l r => r.pendingVals A ++ [l.value A]
  | e => [e.value A]

/-- Operators left on the operator stack once the text of the expression has
been read: those of the right spine, innermost first. -/
def Expr.pendingOps : Expr → List Char
  | .bin op _ r => r.pendingOps ++ [op]
  | _ => []

/-- The condition under which the operator loop pops `top` when `c` arrives. -/
def pops (top c : Char) : Prop :=
  precedence top > precedence c ∨
    (precedence top = precedence c ∧ is_right_associative c = false)

/-- Every operator on the right spine is popped when `c` arrives. -/
def Expr.spinePops (c : Char) : Expr → Prop
  | .bin op _ r => pops op c ∧ r.spinePops c
  | _ => True

/-- The operator stack `os` lets the root operator of `e` through: its top, if
an operator, is not popped when that root operator arrives. -/
def stackAdmits (os : List Char) : Expr → Prop
  | .bin op _ _ =>
    match os with
    | [] => True
    | t :: _ => is_operator t = true → ¬ pops t op
  | _ => True

/-- The expression `(1+2)*3-4/2^3^2`. -/
def sampleExpr : Expr :=
  .bin '-' (.bin '*' (.paren (.bin '+' (.num ['1']) (.num ['2']))) (.num ['3']))
    (.bin '/' (.num ['4']) (.bin '^' (.num ['2']) (.bin '^' (.num ['3']) (.num ['2']))))

/-! ## Every expression of the grammar has a well-formed reading -/

/-- A derivation of the grammar `E ::= number | E op E | ( E )`, grouped in
any way. -/
def Expr.Grammatical {V : Type} (A : Arith V) : Expr → Prop
  | .num a => IsLiteral A a
  | .bin op l r => is_operator op = true ∧ l.Grammatical A ∧ r.Grammatical A
  | .paren e => e.Grammatical A

/-- Extend the reading `t` of a text by `op x`, where `x` is a literal or a
parenthesised expression: `op` goes down the right spine past every operator
that binds less tightly. -/
def Expr.attach (op : Char) (x : Expr) : Expr → Expr
  | .bin o l r =>
    if precedence o > precedence op ∨
        (precedence o = precedence op ∧ is_right_associative op = false) then
      .bin op (.bin o l r) x
    else .bin o l (Expr.attach op x r)
  | t => .bin op t x

/-- Extend a reading by a sequence `op₁ x₁ op₂ x₂ …`, left to right. -/
def Expr.attachAll (t : Expr) (xs : List (Char × Expr)) : Expr :=
  xs.foldl (fun t p => Expr.attach p.1 p.2 t) t

/-- The operands and operators of a derivation in text order, every
parenthesised part replaced by its reading. -/
def Expr.flatten : Expr → Expr × List (Char × Expr)
  | .num a => (.num a, [])
  | .paren e => (.paren (Expr.attachAll e.flatten.1 e.flatten.2), [])
  | .bin op l r => (l.flatten.1, l.flatten.2 ++ (op, r.flatten.1) :: r.flatten.2)

/-- The reading of the text of a derivation under precedence
`^ > {*,/} > {+,-}`, left-associative `+ - * /` and right-associative `^`. -/
def Expr.reading (e : Expr) : Expr :=
  Expr.attachAll e.flatten.1 e.flatten.2

/-- The text of a sequence `op₁ x₁ op₂ x₂ …`. -/
def tailText : List (Char × Expr) → List Char
  | [] => []
  | p :: ps => p.1 :: (p.2.text ++ tailText ps)

/-- A literal or a parenthesised expression. -/
def Expr.isOperand : Expr → Prop
  | .bin _ _ _ => False
  | _ => True

/-! ## The evaluation as a sequence of configurations

The same code, one loop iteration at a time, so that statements about "every
point of the evaluation" can be made.  `Config.outcome` ties each
configuration to the functions above. -/

/-- Control point and live variables of `calc_evaluate`. -/
inductive Config (V : Type) where
  /-- At the head of the scan loop with unread input `s`. -/
  | scanning (s : List Char) (vs : List V) (os : List Char)
  /-- At the head of the loop run on `)`, with `rest` unread after the `)`. -/
  | closing (rest : List Char) (vs : List V) (os : List Char)
  /-- At the head of the loop run on operator `c`, with `rest` unread after it. -/
  | reducing (c : Char) (rest : List Char) (vs : List V) (os : List Char)
  /-- At the head of the loop that applies the remaining operators. -/
  | draining (vs : List V) (os : List Char)

/-- One loop iteration; `none` when the function returns from this
configuration. -/
def Config.step {V : Type} (A : Arith V) : Config V → Option (Config V)
  | .scanning [] vs os => some (.draining vs os)
  | .scanning (c :: rest) vs os =>
    if isspace c then some (.scanning rest vs os)
    else if isdigit c ∨ c = '.' then
      if (A.strtod (c :: rest)).2 = 0 then none
      else if MAX_STACK_SIZE ≤ vs.length then none
      else
        some (.scanning ((c :: rest).drop (A.strtod (c :: rest)).2)
          ((A.strtod (c :: rest)).1 :: vs) os)
    else if c = '(' then
      if MAX_STACK_SIZE ≤ os.length then none
      else some (.scanning rest vs (c :: os))
    else if c = ')' then some (.closing rest vs os)
    else if is_operator c then some (.reducing c rest vs os)
    else none
  | .closing _ _ [] => none
  | .closing rest vs (op :: os) =>
    if op = '(' then some (.scanning rest vs os)
    else
      match apply_operator A op vs with
      | .error _ => none
      | .ok vs' => some (.closing rest vs' os)
  | .reducing c rest vs [] =>
    if MAX_STACK_SIZE ≤ ([] : List Char).length then none
    else some (.scanning rest vs [c])
  | .reducing c rest vs (top_op :: os) =>
    if is_operator top_op = true ∧ (precedence top_op > precedence c ∨
        (precedence top_op = precedence c ∧ is_right_associative c = false)) then
      match apply_operator A top_op vs with
      | .error _ => none
      | .ok vs' => some (.reducing c rest vs' os)
    else if MAX_STACK_SIZE ≤ (top_op :: os).length then none
    else some (.scanning rest vs (c :: top_op :: os))
  | .draining _ [] => none
  | .draining vs (op :: os) =>
    if op = '(' ∨ op = ')' then none
    else
      match apply_operator A op vs with
      | .error _ => none
      | .ok vs' => some (.draining vs' os)

/-- The call `apply_operator(op, val_stack)` made by the iteration that
starts at this configuration, if it makes one. -/
def Config.applies {V : Type} : Config V → Option (Char × List V)
  | .scanning _ _ _ => none
  | .closing _ _ [] => none
  | .closing _ vs (op :: _) => if op = '(' then none else some (op, vs)
  | .reducing _ _ _ [] => none
  | .reducing c _ vs (top_op :: _) =>
    if is_operator top_op = true ∧ (precedence top_op > precedence c ∨
        (precedence top_op = precedence c ∧ is_right_associative c = false)) then
      some (top_op, vs)
    else none
  | .draining _ [] => none
  | .draining vs (op :: _) => if op = '(' ∨ op = ')' then none else some (op, vs)

/-- What the evaluation returns when continued from a configuration. -/
def Config.outcome {V : Type} (A : Arith V) : Config V → Except Failure V
  | .scanning s vs os => scan_loop A s vs os
  | .closing rest vs os =>
    match reduce_to_lparen A vs os with
    | .error e => .error e
    | .ok (vs', os') => scan_loop A rest vs' os'
  | .reducing c rest vs os =>
    match reduce_for_operator A c vs os with
    | .error e => .error e
    | .ok (vs', os') =>
      if MAX_STACK_SIZE ≤ os'.length then
        .error (.CALC_ERR_UNKNOWN, "Operator stack overflow")
      else scan_loop A rest vs' (c :: os')
  | .draining vs os => finish A vs os

/-- The evaluation of `s` passes through configuration `cfg`. -/
def Visits {V : Type} (A : Arith V) (s : List Char) (cfg : Config V) : Prop :=
  Relation.ReflTransGen (fun a b => Config.step A a = some b) (.scanning s [] []) cfg

/-! ## Whitespace between tokens -/

/-- The text `s'` is `s` with whitespace characters inserted at positions where
the scanner stands between lexical elements of `s`: before the first token,
after the last one, or between two adjacent ones.  An element is a whitespace
character, a parenthesis, an operator, or the characters `strtod` consumes
for a number. -/
inductive Spaced {V : Type} (A : Arith V) : List Char → List Char → Prop where
  /-- Nothing (more) is inserted. -/
  | same (s : List Char) : Spaced A s s
  /-- A whitespace character is inserted here. -/
  | insert (w : Char) (s s' : List Char) (hw : isspace w = true) (h : Spaced A s s') :
      Spaced A s (w :: s')
  /-- A one-character element is kept and insertion goes on behind it. -/
  | keep (c : Char) (s s' : List Char)
      (hc : isspace c = true ∨ c = '(' ∨ c = ')' ∨ is_operator c = true)
      (h : Spaced A s s') : Spaced A (c :: s) (c :: s')
  /-- A number token `t`, as `strtod` delimits it in `t ++ s`, is kept and
  insertion goes on behind it. -/
  | number (t s s' : List Char)
      (ht : ∃ c tl, t = c :: tl ∧ (isdigit c = true ∨ c = '.'))
      (hconv : (A.strtod (t ++ s)).2 = t.length)
      (h : Spaced A s s') : Spaced A (t ++ s) (t ++ s')

/-- The texts `s` and `s'` begin alike for a number token that ends just
before them: they are equal, or `s'` begins with whitespace, or both begin
with the same character that can start or be a token. -/
def sameLead (s s' : List Char) : Prop :=
  s' = s ∨ (∃ w tl, s' = w :: tl ∧ isspace w = true) ∨
    ∃ c tl tl', s = c :: tl ∧ s' = c :: tl' ∧
      (isdigit c = true ∨ c = '.' ∨ c = '(' ∨ c = ')' ∨ is_operator c = true)

/-- What the library's `strtod` is assumed to satisfy for whitespace
insertion: a conversion that starts at a digit or `.` and consumes exactly `t`
does not depend on what follows `t` beyond the way it begins. -/
def StrtodLocal {V : Type} (A : Arith V) : Prop :=
  ∀ t s s' : List Char, (∃ c tl, t = c :: tl ∧ (isdigit c = true ∨ c = '.')) →
    (A.strtod (t ++ s)).2 = t.length → sameLead s s' →
    A.strtod (t ++ s') = A.strtod (t ++ s)

/-! ## Runs, tokens and stack invariants -/

/-- The value stack of a configuration. -/
def Config.vals {V : Type} : Config V → List V
  | .scanning _ vs _ => vs
  | .closing _ vs _ => vs
  | .reducing _ _ vs _ => vs
  | .draining vs _ => vs

/-- The operator stack of a configuration. -/
def Config.ops {V : Type} : Config V → List Char
  | .scanning _ _ os => os
  | .closing _ _ os => os
  | .reducing _ _ _ os => os
  | .draining _ os => os

/-- The input not yet read (the text behind the scan cursor). -/
def Config.unread {V : Type} : Config V → List Char
  | .scanning s _ _ => s
  | .closing rest _ _ => rest
  | .reducing _ rest _ _ => rest
  | .draining _ _ => []

/-- A bound on the number of loop iterations still to come: three per unread
character, one per stacked operator, and a constant for the control point. -/
def Config.potential {V : Type} : Config V → Nat
  | .scanning s _ os => 3 * s.length + os.length + 2
  | .closing rest _ os => 3 * rest.length + os.length + 4
  | .reducing _ rest _ os => 3 * rest.length + os.length + 4
  | .draining _ os => os.length + 1

/-- The configurations passed through from `cfg` on, at most `n` iterations. -/
def Config.runFor {V : Type} (A : Arith V) : Nat → Config V → List (Config V)
  | 0, cfg => [cfg]
  | n + 1, cfg =>
    match Config.step A cfg with
    | none => [cfg]
    | some cfg' => cfg :: Config.runFor A n cfg'

/-- The configurations passed through from `cfg` until the function returns;
`Config.potential` iterations are enough (`run_ends`). -/
def Config.run {V : Type} (A : Arith V) (cfg : Config V) : List (Config V) :=
  Config.runFor A cfg.potential cfg

/-- Tokens as the scanner delimits them. -/
inductive Token (V : Type) where
  | number (v : V)
  | operator (c : Char)
  | lparen
  | rparen

/-- The token read by the scan-loop iteration that starts at this
configuration, if it reads one. -/
def Config.token {V : Type} (A : Arith V) : Config V → Option (Token V)
  | .scanning (c :: rest) _ _ =>
    if isspace c then none
    else if isdigit c ∨ c = '.' then
      if (A.strtod (c :: rest)).2 = 0 then none
      else some (.number (A.strtod (c :: rest)).1)
    else if c = '(' then some .lparen
    else if c = ')' then some .rparen
    else if is_operator c then some (.operator c)
    else none
  | _ => none

/-- The tokens scanned while `s` is evaluated, in order. -/
def tokensScanned {V : Type} (A : Arith V) (s : List Char) : List (Token V) :=
  (Config.run A (.scanning s [] [])).filterMap (Config.token A)

/-- Number of number tokens in a token sequence. -/
def numberCount {V : Type} : List (Token V) → Nat
  | [] => 0
  | .number _ :: ts => numberCount ts + 1
  | _ :: ts => numberCount ts

/-- Number of operator tokens in a token sequence. -/
def operatorCount {V : Type} : List (Token V) → Nat
  | [] => 0
  | .operator _ :: ts => operatorCount ts + 1
  | _ :: ts => operatorCount ts

/-- Number of calls of `apply_operator` made along a list of configurations. -/
def applicationCount {V : Type} : List (Config V) → Nat
  | [] => 0
  | cfg :: cfgs =>
    (match cfg.applies with
      | some _ => 1
      | none => 0) + applicationCount cfgs

/-- Operators waiting to be applied: the entries of the operator stack other
than `(`, and the operator in hand inside the operator loop. -/
def Config.pendingOperators {V : Type} : Config V → Nat
  | .reducing c _ _ os => (c :: os).countP (fun x => x != '(')
  | cfg => cfg.ops.countP (fun x => x != '(')

/-- Token sequences of the grammar `E ::= number | E op E | ( E )`. -/
inductive InfixTokens {V : Type} : List (Token V) → Prop where
  | number (v : V) : InfixTokens [.number v]
  | binary (l r : List (Token V)) (c : Char) (hl : InfixTokens l) (hr : InfixTokens r) :
      InfixTokens (l ++ .operator c :: r)
  | paren (e : List (Token V)) (he : InfixTokens e) :
      InfixTokens (.lparen :: (e ++ [.rparen]))

/-- With `k` parentheses already open, the text `s` never closes more than
are open and closes them all: every beginning of `s` has at most `k` more `)`
than `(`, and the whole has exactly `k` more. -/
def BalancedFrom (k : Nat) (s : List Char) : Prop :=
  (∀ n, (s.take n).count ')' ≤ k + (s.take n).count '(') ∧ k + s.count '(' = s.count ')'

/-- What the library's `strtod` is assumed to satisfy for parenthesis
counting: a conversion that starts at a digit or `.` consumes no parenthesis. -/
def StrtodNoParen {V : Type} (A : Arith V) : Prop :=
  ∀ (c : Char) (rest : List Char), (isdigit c = true ∨ c = '.') →
    ∀ x ∈ (c :: rest).take (A.strtod (c :: rest)).2, x ≠ '(' ∧ x ≠ ')'

/-- The operator stack holds only `(` and the five operators. -/
def stackSymbols (os : List Char) : Prop :=
  ∀ c ∈ os, c = '(' ∨ is_operator c = true

/-- Order of the operator stack, top first: of two operators with `y`
directly above `x`, either `x` binds less tightly, or equally tightly and `y`
is `^`. -/
def stackOrdered (os : List Char) : Prop :=
  List.Chain' (fun y x => is_operator y = true → is_operator x = true →
    precedence x < precedence y ∨ (precedence x = precedence y ∧ y = '^')) os

/-- What holds at every configuration an evaluation passes through: both
stacks within capacity, the operator stack made of `(` and operators in
precedence order, and an operator in hand inside the operator loop. -/
def Config.invariant {V : Type} (cfg : Config V) : Prop :=
  cfg.vals.length ≤ MAX_STACK_SIZE ∧ cfg.ops.length ≤ MAX_STACK_SIZE ∧
    stackSymbols cfg.ops ∧ stackOrdered cfg.ops ∧
    match cfg with
    | .reducing c _ _ _ => is_operator c = true
    | _ => True

/-- Both configurations are at the head of the same reduction loop. -/
def Config.sameLoop {V : Type} : Config V → Config V → Prop
  | .closing _ _ _, .closing _ _ _ => True
  | .reducing _ _ _ _, .reducing _ _ _ _ => True
  | .draining _ _, .draining _ _ => True
  | _, _ => False

/-! ## Step lemmas for the scan loop -/

section Steps

variable {V : Type} (A : Arith V)

theorem scan_loop_nil (vs : List V) (os : List Char) :
    scan_loop A [] vs os = finish A vs os := by
  rw [scan_loop]

theorem scan_loop_space (c : Char) (rest : List Char) (vs : List V) (os : List Char)
    (hc : isspace c = true) :
    scan_loop A (c :: rest) vs os = scan_loop A rest vs os := by
  rw [scan_loop]; simp [hc]

theorem scan_loop_lparen (rest : List Char) (vs : List V) (os : List Char)
    (hcap : os.length < MAX_STACK_SIZE) :
    scan_loop A ('(' :: rest) vs os = scan_loop A rest vs ('(' :: os) := by
  rw [scan_loop]
  have h1 : isspace '(' = false := by decide
  have h2 : isdigit '(' = false := by decide
  simp [h1, h2, Nat.not_le.mpr hcap]

theorem scan_loop_rparen (rest : List Char) (vs : List V) (os : List Char) :
    scan_loop A (')' :: rest) vs os =
      match reduce_to_lparen A vs os with
      | .error e => .error e
      | .ok (vs', os') => scan_loop A rest vs' os' := by
  rw [scan_loop]
  have h1 : isspace ')' = false := by decide
  have h2 : isdigit ')' = false := by decide
  simp [h1, h2]

theorem is_operator_iff (c : Char) :
    is_operator c = true ↔ c = '+' ∨ c = '-' ∨ c = '*' ∨ c = '/' ∨ c = '^' := by
  simp [is_operator, or_assoc]

theorem isspace_iff (c : Char) :
    isspace c = true ↔
      c = ' ' ∨ c = '\t' ∨ c = '\n' ∨ c = Char.ofNat 11 ∨ c = Char.ofNat 12 ∨ c = '\r' := by
  simp [isspace, or_assoc]

theorem isspace_of_literal_start (c : Char) (h : isdigit c = true ∨ c = '.') :
    isspace c = false := by
  cases hs : isspace c with
  | false => rfl
  | true =>
    exfalso
    rcases (isspace_iff c).mp hs with h' | h' | h' | h' | h' | h' <;> subst h' <;>
      revert h <;> decide

theorem scan_loop_operator (c : Char) (rest : List Char) (vs : List V) (os : List Char)
    (hc : is_operator c = true) :
    scan_loop A (c :: rest) vs os =
      match reduce_for_operator A c vs os with
      | .error e => .error e
      | .ok (vs', os') =>
        if MAX_STACK_SIZE ≤ os'.length then
          .error (.CALC_ERR_UNKNOWN, "Operator stack overflow")
        else scan_loop A rest vs' (c :: os') := by
  have h1 : isspace c = false ∧ isdigit c = false ∧ c ≠ '.' ∧ c ≠ '(' ∧ c ≠ ')' := by
    rcases (is_operator_iff c).mp hc with h | h | h | h | h <;> subst h <;> decide
  rw [scan_loop]
  simp [h1.1, h1.2.1, h1.2.2.1, h1.2.2.2.1, h1.2.2.2.2, hc]

theorem scan_loop_literal (a rest : List Char) (v : V) (vs : List V) (os : List Char)
    (hstart : ∃ c tl, a = c :: tl ∧ (isdigit c = true ∨ c = '.'))
    (hconv : A.strtod (a ++ rest) = (v, a.length))
    (hcap : vs.length < MAX_STACK_SIZE) :
    scan_loop A (a ++ rest) vs os = scan_loop A rest (v :: vs) os := by
  obtain ⟨c, tl, rfl, hc⟩ := hstart
  have hs := isspace_of_literal_start c hc
  have hconv' : A.strtod (c :: (tl ++ rest)) = (v, tl.length + 1) := by
    simpa using hconv
  have hdrop : List.drop (tl.length + 1) (c :: (tl ++ rest)) = rest := by
    simp
  rw [List.cons_append, scan_loop]
  simp only [hs, hconv', hdrop]
  simp [hc, Nat.not_le.mpr hcap]

end Steps

/-! ## Reductions along the right spine -/

section Spine

variable {V : Type} (A : Arith V)

theorem apply_operator_ok (op : Char) (l r : V) (vs : List V)
    (hop : is_operator op = true) (hz : op = '/' → A.isZero r = false) :
    apply_operator A op (r :: l :: vs) = .ok (opValue A op l r :: vs) := by
  rcases (is_operator_iff op).mp hop with h | h | h | h | h <;> subst h <;>
    simp [apply_operator, opValue] at hz ⊢
  simp [hz]

theorem precedence_of_operator (c : Char) (hc : is_operator c = true) :
    c = '^' ∧ precedence c = 3 ∨ c ≠ '^' ∧ (precedence c = 1 ∨ precedence c = 2) := by
  rcases (is_operator_iff c).mp hc with h | h | h | h | h <;> subst h <;> decide

theorem pops_mono (top top' c : Char) (h : pops top c)
    (hle : precedence top ≤ precedence top') : pops top' c := by
  unfold pops at *
  rcases h with h | ⟨h1, h2⟩
  · left; omega
  · rcases lt_or_eq_of_le hle with h3 | h3
    · left; omega
    · right; exact ⟨by omega, h2⟩

theorem spinePops_of_root (c op : Char) (l r : Expr)
    (hwf : (Expr.bin op l r).WellFormed A) (hp : pops op c) :
    (Expr.bin op l r).spinePops c := by
  induction r generalizing op l with
  | num a => exact ⟨hp, trivial⟩
  | paren e _ => exact ⟨hp, trivial⟩
  | bin op' l' r' _ ihr =>
    obtain ⟨_, _, hwr, _, hr⟩ := hwf
    refine ⟨hp, ihr op' l' hwr (pops_mono op op' c hp ?_)⟩
    simp only [Expr.rightOperandOk] at hr
    rcases hr with hr | ⟨hr, _⟩ <;> omega

theorem reduce_for_operator_spine (c : Char) (e : Expr) (vs : List V) (os : List Char)
    (hwf : e.WellFormed A) (hnz : e.NoZeroDivisor A) (hp : e.spinePops c) :
    reduce_for_operator A c (e.pendingVals A ++ vs) (e.pendingOps ++ os) =
      reduce_for_operator A c (e.value A :: vs) os := by
  induction e generalizing vs os with
  | num a => simp [Expr.pendingVals, Expr.pendingOps]
  | paren e _ => simp [Expr.pendingVals, Expr.pendingOps]
  | bin op l r _ ihr =>
    obtain ⟨hop, _, hwr, _, _⟩ := hwf
    obtain ⟨_, hnr, hz⟩ := hnz
    obtain ⟨hpo, hpr⟩ := hp
    simp only [Expr.pendingVals, Expr.pendingOps, List.append_assoc, List.singleton_append]
    rw [ihr _ _ hwr hnr hpr, reduce_for_operator]
    have hpo' : precedence op > precedence c ∨
        (precedence op = precedence c ∧ is_right_associative c = false) := hpo
    simp only [hop, if_true, hpo', apply_operator_ok A op _ _ vs hop hz]
    rfl

theorem reduce_to_lparen_spine (e : Expr) (vs : List V) (os : List Char)
    (hwf : e.WellFormed A) (hnz : e.NoZeroDivisor A) :
    reduce_to_lparen A (e.pendingVals A ++ vs) (e.pendingOps ++ os) =
      reduce_to_lparen A (e.value A :: vs) os := by
  induction e generalizing vs os with
  | num a => simp [Expr.pendingVals, Expr.pendingOps]
  | paren e _ => simp [Expr.pendingVals, Expr.pendingOps]
  | bin op l r _ ihr =>
    obtain ⟨hop, _, hwr, _, _⟩ := hwf
    obtain ⟨_, hnr, hz⟩ := hnz
    simp only [Expr.pendingVals, Expr.pendingOps, List.append_assoc, List.singleton_append]
    rw [ihr _ _ hwr hnr, reduce_to_lparen]
    have hne : op ≠ '(' := by
      rcases (is_operator_iff op).mp hop with h | h | h | h | h <;> subst h <;> decide
    simp only [hne, if_false, apply_operator_ok A op _ _ vs hop hz]
    rfl

theorem apply_remaining_spine (e : Expr) (vs : List V) (os : List Char)
    (hwf : e.WellFormed A) (hnz : e.NoZeroDivisor A) :
    apply_remaining A (e.pendingVals A ++ vs) (e.pendingOps ++ os) =
      apply_remaining A (e.value A :: vs) os := by
  induction e generalizing vs os with
  | num a => simp [Expr.pendingVals, Expr.pendingOps]
  | paren e _ => simp [Expr.pendingVals, Expr.pendingOps]
  | bin op l r _ ihr =>
    obtain ⟨hop, _, hwr, _, _⟩ := hwf
    obtain ⟨_, hnr, hz⟩ := hnz
    simp only [Expr.pendingVals, Expr.pendingOps, List.append_assoc, List.singleton_append]
    rw [ihr _ _ hwr hnr, apply_remaining]
    have hne : ¬ (op = '(' ∨ op = ')') := by
      rcases (is_operator_iff op).mp hop with h | h | h | h | h <;> subst h <;> decide
    simp only [hne, if_false, apply_operator_ok A op _ _ vs hop hz]
    rfl

end Spine

/-! ## Scanning the text of a well-formed expression -/

section Scan

variable {V : Type} (A : Arith V)

theorem stackAdmits_left (os : List Char) (op : Char) (l r : Expr)
    (hop : is_operator op = true)
    (h : stackAdmits os (.bin op l r)) (hl : Expr.leftOperandOk op l) :
    stackAdmits os l := by
  cases l with
  | num a => trivial
  | paren e => trivial
  | bin op' l' r' =>
    cases os with
    | nil => trivial
    | cons t os' =>
      intro ht hp
      apply h ht
      simp only [Expr.leftOperandOk] at hl
      unfold pops at *
      have hra : is_right_associative op = false ↔ op ≠ '^' := by
        simp [is_right_associative]
      rcases precedence_of_operator op hop with ⟨h1, h2⟩ | ⟨h1, h2⟩
      · rcases hl with hl | ⟨_, hl⟩
        · rcases hp with hp | ⟨hp, _⟩ <;> left <;> omega
        · exact absurd h1 hl
      · rw [hra]
        rcases hl with hl | ⟨hl, _⟩
        · rcases hp with hp | ⟨hp, _⟩ <;> left <;> omega
        · rcases hp with hp | ⟨hp, _⟩
          · left; omega
          · right; exact ⟨by omega, h1⟩

theorem stackAdmits_right (os : List Char) (op : Char) (r : Expr)
    (hwr : r.WellFormed A) (hr : Expr.rightOperandOk op r) :
    stackAdmits (op :: os) r := by
  cases r with
  | num a => trivial
  | paren e => trivial
  | bin op' l' r' =>
    intro _ hp
    simp only [Expr.rightOperandOk] at hr
    unfold pops at hp
    rcases hr with hr | ⟨hr, hop⟩
    · rcases hp with hp | ⟨hp, _⟩ <;> omega
    · rcases hp with hp | ⟨_, hp⟩
      · omega
      · subst hop
        rcases precedence_of_operator op' hwr.1 with ⟨h1, _⟩ | ⟨_, h2⟩
        · subst h1; simp [is_right_associative] at hp
        · have h3 : precedence '^' = 3 := by decide
          omega

theorem reduce_for_operator_stop (c : Char) (vs : List V) (os : List Char)
    (h : match os with
      | [] => True
      | t :: _ => is_operator t = true → ¬ pops t c) :
    reduce_for_operator A c vs os = .ok (vs, os) := by
  cases os with
  | nil => rw [reduce_for_operator]
  | cons t os' =>
    rw [reduce_for_operator]
    cases ht : is_operator t with
    | false => simp
    | true =>
      have hn : ¬ (precedence t > precedence c ∨
          (precedence t = precedence c ∧ is_right_associative c = false)) := h ht
      simp [hn]

theorem endsLiteral_operator (c : Char) (rest : List Char) (hc : is_operator c = true) :
    endsLiteral (c :: rest) = true := by
  simp [endsLiteral, hc]

theorem scan_loop_expr (e : Expr) (rest : List Char) (vs : List V) (os : List Char)
    (hwf : e.WellFormed A) (hnz : e.NoZeroDivisor A)
    (hadm : stackAdmits os e) (hrest : endsLiteral rest = true)
    (hv : vs.length + e.valNeed ≤ MAX_STACK_SIZE)
    (ho : os.length + e.opNeed ≤ MAX_STACK_SIZE) :
    scan_loop A (e.text ++ rest) vs os =
      scan_loop A rest (e.pendingVals A ++ vs) (e.pendingOps ++ os) := by
  induction e generalizing rest vs os with
  | num a =>
    simp only [Expr.valNeed] at hv
    simp only [Expr.text, Expr.pendingVals, Expr.pendingOps, Expr.value, List.nil_append,
      List.singleton_append]
    exact scan_loop_literal A a rest _ vs os hwf.1 (hwf.2 rest hrest) (by omega)
  | paren e ih =>
    simp only [Expr.opNeed] at ho
    simp only [Expr.valNeed] at hv
    simp only [Expr.text, Expr.pendingVals, Expr.pendingOps, Expr.value, List.nil_append,
      List.singleton_append, List.cons_append, List.append_assoc]
    rw [scan_loop_lparen A _ vs os (by omega)]
    rw [ih (')' :: rest) vs ('(' :: os) hwf hnz (by cases e <;> simp [stackAdmits, is_operator])
      (by simp [endsLiteral]) hv (by simp only [List.length_cons]; omega)]
    rw [scan_loop_rparen, reduce_to_lparen_spine A e vs ('(' :: os) hwf hnz, reduce_to_lparen]
    simp
  | bin op l r ihl ihr =>
    obtain ⟨hop, hwl, hwr, hlo, hro⟩ := hwf
    obtain ⟨hnl, hnr, hz⟩ := hnz
    simp only [Expr.opNeed] at ho
    simp only [Expr.valNeed] at hv
    have hv1 := le_max_left l.valNeed (1 + r.valNeed)
    have hv2 := le_max_right l.valNeed (1 + r.valNeed)
    have ho1 := le_max_left l.opNeed (1 + r.opNeed)
    have ho2 := le_max_right l.opNeed (1 + r.opNeed)
    have hadml := stackAdmits_left os op l r hop hadm hlo
    simp only [Expr.text, List.append_assoc, List.cons_append]
    rw [ihl (op :: (r.text ++ rest)) vs os hwl hnl hadml (endsLiteral_operator op _ hop)
      (by omega) (by omega)]
    rw [scan_loop_operator A op _ _ _ hop]
    have hsp : l.spinePops op := by
      cases l with
      | num a => trivial
      | paren e => trivial
      | bin op' l' r' =>
        apply spinePops_of_root A op op' l' r' hwl
        simp only [Expr.leftOperandOk] at hlo
        unfold pops
        rcases hlo with h | ⟨h1, h2⟩
        · left; exact h
        · right; exact ⟨h1, by simp [is_right_associative, h2]⟩
    rw [reduce_for_operator_spine A op l vs os hwl hnl hsp]
    rw [reduce_for_operator_stop A op (l.value A :: vs) os (by
      cases os with
      | nil => trivial
      | cons t os' => exact hadm)]
    have hcap : ¬ MAX_STACK_SIZE ≤ os.length := by omega
    simp only [hcap, if_false]
    rw [ihr rest (l.value A :: vs) (op :: os) hwr hnr (stackAdmits_right A os op r hwr hro) hrest
      (by simp only [List.length_cons]; omega) (by simp only [List.length_cons]; omega)]
    simp [Expr.pendingVals, Expr.pendingOps]

/-- The core result on the text of a well-formed expression. -/
theorem scan_loop_wellformed (e : Expr)
    (hwf : e.WellFormed A) (hnz : e.NoZeroDivisor A)
    (hv : e.valNeed ≤ MAX_STACK_SIZE) (ho : e.opNeed ≤ MAX_STACK_SIZE) :
    scan_loop A e.text [] [] = .ok (e.value A) := by
  have h := scan_loop_expr A e [] [] [] hwf hnz (by cases e <;> simp [stackAdmits])
    (by simp [endsLiteral]) (by simpa using hv) (by simpa using ho)
  simp only [List.append_nil] at h
  rw [h, scan_loop_nil, finish]
  have h2 := apply_remaining_spine A e [] [] hwf hnz
  simp only [List.append_nil] at h2
  rw [h2, apply_remaining]

end Scan

/-! ## Literals of the concrete instance, and whole expressions -/

theorem not_digit_of_endsLiteral (c : Char) (tl : List Char)
    (h : endsLiteral (c :: tl) = true) : isdigit c = false ∧ c ≠ '.' := by
  simp only [endsLiteral, Bool.or_eq_true, beq_iff_eq] at h
  rcases h with h | h
  · rcases (is_operator_iff c).mp h with h | h | h | h | h <;> subst h <;> decide
  · subst h; decide

theorem takeWhile_digits (ds rest : List Char) (hds : ∀ c ∈ ds, isdigit c = true)
    (hrest : endsLiteral rest = true) :
    (ds ++ rest).takeWhile isdigit = ds ∧ (ds ++ rest).dropWhile isdigit = rest := by
  induction ds with
  | nil =>
    cases rest with
    | nil => simp
    | cons c tl =>
      have h := (not_digit_of_endsLiteral c tl hrest).1
      simp [List.takeWhile, List.dropWhile, h]
  | cons d ds ih =>
    have hd : isdigit d = true := hds d (by simp)
    have ih' := ih (fun c hc => hds c (by simp [hc]))
    simp [List.takeWhile, List.dropWhile, hd, ih'.1, ih'.2]

theorem decimalStrtod_digits (ds rest : List Char) (hne : ds ≠ [])
    (hds : ∀ c ∈ ds, isdigit c = true) (hrest : endsLiteral rest = true) :
    decimalStrtod (ds ++ rest) = ((digitsValue ds : ℚ), ds.length) := by
  obtain ⟨htw, hdw⟩ := takeWhile_digits ds rest hds hrest
  have hlen : ds.length ≠ 0 := by
    cases ds with
    | nil => exact absurd rfl hne
    | cons d tl => simp
  unfold decimalStrtod
  rw [hdw, htw]
  cases rest with
  | nil => simp [hlen]
  | cons c tl =>
    have hc := (not_digit_of_endsLiteral c tl hrest).2
    split
    · rename_i r heq
      simp only [List.cons.injEq] at heq
      exact absurd heq.1 hc
    · simp [hlen]

theorem isLiteral_digits (ds : List Char) (hne : ds ≠ [])
    (hds : ∀ c ∈ ds, isdigit c = true) : IsLiteral decimalArith ds := by
  refine ⟨?_, ?_⟩
  · cases ds with
    | nil => exact absurd rfl hne
    | cons d tl => exact ⟨d, tl, rfl, Or.inl (hds d (by simp))⟩
  · intro rest hrest
    have h0 := decimalStrtod_digits ds [] hne hds (by simp [endsLiteral])
    simp only [List.append_nil] at h0
    show decimalStrtod (ds ++ rest) = ((decimalStrtod ds).1, ds.length)
    rw [decimalStrtod_digits ds rest hne hds hrest, h0]

theorem strtod_digits_value (ds : List Char) (hne : ds ≠ [])
    (hds : ∀ c ∈ ds, isdigit c = true) :
    (decimalArith.strtod ds).1 = (digitsValue ds : ℚ) := by
  have h0 := decimalStrtod_digits ds [] hne hds (by simp [endsLiteral])
  simp only [List.append_nil] at h0
  show (decimalStrtod ds).1 = _
  rw [h0]

/-- C1: the text of every well-formed infix expression (unsigned literals,
`+ - * / ^`, parentheses) that needs at most 256 entries on either stack and
has no zero divisor evaluates successfully to its value under precedence
`^ > {*,/} > {+,-}`, left-associative `+ - * /` and right-associative `^`.
The well-formed trees are the readings of all texts of the grammar
(`reading_wellFormed`), and the two needs are exact
(`scan_loop_need_exceeded`). -/
theorem calc_evaluate_wellformed {V : Type} (A : Arith V) (e : Expr)
    (hwf : e.WellFormed A) (hnz : e.NoZeroDivisor A)
    (hv : e.valNeed ≤ MAX_STACK_SIZE) (ho : e.opNeed ≤ MAX_STACK_SIZE)
    (out_result : Option V) (out_error : Option CalcError) :
    calc_evaluate A (some e.text) out_result out_error =
      (true, out_result.map (fun _ => e.value A), set_error out_error .CALC_OK "") := by
  simp only [calc_evaluate, scan_loop_wellformed A e hwf hnz hv ho]

theorem sampleExpr_wf : sampleExpr.WellFormed decimalArith := by
  have hlit : ∀ d : Char, isdigit d = true → IsLiteral decimalArith [d] := fun d hd =>
    isLiteral_digits [d] (by simp) (by simpa using hd)
  simp only [sampleExpr, Expr.WellFormed, Expr.leftOperandOk, Expr.rightOperandOk]
  refine ⟨by decide,
    ⟨by decide, ⟨by decide, ?_, ?_, trivial, trivial⟩, ?_, by decide, trivial⟩,
    ⟨by decide, ?_, ⟨by decide, ?_, ⟨by decide, ?_, ?_, trivial, trivial⟩, trivial, by decide⟩,
      trivial, by decide⟩,
    by decide, by decide⟩ <;> exact hlit _ (by decide)

theorem opValue_decimal (l r : ℚ) :
    opValue decimalArith '+' l r = l + r ∧ opValue decimalArith '-' l r = l - r ∧
    opValue decimalArith '*' l r = l * r ∧ opValue decimalArith '/' l r = l / r ∧
    opValue decimalArith '^' l r = (if r.den = 1 then l ^ r.num else 0) := by
  refine ⟨?_, ?_, ?_, ?_, ?_⟩ <;> simp [opValue, decimalArith]

theorem strtod_digit_value (d : Char) (n : ℕ) (hd : isdigit d = true) (hn : d.toNat - 48 = n) :
    (decimalArith.strtod [d]).1 = (n : ℚ) := by
  rw [strtod_digits_value [d] (by simp) (by simpa using hd)]
  simp [digitsValue, hn]

theorem strtod_small_digits :
    (decimalArith.strtod ['0']).1 = 0 ∧ (decimalArith.strtod ['1']).1 = 1 ∧
    (decimalArith.strtod ['2']).1 = 2 ∧ (decimalArith.strtod ['3']).1 = 3 ∧
    (decimalArith.strtod ['4']).1 = 4 := by
  refine ⟨?_, ?_, ?_, ?_, ?_⟩
  · simpa using strtod_digit_value '0' 0 (by decide) (by decide)
  · simpa using strtod_digit_value '1' 1 (by decide) (by decide)
  · simpa using strtod_digit_value '2' 2 (by decide) (by decide)
  · simpa using strtod_digit_value '3' 3 (by decide) (by decide)
  · simpa using strtod_digit_value '4' 4 (by decide) (by decide)

theorem isLiteral_digit (d : Char) (hd : isdigit d = true) : IsLiteral decimalArith [d] :=
  isLiteral_digits [d] (by simp) (by simpa using hd)

theorem sampleExpr_nz : sampleExpr.NoZeroDivisor decimalArith := by
  obtain ⟨_, h1, h2, h3, h4⟩ := strtod_small_digits
  simp only [sampleExpr, Expr.NoZeroDivisor, Expr.value, h1, h2, h3, h4, (opValue_decimal _ _).1,
    (opValue_decimal _ _).2.1, (opValue_decimal _ _).2.2.1, (opValue_decimal _ _).2.2.2.1,
    (opValue_decimal _ _).2.2.2.2]
  norm_num [decimalArith]

/-- Witness for C1 on `(1+2)*3-4/2^3^2` in exact decimal arithmetic. -/
theorem calc_evaluate_wellformed_witness :
    sampleExpr.WellFormed decimalArith ∧ sampleExpr.NoZeroDivisor decimalArith ∧
    sampleExpr.valNeed ≤ MAX_STACK_SIZE ∧ sampleExpr.opNeed ≤ MAX_STACK_SIZE ∧
    calc_evaluate decimalArith (some sampleExpr.text) (some 0) (some ⟨.CALC_ERR_UNKNOWN, "x"⟩) =
      (true, (some (0 : ℚ)).map (fun _ => sampleExpr.value decimalArith),
        set_error (some ⟨.CALC_ERR_UNKNOWN, "x"⟩) .CALC_OK "") :=
  ⟨sampleExpr_wf, sampleExpr_nz, by decide, by decide,
    calc_evaluate_wellformed decimalArith sampleExpr sampleExpr_wf sampleExpr_nz
      (by decide) (by decide) _ _⟩

theorem calc_three_literals_right {V : Type} (A : Arith V) (a b c : List Char) (op1 op2 : Char)
    (ha : IsLiteral A a) (hb : IsLiteral A b) (hc : IsLiteral A c)
    (h1 : is_operator op1 = true) (h2 : is_operator op2 = true)
    (hr : precedence op2 > precedence op1 ∨ (precedence op2 = precedence op1 ∧ op1 = '^'))
    (hz2 : op2 = '/' → A.isZero (A.strtod c).1 = false)
    (hz1 : op1 = '/' → A.isZero (opValue A op2 (A.strtod b).1 (A.strtod c).1) = false) :
    scan_loop A (a ++ op1 :: (b ++ op2 :: c)) [] [] =
      .ok (opValue A op1 (A.strtod a).1 (opValue A op2 (A.strtod b).1 (A.strtod c).1)) := by
  have h := scan_loop_wellformed A (.bin op1 (.num a) (.bin op2 (.num b) (.num c)))
    ⟨h1, ha, ⟨h2, hb, hc, trivial, trivial⟩, trivial, hr⟩
    ⟨trivial, ⟨trivial, trivial, hz2⟩, hz1⟩
    (by simp [Expr.valNeed, MAX_STACK_SIZE]) (by simp [Expr.opNeed, MAX_STACK_SIZE])
  simpa [Expr.text, Expr.value] using h

theorem calc_three_literals_left {V : Type} (A : Arith V) (a b c : List Char) (op1 op2 : Char)
    (ha : IsLiteral A a) (hb : IsLiteral A b) (hc : IsLiteral A c)
    (h1 : is_operator op1 = true) (h2 : is_operator op2 = true)
    (hl : precedence op1 > precedence op2 ∨ (precedence op1 = precedence op2 ∧ op2 ≠ '^'))
    (hz1 : op1 = '/' → A.isZero (A.strtod b).1 = false)
    (hz2 : op2 = '/' → A.isZero (A.strtod c).1 = false) :
    scan_loop A (a ++ op1 :: (b ++ op2 :: c)) [] [] =
      .ok (opValue A op2 (opValue A op1 (A.strtod a).1 (A.strtod b).1) (A.strtod c).1) := by
  have h := scan_loop_wellformed A (.bin op2 (.bin op1 (.num a) (.num b)) (.num c))
    ⟨h2, ⟨h1, ha, hb, trivial, trivial⟩, hc, hl, trivial⟩
    ⟨⟨trivial, trivial, hz1⟩, trivial, hz2⟩
    (by simp [Expr.valNeed, MAX_STACK_SIZE]) (by simp [Expr.opNeed, MAX_STACK_SIZE])
  simpa [Expr.text, Expr.value] using h

theorem calc_paren_then_literal {V : Type} (A : Arith V) (a b c : List Char) (op1 op2 : Char)
    (ha : IsLiteral A a) (hb : IsLiteral A b) (hc : IsLiteral A c)
    (h1 : is_operator op1 = true) (h2 : is_operator op2 = true)
    (hz1 : op1 = '/' → A.isZero (A.strtod b).1 = false)
    (hz2 : op2 = '/' → A.isZero (A.strtod c).1 = false) :
    scan_loop A ('(' :: (a ++ op1 :: (b ++ ')' :: op2 :: c))) [] [] =
      .ok (opValue A op2 (opValue A op1 (A.strtod a).1 (A.strtod b).1) (A.strtod c).1) := by
  have h := scan_loop_wellformed A (.bin op2 (.paren (.bin op1 (.num a) (.num b))) (.num c))
    ⟨h2, ⟨h1, ha, hb, trivial, trivial⟩, hc, trivial, trivial⟩
    ⟨⟨trivial, trivial, hz1⟩, trivial, hz2⟩
    (by simp [Expr.valNeed, MAX_STACK_SIZE]) (by simp [Expr.opNeed, MAX_STACK_SIZE])
  simpa [Expr.text, Expr.value] using h

theorem decimal_pow_nat (l : ℚ) (n : ℕ) :
    opValue decimalArith '^' l (n : ℚ) = l ^ n := by
  simp [opValue, decimalArith]

theorem calc_evaluate_of_scan {V : Type} (A : Arith V) (s : List Char) (v : V)
    (h : scan_loop A s [] [] = .ok v) (out_result : Option V) (out_error : Option CalcError) :
    calc_evaluate A (some s) out_result out_error =
      (true, out_result.map (fun _ => v), set_error out_error .CALC_OK "") := by
  simp only [calc_evaluate, h]

/-- C2: for literals `a b c` and operators with `precedence op1 < precedence op2`
(no zero divisor), `a op1 b op2 c` evaluates successfully to `a op1 (b op2 c)`;
in exact decimal arithmetic `3+4*2` yields `11`. -/
theorem tighter_operator_applies_first {V : Type} (A : Arith V) (a b c : List Char)
    (op1 op2 : Char)
    (ha : IsLiteral A a) (hb : IsLiteral A b) (hc : IsLiteral A c)
    (h1 : is_operator op1 = true) (h2 : is_operator op2 = true)
    (hp : precedence op1 < precedence op2)
    (hz2 : op2 = '/' → A.isZero (A.strtod c).1 = false)
    (hz1 : op1 = '/' → A.isZero (opValue A op2 (A.strtod b).1 (A.strtod c).1) = false)
    (out_result : Option V) (out_error : Option CalcError) :
    calc_evaluate A (some (a ++ op1 :: (b ++ op2 :: c))) out_result out_error =
        (true,
          out_result.map (fun _ =>
            opValue A op1 (A.strtod a).1 (opValue A op2 (A.strtod b).1 (A.strtod c).1)),
          set_error out_error .CALC_OK "") ∧
      calc_evaluate decimalArith (some "3+4*2".toList) (some 0) (some ⟨.CALC_OK, ""⟩) =
        (true, some 11, some ⟨.CALC_OK, ""⟩) := by
  refine ⟨calc_evaluate_of_scan A _ _
    (calc_three_literals_right A a b c op1 op2 ha hb hc h1 h2 (Or.inl hp) hz2 hz1) _ _, ?_⟩
  have h := calc_three_literals_right decimalArith ['3'] ['4'] ['2'] '+' '*'
    (isLiteral_digit _ (by decide)) (isLiteral_digit _ (by decide))
    (isLiteral_digit _ (by decide)) (by decide) (by decide) (Or.inl (by decide))
    (by decide) (by decide)
  obtain ⟨_, _, d2, d3, d4⟩ := strtod_small_digits
  rw [d2, d3, d4, (opValue_decimal _ _).1, (opValue_decimal _ _).2.2.1] at h
  have h' := calc_evaluate_of_scan decimalArith _ _ h (some 0) (some ⟨.CALC_OK, ""⟩)
  have e : ((3 : ℚ) + 4 * 2) = 11 := by norm_num
  rw [e] at h'
  exact h'

/-- Witness for C2 at `3+4*2`. -/
theorem tighter_operator_applies_first_witness :
    IsLiteral decimalArith ['3'] ∧ IsLiteral decimalArith ['4'] ∧ IsLiteral decimalArith ['2'] ∧
    precedence '+' < precedence '*' ∧
    calc_evaluate decimalArith (some (['3'] ++ '+' :: (['4'] ++ '*' :: ['2'])))
        (some 0) (some ⟨.CALC_ERR_UNKNOWN, "stale"⟩) =
      (true,
        some (opValue decimalArith '+' (decimalArith.strtod ['3']).1
          (opValue decimalArith '*' (decimalArith.strtod ['4']).1 (decimalArith.strtod ['2']).1)),
        some ⟨.CALC_OK, ""⟩) :=
  ⟨isLiteral_digit _ (by decide), isLiteral_digit _ (by decide), isLiteral_digit _ (by decide),
    by decide,
    (tighter_operator_applies_first decimalArith ['3'] ['4'] ['2'] '+' '*'
      (isLiteral_digit _ (by decide)) (isLiteral_digit _ (by decide))
      (isLiteral_digit _ (by decide)) (by decide) (by decide) (by decide)
      (by decide) (by decide) (some 0) (some ⟨.CALC_ERR_UNKNOWN, "stale"⟩)).1⟩

/-- C3: for literals `a b c`, `a^b^c` evaluates successfully to `a^(b^c)`; in
exact decimal arithmetic `2^3^2` yields `512`, which is not `(2^3)^2`. -/
theorem power_is_right_associative {V : Type} (A : Arith V) (a b c : List Char)
    (ha : IsLiteral A a) (hb : IsLiteral A b) (hc : IsLiteral A c)
    (out_result : Option V) (out_error : Option CalcError) :
    calc_evaluate A (some (a ++ '^' :: (b ++ '^' :: c))) out_result out_error =
        (true,
          out_result.map (fun _ =>
            A.pow (A.strtod a).1 (A.pow (A.strtod b).1 (A.strtod c).1)),
          set_error out_error .CALC_OK "") ∧
      calc_evaluate decimalArith (some "2^3^2".toList) (some 0) (some ⟨.CALC_OK, ""⟩) =
        (true, some 512, some ⟨.CALC_OK, ""⟩) ∧
      decimalArith.pow (decimalArith.pow 2 3) 2 ≠ 512 := by
  have hpow : ∀ {W : Type} (B : Arith W) (l r : W), opValue B '^' l r = B.pow l r := by
    intro W B l r; simp [opValue]
  refine ⟨?_, ?_, ?_⟩
  · have h := calc_three_literals_right A a b c '^' '^' ha hb hc (by decide) (by decide)
      (Or.inr ⟨rfl, rfl⟩) (fun h => absurd h (by decide)) (fun h => absurd h (by decide))
    rw [hpow, hpow] at h
    exact calc_evaluate_of_scan A _ _ h _ _
  · have h := calc_three_literals_right decimalArith ['2'] ['3'] ['2'] '^' '^'
      (isLiteral_digit _ (by decide)) (isLiteral_digit _ (by decide))
      (isLiteral_digit _ (by decide)) (by decide) (by decide) (Or.inr ⟨rfl, rfl⟩)
      (by decide) (by decide)
    obtain ⟨_, _, d2, d3, _⟩ := strtod_small_digits
    rw [d2, d3] at h
    have e : opValue decimalArith '^' 2 (opValue decimalArith '^' 3 2) = 512 := by
      have e1 : opValue decimalArith '^' (3 : ℚ) 2 = 9 := by
        have := decimal_pow_nat 3 2
        norm_num at this
        exact this
      rw [e1]
      have := decimal_pow_nat 2 9
      norm_num at this
      exact this
    rw [e] at h
    exact calc_evaluate_of_scan decimalArith _ _ h (some 0) (some ⟨.CALC_OK, ""⟩)
  · have e1 : decimalArith.pow (2 : ℚ) 3 = 8 := by
      have := decimal_pow_nat 2 3
      rw [hpow] at this
      norm_num at this
      exact this
    have e2 : decimalArith.pow (8 : ℚ) 2 = 64 := by
      have := decimal_pow_nat 8 2
      rw [hpow] at this
      norm_num at this
      exact this
    rw [e1, e2]
    norm_num

/-- Witness for C3 at `2^3^2`. -/
theorem power_is_right_associative_witness :
    IsLiteral decimalArith ['2'] ∧ IsLiteral decimalArith ['3'] ∧
    calc_evaluate decimalArith (some (['2'] ++ '^' :: (['3'] ++ '^' :: ['2'])))
        (some 0) (some ⟨.CALC_ERR_UNKNOWN, "stale"⟩) =
      (true,
        some (decimalArith.pow (decimalArith.strtod ['2']).1
          (decimalArith.pow (decimalArith.strtod ['3']).1 (decimalArith.strtod ['2']).1)),
        some ⟨.CALC_OK, ""⟩) :=
  ⟨isLiteral_digit _ (by decide), isLiteral_digit _ (by decide),
    (power_is_right_associative decimalArith ['2'] ['3'] ['2']
      (isLiteral_digit _ (by decide)) (isLiteral_digit _ (by decide))
      (isLiteral_digit _ (by decide)) (some 0) (some ⟨.CALC_ERR_UNKNOWN, "stale"⟩)).1⟩

/-- C4: for literals `a b c` and operators of equal precedence other than `^`
(no zero divisor), `a op1 b op2 c` evaluates successfully to `(a op1 b) op2 c`;
so `a-b-c` is `(a-b)-c` and `a/b/c` is `(a/b)/c`. -/
theorem equal_precedence_applies_left_first {V : Type} (A : Arith V) (a b c : List Char)
    (op1 op2 : Char)
    (ha : IsLiteral A a) (hb : IsLiteral A b) (hc : IsLiteral A c)
    (h1 : is_operator op1 = true) (h2 : is_operator op2 = true)
    (hp : precedence op1 = precedence op2) (hne : op1 ≠ '^')
    (hz1 : op1 = '/' → A.isZero (A.strtod b).1 = false)
    (hz2 : op2 = '/' → A.isZero (A.strtod c).1 = false)
    (out_result : Option V) (out_error : Option CalcError) :
    calc_evaluate A (some (a ++ op1 :: (b ++ op2 :: c))) out_result out_error =
      (true,
        out_result.map (fun _ =>
          opValue A op2 (opValue A op1 (A.strtod a).1 (A.strtod b).1) (A.strtod c).1),
        set_error out_error .CALC_OK "") := by
  have hne2 : op2 ≠ '^' := by
    rcases precedence_of_operator op1 h1 with ⟨e, _⟩ | ⟨_, q1⟩
    · exact absurd e hne
    · rcases precedence_of_operator op2 h2 with ⟨_, q2⟩ | ⟨e, _⟩
      · omega
      · exact e
  exact calc_evaluate_of_scan A _ _
    (calc_three_literals_left A a b c op1 op2 ha hb hc h1 h2 (Or.inr ⟨hp, hne2⟩) hz1 hz2) _ _

/-- Witness for C4 at `4-2-1`, which is `(4-2)-1`. -/
theorem equal_precedence_applies_left_first_witness :
    IsLiteral decimalArith ['4'] ∧ IsLiteral decimalArith ['2'] ∧ IsLiteral decimalArith ['1'] ∧
    precedence '-' = precedence '-' ∧
    calc_evaluate decimalArith (some (['4'] ++ '-' :: (['2'] ++ '-' :: ['1'])))
        (some 0) (some ⟨.CALC_ERR_UNKNOWN, "stale"⟩) =
      (true,
        some (opValue decimalArith '-'
          (opValue decimalArith '-' (decimalArith.strtod ['4']).1 (decimalArith.strtod ['2']).1)
          (decimalArith.strtod ['1']).1),
        some ⟨.CALC_OK, ""⟩) :=
  ⟨isLiteral_digit _ (by decide), isLiteral_digit _ (by decide), isLiteral_digit _ (by decide),
    rfl,
    equal_precedence_applies_left_first decimalArith ['4'] ['2'] ['1'] '-' '-'
      (isLiteral_digit _ (by decide)) (isLiteral_digit _ (by decide))
      (isLiteral_digit _ (by decide)) (by decide) (by decide) rfl (by decide)
      (by decide) (by decide) (some 0) (some ⟨.CALC_ERR_UNKNOWN, "stale"⟩)⟩

/-- C5: for literals `a b c` and any two operators (no zero divisor),
`(a op1 b) op2 c` evaluates successfully to `(a op1 b) op2 c` whatever the
precedences; in exact decimal arithmetic `(1+2)*3` yields `9`. -/
theorem parentheses_override_precedence {V : Type} (A : Arith V) (a b c : List Char)
    (op1 op2 : Char)
    (ha : IsLiteral A a) (hb : IsLiteral A b) (hc : IsLiteral A c)
    (h1 : is_operator op1 = true) (h2 : is_operator op2 = true)
    (hz1 : op1 = '/' → A.isZero (A.strtod b).1 = false)
    (hz2 : op2 = '/' → A.isZero (A.strtod c).1 = false)
    (out_result : Option V) (out_error : Option CalcError) :
    calc_evaluate A (some ('(' :: (a ++ op1 :: (b ++ ')' :: op2 :: c)))) out_result out_error =
        (true,
          out_result.map (fun _ =>
            opValue A op2 (opValue A op1 (A.strtod a).1 (A.strtod b).1) (A.strtod c).1),
          set_error out_error .CALC_OK "") ∧
      calc_evaluate decimalArith (some "(1+2)*3".toList) (some 0) (some ⟨.CALC_OK, ""⟩) =
        (true, some 9, some ⟨.CALC_OK, ""⟩) := by
  refine ⟨calc_evaluate_of_scan A _ _
    (calc_paren_then_literal A a b c op1 op2 ha hb hc h1 h2 hz1 hz2) _ _, ?_⟩
  have h := calc_paren_then_literal decimalArith ['1'] ['2'] ['3'] '+' '*'
    (isLiteral_digit _ (by decide)) (isLiteral_digit _ (by decide))
    (isLiteral_digit _ (by decide)) (by decide) (by decide) (by decide) (by decide)
  obtain ⟨_, d1, d2, d3, _⟩ := strtod_small_digits
  rw [d1, d2, d3, (opValue_decimal _ _).1, (opValue_decimal _ _).2.2.1] at h
  have h' := calc_evaluate_of_scan decimalArith _ _ h (some 0) (some ⟨.CALC_OK, ""⟩)
  have e : (((1 : ℚ) + 2) * 3) = 9 := by norm_num
  rw [e] at h'
  exact h'

/-- Witness for C5 at `(1+2)*3`. -/
theorem parentheses_override_precedence_witness :
    IsLiteral decimalArith ['1'] ∧ IsLiteral decimalArith ['2'] ∧ IsLiteral decimalArith ['3'] ∧
    calc_evaluate decimalArith (some ('(' :: (['1'] ++ '+' :: (['2'] ++ ')' :: '*' :: ['3']))))
        (some 0) (some ⟨.CALC_ERR_UNKNOWN, "stale"⟩) =
      (true,
        some (opValue decimalArith '*'
          (opValue decimalArith '+' (decimalArith.strtod ['1']).1 (decimalArith.strtod ['2']).1)
          (decimalArith.strtod ['3']).1),
        some ⟨.CALC_OK, ""⟩) :=
  ⟨isLiteral_digit _ (by decide), isLiteral_digit _ (by decide), isLiteral_digit _ (by decide),
    (parentheses_override_precedence decimalArith ['1'] ['2'] ['3'] '+' '*'
      (isLiteral_digit _ (by decide)) (isLiteral_digit _ (by decide))
      (isLiteral_digit _ (by decide)) (by decide) (by decide) (by decide) (by decide)
      (some 0) (some ⟨.CALC_ERR_UNKNOWN, "stale"⟩)).1⟩

/-! ## The configuration machine agrees with the functions -/

theorem outcome_step {V : Type} (A : Arith V) (cfg cfg' : Config V)
    (h : Config.step A cfg = some cfg') : Config.outcome A cfg' = Config.outcome A cfg := by
  cases cfg with
  | scanning s vs os =>
    cases s with
    | nil =>
      simp only [Config.step, Option.some.injEq] at h
      subst h
      simp only [Config.outcome]
      rw [scan_loop]
    | cons c rest =>
      simp only [Config.step] at h
      simp only [Config.outcome]
      rw [scan_loop]
      split_ifs at h ⊢ <;> simp only [Option.some.injEq] at h <;> try subst h
      all_goals rfl
  | closing rest vs os =>
    cases os with
    | nil => simp [Config.step] at h
    | cons op os =>
      simp only [Config.step] at h
      simp only [Config.outcome]
      rw [reduce_to_lparen]
      split_ifs at h ⊢
      · simp only [Option.some.injEq] at h
        subst h
        simp [Config.outcome]
      · cases ha : apply_operator A op vs with
        | error e => simp [ha] at h
        | ok vs' =>
          simp only [ha, Option.some.injEq] at h
          subst h
          simp [Config.outcome]
  | reducing c rest vs os =>
    cases os with
    | nil =>
      simp only [Config.step] at h
      simp only [Config.outcome]
      rw [reduce_for_operator]
      split_ifs at h ⊢
      simp only [Option.some.injEq] at h
      subst h
      simp_all [Config.outcome]
    | cons top_op os =>
      simp only [Config.step] at h
      simp only [Config.outcome]
      rw [reduce_for_operator]
      by_cases hc : is_operator top_op = true ∧ (precedence top_op > precedence c ∨
          (precedence top_op = precedence c ∧ is_right_associative c = false))
      · rw [if_pos hc] at h
        rw [if_pos hc.1, if_pos hc.2]
        cases ha : apply_operator A top_op vs with
        | error e => simp [ha] at h
        | ok vs' =>
          simp only [ha, Option.some.injEq] at h
          subst h
          simp [Config.outcome]
      · rw [if_neg hc] at h
        have hstop : (if is_operator top_op = true then
              if precedence top_op > precedence c ∨
                  (precedence top_op = precedence c ∧ is_right_associative c = false) then
                match apply_operator A top_op vs with
                | .error e => .error e
                | .ok vs' => reduce_for_operator A c vs' os
              else (.ok (vs, top_op :: os) : Except Failure (List V × List Char))
            else .ok (vs, top_op :: os)) = .ok (vs, top_op :: os) := by
          by_cases h1 : is_operator top_op = true
          · rw [if_pos h1, if_neg (fun h2 => hc ⟨h1, h2⟩)]
          · rw [if_neg h1]
        rw [hstop]
        split_ifs at h ⊢
        simp only [Option.some.injEq] at h
        subst h
        rename_i hcap
        simp only [List.length_cons] at hcap
        simp [Config.outcome, hcap]
  | draining vs os =>
    cases os with
    | nil => simp [Config.step] at h
    | cons op os =>
      simp only [Config.step] at h
      simp only [Config.outcome, finish]
      rw [apply_remaining]
      split_ifs at h ⊢
      cases ha : apply_operator A op vs with
      | error e => simp [ha] at h
      | ok vs' =>
        simp only [ha, Option.some.injEq] at h
        subst h
        simp [Config.outcome, finish]

theorem visits_outcome {V : Type} (A : Arith V) (s : List Char) (cfg : Config V)
    (h : Visits A s cfg) : Config.outcome A cfg = scan_loop A s [] [] := by
  induction h with
  | refl => rfl
  | tail _ hstep ih => rw [outcome_step A _ _ hstep, ih]

theorem applies_zero_division {V : Type} (A : Arith V) (cfg : Config V) (left right : V)
    (below : List V) (ha : cfg.applies = some ('/', right :: left :: below))
    (hz : A.isZero right = true) :
    Config.outcome A cfg = .error (.CALC_ERR_DIV_BY_ZERO, "Division by zero") := by
  have hdiv : apply_operator A '/' (right :: left :: below) =
      .error (.CALC_ERR_DIV_BY_ZERO, "Division by zero") := by
    simp [apply_operator, hz]
  cases cfg with
  | scanning s vs os => simp [Config.applies] at ha
  | closing rest vs os =>
    cases os with
    | nil => simp [Config.applies] at ha
    | cons op os =>
      simp only [Config.applies] at ha
      split_ifs at ha with h1
      simp only [Option.some.injEq, Prod.mk.injEq] at ha
      obtain ⟨rfl, rfl⟩ := ha
      simp only [Config.outcome]
      rw [reduce_to_lparen, if_neg h1, hdiv]
  | reducing c rest vs os =>
    cases os with
    | nil => simp [Config.applies] at ha
    | cons op os =>
      simp only [Config.applies] at ha
      split_ifs at ha with h1
      simp only [Option.some.injEq, Prod.mk.injEq] at ha
      obtain ⟨rfl, rfl⟩ := ha
      simp only [Config.outcome]
      rw [reduce_for_operator, if_pos h1.1, if_pos h1.2, hdiv]
  | draining vs os =>
    cases os with
    | nil => simp [Config.applies] at ha
    | cons op os =>
      simp only [Config.applies] at ha
      split_ifs at ha with h1
      simp only [Option.some.injEq, Prod.mk.injEq] at ha
      obtain ⟨rfl, rfl⟩ := ha
      simp only [Config.outcome, finish]
      rw [apply_remaining, if_neg h1, hdiv]

theorem step_literal {V : Type} (A : Arith V) (a rest : List Char) (vs : List V)
    (os : List Char) (ha : IsLiteral A a) (hrest : endsLiteral rest = true)
    (hcap : vs.length < MAX_STACK_SIZE) :
    Config.step A (.scanning (a ++ rest) vs os) =
      some (.scanning rest ((A.strtod a).1 :: vs) os) := by
  obtain ⟨⟨c, tl, rfl, hc⟩, hconv⟩ := ha
  have hs := isspace_of_literal_start c hc
  have hconv' : A.strtod (c :: (tl ++ rest)) = ((A.strtod (c :: tl)).1, tl.length + 1) := by
    simpa using hconv rest hrest
  have hdrop : List.drop (tl.length + 1) (c :: (tl ++ rest)) = rest := by
    simp
  rw [List.cons_append, Config.step]
  simp only [hs, hconv', hdrop]
  simp [hc, Nat.not_le.mpr hcap]

theorem visits_start {V : Type} (A : Arith V) (s : List Char) :
    Visits A s (.scanning s [] []) :=
  Relation.ReflTransGen.refl

theorem visits_next {V : Type} (A : Arith V) (s : List Char) (cfg cfg' : Config V)
    (h : Visits A s cfg) (hs : Config.step A cfg = some cfg') : Visits A s cfg' :=
  Relation.ReflTransGen.tail h hs

theorem visits_literal_div_literal {V : Type} (A : Arith V) (a z : List Char)
    (ha : IsLiteral A a) (hz : IsLiteral A z) :
    Visits A (a ++ '/' :: z) (.draining [(A.strtod z).1, (A.strtod a).1] ['/']) := by
  have s1 := step_literal A a ('/' :: z) [] [] ha (by simp [endsLiteral, is_operator])
    (by simp [MAX_STACK_SIZE])
  have s2 : Config.step A (.scanning ('/' :: z) [(A.strtod a).1] []) =
      some (.reducing '/' z [(A.strtod a).1] []) := by
    have h1 : isspace '/' = false := by decide
    have h2 : isdigit '/' = false := by decide
    have h3 : is_operator '/' = true := by decide
    simp [Config.step, h1, h2, h3]
  have s3 : Config.step A (.reducing '/' z [(A.strtod a).1] []) =
      some (.scanning z [(A.strtod a).1] ['/']) := by
    simp [Config.step, MAX_STACK_SIZE]
  have s4 := step_literal A z [] [(A.strtod a).1] ['/'] hz (by simp [endsLiteral])
    (by simp [MAX_STACK_SIZE])
  rw [List.append_nil] at s4
  have s5 : Config.step A (.scanning [] [(A.strtod z).1, (A.strtod a).1] ['/']) =
      some (.draining [(A.strtod z).1, (A.strtod a).1] ['/']) := by
    simp [Config.step]
  have v1 := visits_next A _ _ _ (visits_start A (a ++ '/' :: z)) s1
  have v2 := visits_next A _ _ _ v1 s2
  have v3 := visits_next A _ _ _ v2 s3
  have v4 := visits_next A _ _ _ v3 s4
  exact visits_next A _ _ _ v4 s5

theorem calc_evaluate_of_scan_error {V : Type} (A : Arith V) (s : List Char) (e : Failure)
    (h : scan_loop A s [] [] = .error e) (out_result : Option V)
    (out_error : Option CalcError) :
    calc_evaluate A (some s) out_result out_error =
      (false, out_result, set_error (set_error out_error .CALC_OK "") e.1 e.2) := by
  simp only [calc_evaluate, h]

/-- C6: a division applied with a zero right operand (whatever the left
operand, so also `0/0`) makes `apply_operator` fail with `DivByZero` and
"Division by zero" without a result; whenever the evaluation of an input
reaches such an application, `calc_evaluate` fails with that error and leaves
the result untouched; in particular `a/0` fails so for every literal `a`. -/
theorem division_by_zero_fails {V : Type} (A : Arith V) :
    (∀ (left right : V) (below : List V), A.isZero right = true →
      apply_operator A '/' (right :: left :: below) =
        .error (.CALC_ERR_DIV_BY_ZERO, "Division by zero")) ∧
    (∀ (s : List Char) (cfg : Config V) (left right : V) (below : List V)
        (out_result : Option V) (out_error : Option CalcError),
      Visits A s cfg → cfg.applies = some ('/', right :: left :: below) →
      A.isZero right = true →
      calc_evaluate A (some s) out_result out_error =
        (false, out_result,
          set_error (set_error out_error .CALC_OK "") .CALC_ERR_DIV_BY_ZERO
            "Division by zero")) ∧
    (∀ (a z : List Char) (out_result : Option V) (out_error : Option CalcError),
      IsLiteral A a → IsLiteral A z → A.isZero (A.strtod z).1 = true →
      calc_evaluate A (some (a ++ '/' :: z)) out_result out_error =
        (false, out_result,
          set_error (set_error out_error .CALC_OK "") .CALC_ERR_DIV_BY_ZERO
            "Division by zero")) := by
  have general : ∀ (s : List Char) (cfg : Config V) (left right : V) (below : List V)
      (out_result : Option V) (out_error : Option CalcError),
      Visits A s cfg → cfg.applies = some ('/', right :: left :: below) →
      A.isZero right = true →
      calc_evaluate A (some s) out_result out_error =
        (false, out_result,
          set_error (set_error out_error .CALC_OK "") .CALC_ERR_DIV_BY_ZERO
            "Division by zero") := by
    intro s cfg left right below out_result out_error hv ha hz
    have h := applies_zero_division A cfg left right below ha hz
    rw [visits_outcome A s cfg hv] at h
    exact calc_evaluate_of_scan_error A s _ h out_result out_error
  refine ⟨?_, general, ?_⟩
  · intro left right below hz
    simp [apply_operator, hz]
  · intro a z out_result out_error ha hz hzero
    exact general (a ++ '/' :: z) _ (A.strtod a).1 (A.strtod z).1 [] out_result out_error
      (visits_literal_div_literal A a z ha hz) rfl hzero

/-- Witness for C6: `1/0` and `0/0` in exact decimal arithmetic. -/
theorem division_by_zero_fails_witness :
    (IsLiteral decimalArith ['1'] ∧ IsLiteral decimalArith ['0'] ∧
      decimalArith.isZero (decimalArith.strtod ['0']).1 = true ∧
      calc_evaluate decimalArith (some "1/0".toList) (some 7) (some ⟨.CALC_ERR_UNKNOWN, "stale"⟩) =
        (false, some 7, some ⟨.CALC_ERR_DIV_BY_ZERO, "Division by zero"⟩)) ∧
    (Visits decimalArith "0/0".toList
        (.draining [(decimalArith.strtod ['0']).1, (decimalArith.strtod ['0']).1] ['/']) ∧
      calc_evaluate decimalArith (some "0/0".toList) (some 7) (some ⟨.CALC_ERR_UNKNOWN, "stale"⟩) =
        (false, some 7, some ⟨.CALC_ERR_DIV_BY_ZERO, "Division by zero"⟩)) :=
  have hz : decimalArith.isZero (decimalArith.strtod ['0']).1 = true := by
    rw [strtod_small_digits.1]; rfl
  ⟨⟨isLiteral_digit _ (by decide), isLiteral_digit _ (by decide), hz,
      (division_by_zero_fails decimalArith).2.2 ['1'] ['0'] (some 7)
        (some ⟨.CALC_ERR_UNKNOWN, "stale"⟩)
        (isLiteral_digit _ (by decide)) (isLiteral_digit _ (by decide)) hz⟩,
    ⟨visits_literal_div_literal decimalArith ['0'] ['0'] (isLiteral_digit _ (by decide))
        (isLiteral_digit _ (by decide)),
      (division_by_zero_fails decimalArith).2.1 "0/0".toList _ _ _ [] (some 7)
        (some ⟨.CALC_ERR_UNKNOWN, "stale"⟩)
        (visits_literal_div_literal decimalArith ['0'] ['0'] (isLiteral_digit _ (by decide))
          (isLiteral_digit _ (by decide))) rfl hz⟩⟩

/-! ## Error codes -/

theorem apply_operator_error_code {V : Type} (A : Arith V) (op : Char) (vs : List V)
    (e : Failure) (h : apply_operator A op vs = .error e) :
    e.1 = .CALC_ERR_SYNTAX ∨ e.1 = .CALC_ERR_DIV_BY_ZERO ∨ e.1 = .CALC_ERR_UNKNOWN := by
  unfold apply_operator at h
  split at h
  · split_ifs at h <;> simp only [Except.error.injEq, reduceCtorEq] at h <;> subst h <;> simp
  · simp only [Except.error.injEq] at h
    subst h
    simp

theorem reduce_to_lparen_error_code {V : Type} (A : Arith V) (vs : List V) (os : List Char)
    (e : Failure) (h : reduce_to_lparen A vs os = .error e) :
    e.1 = .CALC_ERR_SYNTAX ∨ e.1 = .CALC_ERR_DIV_BY_ZERO ∨ e.1 = .CALC_ERR_UNKNOWN := by
  induction os generalizing vs with
  | nil =>
    rw [reduce_to_lparen] at h
    simp only [Except.error.injEq] at h
    subst h
    simp
  | cons op os ih =>
    rw [reduce_to_lparen] at h
    split_ifs at h
    cases ha : apply_operator A op vs with
    | error e' =>
      simp only [ha, Except.error.injEq] at h
      subst h
      exact apply_operator_error_code A op vs e' ha
    | ok vs' =>
      simp only [ha] at h
      exact ih vs' h

theorem reduce_for_operator_error_code {V : Type} (A : Arith V) (c : Char) (vs : List V)
    (os : List Char) (e : Failure) (h : reduce_for_operator A c vs os = .error e) :
    e.1 = .CALC_ERR_SYNTAX ∨ e.1 = .CALC_ERR_DIV_BY_ZERO ∨ e.1 = .CALC_ERR_UNKNOWN := by
  induction os generalizing vs with
  | nil =>
    rw [reduce_for_operator] at h
    simp at h
  | cons op os ih =>
    rw [reduce_for_operator] at h
    split_ifs at h
    cases ha : apply_operator A op vs with
    | error e' =>
      simp only [ha, Except.error.injEq] at h
      subst h
      exact apply_operator_error_code A op vs e' ha
    | ok vs' =>
      simp only [ha] at h
      exact ih vs' h

theorem apply_remaining_error_code {V : Type} (A : Arith V) (vs : List V) (os : List Char)
    (e : Failure) (h : apply_remaining A vs os = .error e) :
    e.1 = .CALC_ERR_SYNTAX ∨ e.1 = .CALC_ERR_DIV_BY_ZERO ∨ e.1 = .CALC_ERR_UNKNOWN := by
  induction os generalizing vs with
  | nil =>
    rw [apply_remaining] at h
    simp at h
  | cons op os ih =>
    rw [apply_remaining] at h
    split_ifs at h
    · simp only [Except.error.injEq] at h
      subst h
      simp
    · cases ha : apply_operator A op vs with
      | error e' =>
        simp only [ha, Except.error.injEq] at h
        subst h
        exact apply_operator_error_code A op vs e' ha
      | ok vs' =>
        simp only [ha] at h
        exact ih vs' h

theorem finish_error_code {V : Type} (A : Arith V) (vs : List V) (os : List Char)
    (e : Failure) (h : finish A vs os = .error e) :
    e.1 = .CALC_ERR_SYNTAX ∨ e.1 = .CALC_ERR_DIV_BY_ZERO ∨ e.1 = .CALC_ERR_UNKNOWN := by
  unfold finish at h
  split at h
  · rename_i e' ha
    simp only [Except.error.injEq] at h
    subst h
    exact apply_remaining_error_code A vs os e' ha
  · simp at h
  · simp only [Except.error.injEq] at h
    subst h
    simp

theorem scan_loop_error_code_aux {V : Type} (A : Arith V) (n : ℕ) :
    ∀ (s : List Char) (vs : List V) (os : List Char) (e : Failure), s.length = n →
      scan_loop A s vs os = .error e →
      e.1 = .CALC_ERR_SYNTAX ∨ e.1 = .CALC_ERR_DIV_BY_ZERO ∨ e.1 = .CALC_ERR_UNKNOWN := by
  induction n using Nat.strong_induction_on with
  | _ n ih =>
    intro s vs os e hn h
    cases s with
    | nil =>
      rw [scan_loop] at h
      exact finish_error_code A vs os e h
    | cons c rest =>
      subst hn
      rw [scan_loop] at h
      split_ifs at h with h1 h2 h3 h4 h5 h6 h7 h8
      · exact ih _ (by simp) rest vs os e rfl h
      · simp only [Except.error.injEq] at h; subst h; simp
      · simp only [Except.error.injEq] at h; subst h; simp
      · refine ih _ ?_ _ _ _ e rfl h
        simp only [List.length_drop, List.length_cons]
        omega
      · simp only [Except.error.injEq] at h; subst h; simp
      · exact ih _ (by simp) rest vs _ e rfl h
      · cases hr : reduce_to_lparen A vs os with
        | error e' =>
          simp only [hr, Except.error.injEq] at h
          subst h
          exact reduce_to_lparen_error_code A vs os e' hr
        | ok p =>
          simp only [hr] at h
          exact ih _ (by simp) rest _ _ e rfl h
      · cases hr : reduce_for_operator A c vs os with
        | error e' =>
          simp only [hr, Except.error.injEq] at h
          subst h
          exact reduce_for_operator_error_code A c vs os e' hr
        | ok p =>
          simp only [hr] at h
          split_ifs at h
          · simp only [Except.error.injEq] at h; subst h; simp
          · exact ih _ (by simp) rest _ _ e rfl h
      · simp only [Except.error.injEq] at h; subst h; simp

theorem scan_loop_error_code {V : Type} (A : Arith V) (s : List Char) (vs : List V)
    (os : List Char) (e : Failure) (h : scan_loop A s vs os = .error e) :
    e.1 = .CALC_ERR_SYNTAX ∨ e.1 = .CALC_ERR_DIV_BY_ZERO ∨ e.1 = .CALC_ERR_UNKNOWN :=
  scan_loop_error_code_aux A s.length s vs os e rfl h

/-- C7: for every input, null expression included, `calc_evaluate` returns
`true` exactly when the code it leaves in `out_error` is `CALC_OK`; on failure
the code is `Syntax`, `DivByZero` or `Unknown` and `out_result` is unchanged. -/
theorem success_iff_code_ok {V : Type} (A : Arith V) (expr : Option (List Char))
    (out_result : Option V) (previous : CalcError) :
    ∃ err : CalcError,
      (calc_evaluate A expr out_result (some previous)).2.2 = some err ∧
      ((calc_evaluate A expr out_result (some previous)).1 = true ↔
        err.code = .CALC_OK) ∧
      ((calc_evaluate A expr out_result (some previous)).1 = false →
        (err.code = .CALC_ERR_SYNTAX ∨ err.code = .CALC_ERR_DIV_BY_ZERO ∨
          err.code = .CALC_ERR_UNKNOWN) ∧
        (calc_evaluate A expr out_result (some previous)).2.1 = out_result) := by
  cases expr with
  | none =>
    exact ⟨⟨.CALC_ERR_SYNTAX, ⟨"Empty expression".data.take 127⟩⟩, rfl, by simp [calc_evaluate],
      fun _ => ⟨Or.inl rfl, rfl⟩⟩
  | some s =>
    cases hs : scan_loop A s [] [] with
    | error e =>
      have hc := scan_loop_error_code A s [] [] e hs
      refine ⟨⟨e.1, ⟨e.2.data.take 127⟩⟩, by simp [calc_evaluate, hs, set_error], ?_, ?_⟩
      · simp only [calc_evaluate, hs]
        constructor
        · intro h; simp at h
        · intro h
          rcases hc with hc | hc | hc <;> rw [hc] at h <;> simp at h
      · intro _
        exact ⟨hc, by simp [calc_evaluate, hs]⟩
    | ok v =>
      exact ⟨⟨.CALC_OK, ⟨"".data.take 127⟩⟩, by simp [calc_evaluate, hs, set_error],
        by simp [calc_evaluate, hs], by simp [calc_evaluate, hs]⟩

/-- Witness for C7 on `1/0`. -/
theorem success_iff_code_ok_witness :
    (∃ err : CalcError,
      (calc_evaluate decimalArith (some "1/0".toList) (some 7) (some ⟨.CALC_OK, ""⟩)).2.2 =
        some err ∧
      ((calc_evaluate decimalArith (some "1/0".toList) (some 7) (some ⟨.CALC_OK, ""⟩)).1 = true ↔
        err.code = .CALC_OK) ∧
      ((calc_evaluate decimalArith (some "1/0".toList) (some 7) (some ⟨.CALC_OK, ""⟩)).1 = false →
        (err.code = .CALC_ERR_SYNTAX ∨ err.code = .CALC_ERR_DIV_BY_ZERO ∨
          err.code = .CALC_ERR_UNKNOWN) ∧
        (calc_evaluate decimalArith (some "1/0".toList) (some 7) (some ⟨.CALC_OK, ""⟩)).2.1 =
          some 7)) :=
  success_iff_code_ok decimalArith (some "1/0".toList) (some 7) ⟨.CALC_OK, ""⟩

/-- C8, as the code behaves: the null expression fails with `Syntax` and "Empty
expression", but the empty string runs through both loops and fails at the
final `val_top != 0` test with `Syntax` and "Syntax error". -/
theorem empty_string_message {V : Type} (A : Arith V) (out_result : Option V)
    (previous : CalcError) :
    calc_evaluate A none out_result (some previous) =
        (false, out_result, some ⟨.CALC_ERR_SYNTAX, "Empty expression"⟩) ∧
      calc_evaluate A (some "".toList) out_result (some previous) =
        (false, out_result, some ⟨.CALC_ERR_SYNTAX, "Syntax error"⟩) ∧
      (calc_evaluate A (some "".toList) out_result (some previous)).2.2 ≠
        some ⟨.CALC_ERR_SYNTAX, "Empty expression"⟩ := by
  have h : scan_loop A [] [] [] = .error (.CALC_ERR_SYNTAX, "Syntax error") := by
    rw [scan_loop, finish, apply_remaining]
  have h2 : calc_evaluate A (some "".toList) out_result (some previous) =
      (false, out_result, some ⟨.CALC_ERR_SYNTAX, "Syntax error"⟩) :=
    calc_evaluate_of_scan_error A [] _ h out_result (some previous)
  refine ⟨rfl, h2, ?_⟩
  rw [h2]
  intro h3
  simp at h3

/-! ## Nested parentheses -/

theorem scan_loop_lparens {V : Type} (A : Arith V) (k : ℕ) (rest : List Char) (vs : List V) :
    ∀ os : List Char, os.length + k ≤ MAX_STACK_SIZE →
      scan_loop A (List.replicate k '(' ++ rest) vs os =
        scan_loop A rest vs (List.replicate k '(' ++ os) := by
  induction k with
  | zero => intro os _; simp
  | succ k ih =>
    intro os hcap
    rw [List.replicate_succ, List.cons_append, scan_loop_lparen A _ vs os (by omega),
      ih ('(' :: os) (by simp only [List.length_cons]; omega)]
    congr 1
    rw [← List.replicate_succ, List.replicate_succ']
    simp

theorem scan_loop_rparens {V : Type} (A : Arith V) (k : ℕ) (rest : List Char) (vs : List V)
    (os : List Char) :
    scan_loop A (List.replicate k ')' ++ rest) vs (List.replicate k '(' ++ os) =
      scan_loop A rest vs os := by
  induction k with
  | zero => simp
  | succ k ih =>
    rw [List.replicate_succ, List.replicate_succ, List.cons_append, List.cons_append,
      scan_loop_rparen, reduce_to_lparen]
    simpa using ih

theorem scan_loop_nested_literal {V : Type} (A : Arith V) (n : ℕ) (a : List Char)
    (ha : IsLiteral A a) (hn : n ≤ MAX_STACK_SIZE) :
    scan_loop A (List.replicate n '(' ++ (a ++ List.replicate n ')')) [] [] =
      .ok (A.strtod a).1 := by
  rw [scan_loop_lparens A n _ [] [] (by simpa using hn)]
  have hend : endsLiteral (List.replicate n ')') = true := by
    cases n with
    | zero => rfl
    | succ m => simp [List.replicate_succ, endsLiteral]
  rw [scan_loop_literal A a _ _ [] _ ha.1 (ha.2 _ hend) (by simp [MAX_STACK_SIZE])]
  have h := scan_loop_rparens A n [] [(A.strtod a).1] []
  simp only [List.append_nil] at h ⊢
  rw [h, scan_loop, finish, apply_remaining]

theorem scan_loop_too_deep {V : Type} (A : Arith V) (n : ℕ) (rest : List Char)
    (hn : MAX_STACK_SIZE < n) :
    scan_loop A (List.replicate n '(' ++ rest) ([] : List V) [] =
      .error (.CALC_ERR_UNKNOWN, "Operator stack overflow") := by
  obtain ⟨m, rfl⟩ : ∃ m, n = MAX_STACK_SIZE + (m + 1) := ⟨n - MAX_STACK_SIZE - 1, by omega⟩
  rw [List.replicate_add, List.append_assoc,
    scan_loop_lparens A MAX_STACK_SIZE _ [] [] (by simp), List.replicate_succ,
    List.cons_append, scan_loop]
  have h1 : isspace '(' = false := by decide
  have h2 : isdigit '(' = false := by decide
  simp [h1, h2]

/-- C9: `n` opening parentheses, the literal `1`, `n` closing parentheses
evaluate successfully to the value of `1` for every `n ≤ 256`, and fail with
code `Unknown` (operator stack overflow) for every `n > 256`, so in particular
for `n = 257`. -/
theorem nesting_up_to_capacity {V : Type} (A : Arith V) (n : ℕ) (out_result : Option V)
    (out_error : Option CalcError) :
    (n ≤ 256 → IsLiteral A ['1'] →
      calc_evaluate A (some (List.replicate n '(' ++ '1' :: List.replicate n ')'))
          out_result out_error =
        (true, out_result.map (fun _ => (A.strtod ['1']).1),
          set_error out_error .CALC_OK "")) ∧
    (256 < n →
      calc_evaluate A (some (List.replicate n '(' ++ '1' :: List.replicate n ')'))
          out_result out_error =
        (false, out_result,
          set_error (set_error out_error .CALC_OK "") .CALC_ERR_UNKNOWN
            "Operator stack overflow")) := by
  constructor
  · intro hn hlit
    exact calc_evaluate_of_scan A _ _ (scan_loop_nested_literal A n ['1'] hlit hn) _ _
  · intro hn
    exact calc_evaluate_of_scan_error A _ _ (scan_loop_too_deep A n _ hn) _ _

/-- Witness for C9 at the boundary: depth 256 yields `1`, depth 257 fails. -/
theorem nesting_up_to_capacity_witness :
    (256 ≤ 256 ∧ IsLiteral decimalArith ['1'] ∧
      calc_evaluate decimalArith
          (some (List.replicate 256 '(' ++ '1' :: List.replicate 256 ')'))
          (some 0) (some ⟨.CALC_ERR_UNKNOWN, "stale"⟩) =
        (true, some (decimalArith.strtod ['1']).1, some ⟨.CALC_OK, ""⟩) ∧
      (decimalArith.strtod ['1']).1 = 1) ∧
    (256 < 257 ∧
      calc_evaluate decimalArith
          (some (List.replicate 257 '(' ++ '1' :: List.replicate 257 ')'))
          (some 0) (some ⟨.CALC_ERR_UNKNOWN, "stale"⟩) =
        (false, some 0, some ⟨.CALC_ERR_UNKNOWN, "Operator stack overflow"⟩)) :=
  ⟨⟨le_refl _, isLiteral_digit _ (by decide),
      (nesting_up_to_capacity decimalArith 256 (some 0) (some ⟨.CALC_ERR_UNKNOWN, "stale"⟩)).1
        (le_refl _) (isLiteral_digit _ (by decide)),
      strtod_small_digits.2.1⟩,
    ⟨by decide,
      (nesting_up_to_capacity decimalArith 257 (some 0) (some ⟨.CALC_ERR_UNKNOWN, "stale"⟩)).2
        (by decide)⟩⟩

/-! ## Whitespace insertion -/

theorem spaced_sameLead {V : Type} (A : Arith V) (s s' : List Char) (h : Spaced A s s') :
    sameLead s s' := by
  cases h with
  | same => exact Or.inl rfl
  | insert w _ _ hw _ => exact Or.inr (Or.inl ⟨w, _, rfl, hw⟩)
  | keep c s s' hc _ =>
    rcases hc with hc | hc | hc | hc
    · exact Or.inr (Or.inl ⟨c, _, rfl, hc⟩)
    · exact Or.inr (Or.inr ⟨c, _, _, rfl, rfl, Or.inr (Or.inr (Or.inl hc))⟩)
    · exact Or.inr (Or.inr ⟨c, _, _, rfl, rfl, Or.inr (Or.inr (Or.inr (Or.inl hc)))⟩)
    · exact Or.inr (Or.inr ⟨c, _, _, rfl, rfl, Or.inr (Or.inr (Or.inr (Or.inr hc)))⟩)
  | number t s s' ht _ _ =>
    obtain ⟨c, tl, rfl, hc⟩ := ht
    refine Or.inr (Or.inr ⟨c, tl ++ s, tl ++ s', rfl, rfl, ?_⟩)
    rcases hc with hc | hc
    · exact Or.inl hc
    · exact Or.inr (Or.inl hc)

theorem scan_loop_spaced {V : Type} (A : Arith V) (hloc : StrtodLocal A) (s s' : List Char)
    (h : Spaced A s s') :
    ∀ (vs : List V) (os : List Char), scan_loop A s' vs os = scan_loop A s vs os := by
  induction h with
  | same s => intro vs os; rfl
  | insert w s s' hw _ ih =>
    intro vs os
    rw [scan_loop_space A w s' vs os hw]
    exact ih vs os
  | keep c s s' hc _ ih =>
    intro vs os
    by_cases hsp : isspace c = true
    · rw [scan_loop_space A c s' vs os hsp, scan_loop_space A c s vs os hsp]
      exact ih vs os
    · have hnot : ¬ (isdigit c = true ∨ c = '.') := by
        rcases hc with hc | hc | hc | hc
        · exact absurd hc hsp
        · subst hc; decide
        · subst hc; decide
        · rcases (is_operator_iff c).mp hc with h | h | h | h | h <;> subst h <;> decide
      conv_lhs => rw [scan_loop]
      conv_rhs => rw [scan_loop]
      simp only [hsp, if_neg hnot, ih]
  | number t s s' ht hconv hsp ih =>
    intro vs os
    have heq := hloc t s s' ht hconv (spaced_sameLead A s s' hsp)
    obtain ⟨c, tl, rfl, hc⟩ := ht
    have hs := isspace_of_literal_start c hc
    have hconv' : (A.strtod (c :: (tl ++ s))).2 = tl.length + 1 := by
      simpa using hconv
    have heq' : A.strtod (c :: (tl ++ s')) = A.strtod (c :: (tl ++ s)) := by
      simpa using heq
    have hd : List.drop (tl.length + 1) (c :: (tl ++ s)) = s := by simp
    have hd' : List.drop (tl.length + 1) (c :: (tl ++ s')) = s' := by simp
    rw [List.cons_append, List.cons_append]
    conv_lhs => rw [scan_loop]
    conv_rhs => rw [scan_loop]
    simp only [hs, heq', hconv', hd, hd', ih, if_pos hc, Bool.false_eq_true, if_false]

theorem takeWhile_append_stop (p : Char → Bool) (a b : List Char) (ha : ∀ c ∈ a, p c = true)
    (hb : ∀ c tl, b = c :: tl → p c = false) :
    (a ++ b).takeWhile p = a ∧ (a ++ b).dropWhile p = b := by
  induction a with
  | nil =>
    cases b with
    | nil => simp
    | cons c tl => simp [List.takeWhile, List.dropWhile, hb c tl rfl]
  | cons d a ih =>
    have hd : p d = true := ha d (by simp)
    have ih' := ih (fun c hc => ha c (by simp [hc]))
    simp [List.takeWhile, List.dropWhile, hd, ih'.1, ih'.2]

theorem dropWhile_head (p : Char → Bool) (x : List Char) :
    ∀ c tl, x.dropWhile p = c :: tl → p c = false := by
  induction x with
  | nil => intro c tl h; simp at h
  | cons d x ih =>
    intro c tl h
    cases hd : p d with
    | true =>
      rw [List.dropWhile_cons_of_pos hd] at h
      exact ih c tl h
    | false =>
      rw [List.dropWhile_cons_of_neg (by simp [hd])] at h
      simp only [List.cons.injEq] at h
      rw [← h.1]
      exact hd

theorem decimalStrtod_dot (x r : List Char) (h : x.dropWhile isdigit = '.' :: r) :
    decimalStrtod x =
      (if (x.takeWhile isdigit).length + (r.takeWhile isdigit).length = 0 then (0, 0)
      else
        ((digitsValue (x.takeWhile isdigit ++ r.takeWhile isdigit) : ℚ)
            / 10 ^ (r.takeWhile isdigit).length,
          (x.takeWhile isdigit).length + 1 + (r.takeWhile isdigit).length)) := by
  unfold decimalStrtod
  rw [h]
  split
  · rename_i r' heq
    simp only [List.cons.injEq, true_and] at heq
    subst heq
    rfl
  · rename_i hne
    exact absurd rfl (hne r)

theorem decimalStrtod_nodot (x : List Char) (h : ∀ r, x.dropWhile isdigit ≠ '.' :: r) :
    decimalStrtod x =
      (if (x.takeWhile isdigit).length = 0 then (0, 0)
      else ((digitsValue (x.takeWhile isdigit) : ℚ), (x.takeWhile isdigit).length)) := by
  unfold decimalStrtod
  split
  · rename_i r heq
    exact absurd heq (h r)
  · rfl

theorem decimalStrtod_shape (x : List Char) (hpos : (decimalStrtod x).2 ≠ 0) :
    ∃ lit rem : List Char, x = lit ++ rem ∧ lit.length = (decimalStrtod x).2 ∧
      (∀ c tl, rem = c :: tl → isdigit c = false) ∧
      ∀ rem2 : List Char,
        (∀ c tl, rem2 = c :: tl →
          isdigit c = false ∧ (c = '.' → ∃ tl0, rem = c :: tl0)) →
        decimalStrtod (lit ++ rem2) = decimalStrtod x := by
  have hx : x.takeWhile isdigit ++ x.dropWhile isdigit = x := List.takeWhile_append_dropWhile _ _
  have hip : ∀ c ∈ x.takeWhile isdigit, isdigit c = true := fun c hc =>
    (List.mem_takeWhile_imp hc)
  have hdot : isdigit '.' = false := by decide
  by_cases hafter : ∃ r, x.dropWhile isdigit = '.' :: r
  · obtain ⟨r, hafter⟩ := hafter
    have hval := decimalStrtod_dot x r hafter
    have hlen : ¬ ((x.takeWhile isdigit).length + (r.takeWhile isdigit).length = 0) := by
      intro h0
      rw [hval, if_pos h0] at hpos
      exact hpos rfl
    rw [if_neg hlen] at hval
    have hr : r.takeWhile isdigit ++ r.dropWhile isdigit = r :=
      List.takeWhile_append_dropWhile _ _
    have hfp : ∀ c ∈ r.takeWhile isdigit, isdigit c = true := fun c hc =>
      (List.mem_takeWhile_imp hc)
    refine ⟨x.takeWhile isdigit ++ '.' :: r.takeWhile isdigit, r.dropWhile isdigit, ?_, ?_,
      dropWhile_head isdigit r, ?_⟩
    · rw [List.append_assoc, List.cons_append, hr, ← hafter, hx]
    · rw [hval]
      simp only [List.length_append, List.length_cons]
      omega
    · intro rem2 hstop
      obtain ⟨h1, h2⟩ := takeWhile_append_stop isdigit (x.takeWhile isdigit)
        ('.' :: (r.takeWhile isdigit ++ rem2)) hip
        (fun c tl h => by
          simp only [List.cons.injEq] at h
          rw [← h.1]
          exact hdot)
      obtain ⟨h3, _⟩ := takeWhile_append_stop isdigit (r.takeWhile isdigit) rem2 hfp
        (fun c tl h => (hstop c tl h).1)
      rw [hval, List.append_assoc, List.cons_append,
        decimalStrtod_dot _ (r.takeWhile isdigit ++ rem2) h2, h1, h3, if_neg hlen]
  · have hno : ∀ r, x.dropWhile isdigit ≠ '.' :: r := fun r h => hafter ⟨r, h⟩
    have hval := decimalStrtod_nodot x hno
    have hlen : (x.takeWhile isdigit).length ≠ 0 := by
      intro h0
      rw [hval, if_pos h0] at hpos
      exact hpos rfl
    rw [if_neg hlen] at hval
    refine ⟨x.takeWhile isdigit, x.dropWhile isdigit, hx.symm, by rw [hval],
      dropWhile_head isdigit x, ?_⟩
    intro rem2 hstop
    obtain ⟨h1, h2⟩ := takeWhile_append_stop isdigit (x.takeWhile isdigit) rem2 hip
      (fun c tl h => (hstop c tl h).1)
    have hno' : ∀ r, (x.takeWhile isdigit ++ rem2).dropWhile isdigit ≠ '.' :: r := by
      intro r h
      rw [h2] at h
      obtain ⟨tl0, h0⟩ := (hstop '.' r h).2 rfl
      exact hno tl0 h0
    rw [hval, decimalStrtod_nodot _ hno', h1, if_neg hlen]

theorem strtodLocal_decimal : StrtodLocal decimalArith := by
  intro t s s' ht hconv hlead
  show decimalStrtod (t ++ s') = decimalStrtod (t ++ s)
  have hconv' : (decimalStrtod (t ++ s)).2 = t.length := hconv
  have hpos : (decimalStrtod (t ++ s)).2 ≠ 0 := by
    obtain ⟨c, tl, rfl, _⟩ := ht
    rw [hconv']
    simp
  obtain ⟨lit, rem, hsplit, hlen, hrem, hagree⟩ := decimalStrtod_shape (t ++ s) hpos
  obtain ⟨rfl, rfl⟩ := List.append_inj hsplit (by rw [hlen, hconv'])
  rcases hlead with h | ⟨w, tl, rfl, hw⟩ | ⟨c, tl, tl', rfl, rfl, _⟩
  · rw [h]
  · apply hagree
    intro c tl' h
    simp only [List.cons.injEq] at h
    obtain ⟨rfl, _⟩ := h
    have hnd : isdigit w = false ∧ w ≠ '.' := by
      rcases (isspace_iff w).mp hw with h' | h' | h' | h' | h' | h' <;> subst h' <;> decide
    exact ⟨hnd.1, fun h' => absurd h' hnd.2⟩
  · apply hagree
    intro c' tl0 h
    simp only [List.cons.injEq] at h
    obtain ⟨rfl, _⟩ := h
    exact ⟨hrem c tl rfl, fun _ => ⟨tl, rfl⟩⟩

theorem spaced_one_plus_two : Spaced decimalArith "1+2".toList " 1 + 2 ".toList := by
  have n1 : (decimalArith.strtod (['1'] ++ ['+', '2'])).2 = ['1'].length := by
    show (decimalStrtod (['1'] ++ ['+', '2'])).2 = 1
    rw [decimalStrtod_digits ['1'] ['+', '2'] (by simp) (by decide) (by decide)]
    rfl
  have n2 : (decimalArith.strtod (['2'] ++ [])).2 = ['2'].length := by
    show (decimalStrtod (['2'] ++ [])).2 = 1
    rw [decimalStrtod_digits ['2'] [] (by simp) (by decide) (by decide)]
    rfl
  have h5 : Spaced decimalArith [] [' '] := .insert ' ' [] [] (by decide) (.same [])
  have h4 : Spaced decimalArith (['2'] ++ []) (['2'] ++ [' ']) :=
    .number ['2'] [] [' '] ⟨'2', [], rfl, Or.inl (by decide)⟩ n2 h5
  have h3 : Spaced decimalArith ['+', '2'] ['+', ' ', '2', ' '] :=
    .keep '+' _ _ (Or.inr (Or.inr (Or.inr (by decide)))) (.insert ' ' _ _ (by decide) h4)
  have h2 : Spaced decimalArith (['1'] ++ ['+', '2']) (['1'] ++ [' ', '+', ' ', '2', ' ']) :=
    .number ['1'] _ _ ⟨'1', [], rfl, Or.inl (by decide)⟩ n1 (.insert ' ' _ _ (by decide) h3)
  exact .insert ' ' _ _ (by decide) h2

/-- C10: inserting whitespace before the first token, after the last one or
between two adjacent tokens (as the scanner delimits them) does not change
what `calc_evaluate` returns: same success or failure, same value, same error
code and message; so `" 1 + 2 "` evaluates like `"1+2"`.  The library `strtod`
is assumed to convert a number token independently of what follows it. -/
theorem whitespace_between_tokens_ignored {V : Type} (A : Arith V) (hloc : StrtodLocal A)
    (s s' : List Char) (h : Spaced A s s') (out_result : Option V)
    (out_error : Option CalcError) :
    calc_evaluate A (some s') out_result out_error =
        calc_evaluate A (some s) out_result out_error ∧
      calc_evaluate decimalArith (some " 1 + 2 ".toList) (some 0) (some ⟨.CALC_OK, ""⟩) =
        calc_evaluate decimalArith (some "1+2".toList) (some 0) (some ⟨.CALC_OK, ""⟩) := by
  constructor
  · simp only [calc_evaluate, scan_loop_spaced A hloc s s' h]
  · simp only [calc_evaluate,
      scan_loop_spaced decimalArith strtodLocal_decimal _ _ spaced_one_plus_two]

/-- Witness for C10: `" 1 + 2 "` against `"1+2"` in exact decimal arithmetic. -/
theorem whitespace_between_tokens_ignored_witness :
    StrtodLocal decimalArith ∧ Spaced decimalArith "1+2".toList " 1 + 2 ".toList ∧
    calc_evaluate decimalArith (some " 1 + 2 ".toList) (some 0)
        (some ⟨.CALC_ERR_UNKNOWN, "stale"⟩) =
      calc_evaluate decimalArith (some "1+2".toList) (some 0)
        (some ⟨.CALC_ERR_UNKNOWN, "stale"⟩) :=
  ⟨strtodLocal_decimal, spaced_one_plus_two,
    (whitespace_between_tokens_ignored decimalArith strtodLocal_decimal _ _
      spaced_one_plus_two (some 0) (some ⟨.CALC_ERR_UNKNOWN, "stale"⟩)).1⟩

/-! ## The stack needs are exact -/

theorem valNeed_pos (e : Expr) : 1 ≤ e.valNeed := by
  induction e with
  | num a => simp [Expr.valNeed]
  | paren e ih => simpa [Expr.valNeed] using ih
  | bin op l r ihl _ =>
    simp only [Expr.valNeed]
    exact le_trans ihl (le_max_left _ _)

/-- A well-formed expression whose needs exceed what is left of either stack
fails with `Unknown`: `valNeed` and `opNeed` are the heights really reached. -/
theorem scan_loop_expr_overflow {V : Type} (A : Arith V) (e : Expr) :
    ∀ (rest : List Char) (vs : List V) (os : List Char),
      e.WellFormed A → e.NoZeroDivisor A → stackAdmits os e → endsLiteral rest = true →
      vs.length ≤ MAX_STACK_SIZE → os.length ≤ MAX_STACK_SIZE →
      (MAX_STACK_SIZE < vs.length + e.valNeed ∨ MAX_STACK_SIZE < os.length + e.opNeed) →
      ∃ msg, scan_loop A (e.text ++ rest) vs os = .error (.CALC_ERR_UNKNOWN, msg) := by
  induction e with
  | num a =>
    intro rest vs os hwf _ _ hrest hvs hos hover
    simp only [Expr.valNeed, Expr.opNeed] at hover
    have hfull : MAX_STACK_SIZE ≤ vs.length := by omega
    obtain ⟨⟨c, tl, rfl, hc⟩, hconv⟩ := hwf
    have hs := isspace_of_literal_start c hc
    have hconv' : (A.strtod (c :: (tl ++ rest))).2 = tl.length + 1 := by
      have := hconv rest hrest
      simp only [List.cons_append, List.length_cons] at this
      rw [this]
    refine ⟨"Value stack overflow", ?_⟩
    simp only [Expr.text, List.cons_append]
    rw [scan_loop]
    simp [hs, hc, hconv', hfull]
  | paren e ih =>
    intro rest vs os hwf hnz _ hrest hvs hos hover
    simp only [Expr.valNeed, Expr.opNeed] at hover
    simp only [Expr.text, List.cons_append, List.append_assoc]
    by_cases hfull : MAX_STACK_SIZE ≤ os.length
    · refine ⟨"Operator stack overflow", ?_⟩
      rw [scan_loop]
      have h1 : isspace '(' = false := by decide
      have h2 : isdigit '(' = false := by decide
      simp [h1, h2, hfull]
    · rw [scan_loop_lparen A _ vs os (by omega)]
      exact ih (')' :: rest) vs ('(' :: os) hwf hnz
        (by cases e <;> simp [stackAdmits, is_operator]) (by simp [endsLiteral]) hvs
        (by simp only [List.length_cons]; omega)
        (by simp only [List.length_cons]; omega)
  | bin op l r ihl ihr =>
    intro rest vs os hwf hnz hadm hrest hvs hos hover
    obtain ⟨hop, hwl, hwr, hlo, hro⟩ := hwf
    obtain ⟨hnl, hnr, hz⟩ := hnz
    simp only [Expr.valNeed, Expr.opNeed] at hover
    have hadml := stackAdmits_left os op l r hop hadm hlo
    simp only [Expr.text, List.append_assoc, List.cons_append]
    by_cases hl : MAX_STACK_SIZE < vs.length + l.valNeed ∨ MAX_STACK_SIZE < os.length + l.opNeed
    · exact ihl (op :: (r.text ++ rest)) vs os hwl hnl hadml (endsLiteral_operator op _ hop)
        hvs hos hl
    · have hl1 : vs.length + l.valNeed ≤ MAX_STACK_SIZE := by omega
      have hl2 : os.length + l.opNeed ≤ MAX_STACK_SIZE := by omega
      rw [scan_loop_expr A l (op :: (r.text ++ rest)) vs os hwl hnl hadml
        (endsLiteral_operator op _ hop) hl1 hl2]
      rw [scan_loop_operator A op _ _ _ hop]
      have hsp : l.spinePops op := by
        cases l with
        | num a => trivial
        | paren e => trivial
        | bin op' l' r' =>
          apply spinePops_of_root A op op' l' r' hwl
          simp only [Expr.leftOperandOk] at hlo
          unfold pops
          rcases hlo with h | ⟨h1, h2⟩
          · left; exact h
          · right; exact ⟨h1, by simp [is_right_associative, h2]⟩
      rw [reduce_for_operator_spine A op l vs os hwl hnl hsp]
      rw [reduce_for_operator_stop A op (l.value A :: vs) os (by
        cases os with
        | nil => trivial
        | cons t os' => exact hadm)]
      by_cases hfull : MAX_STACK_SIZE ≤ os.length
      · exact ⟨"Operator stack overflow", by simp [hfull]⟩
      · simp only [hfull, if_false]
        have hpos := valNeed_pos l
        refine ihr rest (l.value A :: vs) (op :: os) hwr hnr
          (stackAdmits_right A os op r hwr hro) hrest
          (by simp only [List.length_cons]; omega) (by simp only [List.length_cons]; omega) ?_
        simp only [List.length_cons]
        rcases hover with h | h
        · left
          rcases le_max_iff.mp (le_refl (max l.valNeed (1 + r.valNeed))) with h' | h' <;> omega
        · right
          rcases le_max_iff.mp (le_refl (max l.opNeed (1 + r.opNeed))) with h' | h' <;> omega

theorem scan_loop_need_exceeded {V : Type} (A : Arith V) (e : Expr)
    (hwf : e.WellFormed A) (hnz : e.NoZeroDivisor A)
    (hover : MAX_STACK_SIZE < e.valNeed ∨ MAX_STACK_SIZE < e.opNeed) :
    ∃ msg, scan_loop A e.text [] [] = .error (.CALC_ERR_UNKNOWN, msg) := by
  have h := scan_loop_expr_overflow A e [] [] [] hwf hnz (by cases e <;> simp [stackAdmits])
    (by simp [endsLiteral]) (by simp) (by simp) (by simpa using hover)
  simpa using h

/-! ## Every expression of the grammar has a well-formed reading -/

theorem attach_text (op : Char) (x t : Expr) :
    (Expr.attach op x t).text = t.text ++ op :: x.text := by
  induction t with
  | num a => simp [Expr.attach, Expr.text]
  | paren e _ => simp [Expr.attach, Expr.text]
  | bin o l r _ ihr =>
    simp only [Expr.attach]
    split_ifs
    · simp [Expr.text]
    · simp [Expr.text, ihr]

theorem attachAll_text (xs : List (Char × Expr)) :
    ∀ t : Expr, (Expr.attachAll t xs).text = t.text ++ tailText xs := by
  induction xs with
  | nil => intro t; simp [Expr.attachAll, tailText]
  | cons p ps ih =>
    intro t
    have h := ih (Expr.attach p.1 p.2 t)
    simp only [Expr.attachAll, List.foldl_cons] at h ⊢
    rw [h, attach_text]
    simp [tailText]

theorem tailText_append (xs ys : List (Char × Expr)) :
    tailText (xs ++ ys) = tailText xs ++ tailText ys := by
  induction xs with
  | nil => simp [tailText]
  | cons p ps ih => simp [tailText, ih]

theorem flatten_text (e : Expr) : e.flatten.1.text ++ tailText e.flatten.2 = e.text := by
  induction e with
  | num a => simp [Expr.flatten, tailText, Expr.text]
  | paren e ih =>
    simp only [Expr.flatten, tailText, Expr.text, attachAll_text, ih]
    simp
  | bin op l r ihl ihr =>
    simp only [Expr.flatten, Expr.text, tailText_append, tailText]
    rw [← ihl, ← ihr]
    simp

theorem reading_text (e : Expr) : e.reading.text = e.text := by
  rw [Expr.reading, attachAll_text, flatten_text]

theorem attach_root (op : Char) (x r : Expr) :
    Expr.attach op x r = .bin op r x ∨
      ∃ o l r', r = .bin o l r' ∧ Expr.attach op x r = .bin o l (Expr.attach op x r') := by
  cases r with
  | num a => exact Or.inl rfl
  | paren e => exact Or.inl rfl
  | bin o l r' =>
    simp only [Expr.attach]
    split_ifs
    · exact Or.inl rfl
    · exact Or.inr ⟨o, l, r', rfl, rfl⟩

theorem attach_wellFormed {V : Type} (A : Arith V) (op : Char) (x : Expr)
    (hop : is_operator op = true) (hx : x.WellFormed A) (hxa : x.isOperand) :
    ∀ t : Expr, t.WellFormed A → (Expr.attach op x t).WellFormed A := by
  have hright : Expr.rightOperandOk op x := by
    cases x with
    | num a => trivial
    | paren e => trivial
    | bin o l r => exact absurd hxa (by simp [Expr.isOperand])
  intro t
  induction t with
  | num a => intro ht; exact ⟨hop, ht, hx, trivial, hright⟩
  | paren e _ => intro ht; exact ⟨hop, ht, hx, trivial, hright⟩
  | bin o l r _ ihr =>
    intro ht
    obtain ⟨ho, hwl, hwr, hlo, hro⟩ := ht
    simp only [Expr.attach]
    split_ifs with hp
    · refine ⟨hop, ⟨ho, hwl, hwr, hlo, hro⟩, hx, ?_, hright⟩
      simp only [Expr.leftOperandOk]
      rcases hp with hp | ⟨hp1, hp2⟩
      · exact Or.inl hp
      · exact Or.inr ⟨hp1, by simpa [is_right_associative] using hp2⟩
    · refine ⟨ho, hwl, ihr hwr, hlo, ?_⟩
      rcases attach_root op x r with h | ⟨o', l', r', hr, h⟩
      · rw [h]
        simp only [Expr.rightOperandOk]
        have hp1 : ¬ precedence o > precedence op := fun h => hp (Or.inl h)
        have hp2 : precedence o = precedence op → is_right_associative op = true := by
          intro h
          cases hra : is_right_associative op with
          | true => rfl
          | false => exact absurd (Or.inr ⟨h, hra⟩) hp
        rcases lt_or_eq_of_le (not_lt.mp hp1) with hlt | heq
        · exact Or.inl hlt
        · right
          refine ⟨heq.symm, ?_⟩
          have hop' : op = '^' := by simpa [is_right_associative] using hp2 heq
          subst hop'
          rcases precedence_of_operator o ho with ⟨h1, _⟩ | ⟨_, h2⟩
          · exact h1
          · have h3 : precedence '^' = 3 := by decide
            omega
      · rw [h]
        rw [hr] at hro
        exact hro

theorem attachAll_wellFormed {V : Type} (A : Arith V) (xs : List (Char × Expr))
    (hxs : ∀ p ∈ xs, is_operator p.1 = true ∧ p.2.WellFormed A ∧ p.2.isOperand) :
    ∀ t : Expr, t.WellFormed A → (Expr.attachAll t xs).WellFormed A := by
  induction xs with
  | nil => intro t ht; exact ht
  | cons p ps ih =>
    intro t ht
    obtain ⟨h1, h2, h3⟩ := hxs p (by simp)
    have h := ih (fun q hq => hxs q (by simp [hq])) (Expr.attach p.1 p.2 t)
      (attach_wellFormed A p.1 p.2 h1 h2 h3 t ht)
    simpa [Expr.attachAll] using h

theorem flatten_wellFormed {V : Type} (A : Arith V) (e : Expr) (he : e.Grammatical A) :
    (e.flatten.1.WellFormed A ∧ e.flatten.1.isOperand) ∧
      ∀ p ∈ e.flatten.2, is_operator p.1 = true ∧ p.2.WellFormed A ∧ p.2.isOperand := by
  induction e with
  | num a => exact ⟨⟨he, trivial⟩, by simp [Expr.flatten]⟩
  | paren e ih =>
    obtain ⟨⟨h1, _⟩, h2⟩ := ih he
    refine ⟨⟨?_, trivial⟩, by simp [Expr.flatten]⟩
    exact attachAll_wellFormed A _ h2 _ h1
  | bin op l r ihl ihr =>
    obtain ⟨hop, hl, hr⟩ := he
    obtain ⟨hl1, hl2⟩ := ihl hl
    obtain ⟨hr1, hr2⟩ := ihr hr
    refine ⟨hl1, ?_⟩
    intro p hp
    simp only [Expr.flatten, List.mem_append, List.mem_cons] at hp
    rcases hp with hp | hp | hp
    · exact hl2 p hp
    · subst hp; exact ⟨hop, hr1.1, hr1.2⟩
    · exact hr2 p hp

/-- Every derivation of the grammar, however grouped, has a well-formed
reading with the same text: the well-formed trees cover all infix expressions. -/
theorem reading_wellFormed {V : Type} (A : Arith V) (e : Expr) (he : e.Grammatical A) :
    e.reading.WellFormed A ∧ e.reading.text = e.text := by
  obtain ⟨⟨h1, _⟩, h2⟩ := flatten_wellFormed A e he
  exact ⟨attachAll_wellFormed A _ h2 _ h1, reading_text e⟩

/-! ## Missing operands, invalid characters, the applier's frame -/

theorem apply_operator_underflow {V : Type} (A : Arith V) (op : Char) (vs : List V)
    (h : vs.length < 2) :
    apply_operator A op vs = .error (.CALC_ERR_SYNTAX, "Syntax error") := by
  match vs, h with
  | [], _ => rfl
  | [_], _ => rfl

theorem operator_not_paren (op : Char) (hop : is_operator op = true) :
    op ≠ '(' ∧ op ≠ ')' := by
  rcases (is_operator_iff op).mp hop with h | h | h | h | h <;> subst h <;> decide

theorem scan_loop_lone_operator {V : Type} (A : Arith V) (op : Char) (v : V)
    (hop : is_operator op = true) :
    scan_loop A [] [v] [op] = .error (.CALC_ERR_SYNTAX, "Syntax error") := by
  have hne := operator_not_paren op hop
  rw [scan_loop, finish, apply_remaining]
  simp [hne.1, hne.2, apply_operator_underflow A op [v] (by simp)]

theorem scan_loop_trailing_operator {V : Type} (A : Arith V) (a : List Char) (op : Char)
    (ha : IsLiteral A a) (hop : is_operator op = true) :
    scan_loop A (a ++ [op]) [] [] = .error (.CALC_ERR_SYNTAX, "Syntax error") := by
  rw [scan_loop_literal A a [op] _ [] [] ha.1 (ha.2 [op] (endsLiteral_operator op [] hop))
    (by simp [MAX_STACK_SIZE])]
  rw [scan_loop_operator A op [] _ _ hop, reduce_for_operator]
  simp only [List.length_nil, MAX_STACK_SIZE]
  simp only [Nat.reduceLeDiff, if_false]
  exact scan_loop_lone_operator A op _ hop

theorem scan_loop_leading_operator {V : Type} (A : Arith V) (a : List Char) (op : Char)
    (ha : IsLiteral A a) (hop : is_operator op = true) :
    scan_loop A (op :: a) [] [] = .error (.CALC_ERR_SYNTAX, "Syntax error") := by
  rw [scan_loop_operator A op a _ _ hop, reduce_for_operator]
  simp only [List.length_nil, MAX_STACK_SIZE]
  simp only [Nat.reduceLeDiff, if_false]
  have h := scan_loop_literal A a [] (A.strtod a).1 [] [op] ha.1
    (by simpa using ha.2 [] (by simp [endsLiteral])) (by simp [MAX_STACK_SIZE])
  rw [List.append_nil] at h
  rw [h]
  exact scan_loop_lone_operator A op _ hop

/-- C13: for every literal `a` and operator `op`, the trailing-operator input
`a op` and the leading-operator input `op a` both fail with `Syntax` and
"Syntax error", the error `apply_operator` reports when it finds fewer than
two values. -/
theorem lone_operator_is_syntax_error {V : Type} (A : Arith V) (a : List Char) (op : Char)
    (ha : IsLiteral A a) (hop : is_operator op = true)
    (out_result : Option V) (previous : CalcError) :
    calc_evaluate A (some (a ++ [op])) out_result (some previous) =
        (false, out_result, some ⟨.CALC_ERR_SYNTAX, "Syntax error"⟩) ∧
      calc_evaluate A (some (op :: a)) out_result (some previous) =
        (false, out_result, some ⟨.CALC_ERR_SYNTAX, "Syntax error"⟩) ∧
      apply_operator A op [(A.strtod a).1] = .error (.CALC_ERR_SYNTAX, "Syntax error") :=
  ⟨calc_evaluate_of_scan_error A _ _ (scan_loop_trailing_operator A a op ha hop) _ _,
    calc_evaluate_of_scan_error A _ _ (scan_loop_leading_operator A a op ha hop) _ _,
    apply_operator_underflow A op _ (by simp)⟩

/-- Witness for C13 at `3+` and `+3`. -/
theorem lone_operator_is_syntax_error_witness :
    IsLiteral decimalArith ['3'] ∧ is_operator '+' = true ∧
    calc_evaluate decimalArith (some "3+".toList) (some 7) (some ⟨.CALC_OK, ""⟩) =
      (false, some 7, some ⟨.CALC_ERR_SYNTAX, "Syntax error"⟩) ∧
    calc_evaluate decimalArith (some "+3".toList) (some 7) (some ⟨.CALC_OK, ""⟩) =
      (false, some 7, some ⟨.CALC_ERR_SYNTAX, "Syntax error"⟩) :=
  ⟨isLiteral_digit _ (by decide), by decide,
    (lone_operator_is_syntax_error decimalArith ['3'] '+' (isLiteral_digit _ (by decide))
      (by decide) (some 7) ⟨.CALC_OK, ""⟩).1,
    (lone_operator_is_syntax_error decimalArith ['3'] '+' (isLiteral_digit _ (by decide))
      (by decide) (some 7) ⟨.CALC_OK, ""⟩).2.1⟩

theorem scan_loop_skip_spaces {V : Type} (A : Arith V) (ws rest : List Char)
    (hws : ∀ w ∈ ws, isspace w = true) (vs : List V) (os : List Char) :
    scan_loop A (ws ++ rest) vs os = scan_loop A rest vs os := by
  induction ws with
  | nil => rfl
  | cons w ws ih =>
    rw [List.cons_append, scan_loop_space A w _ vs os (hws w (by simp))]
    exact ih (fun x hx => hws x (by simp [hx]))

/-- C14: an input whose first non-whitespace character is not a digit, `.`,
an operator or a parenthesis fails with `Syntax` and "Invalid character in
expression"; `abc` fails so at its first letter. -/
theorem invalid_first_character {V : Type} (A : Arith V) (ws : List Char) (c : Char)
    (rest : List Char) (hws : ∀ w ∈ ws, isspace w = true) (hsp : isspace c = false)
    (hdig : isdigit c = false) (hdot : c ≠ '.') (hop : is_operator c = false)
    (hl : c ≠ '(') (hr : c ≠ ')') (out_result : Option V) (previous : CalcError) :
    calc_evaluate A (some (ws ++ c :: rest)) out_result (some previous) =
        (false, out_result,
          some ⟨.CALC_ERR_SYNTAX, "Invalid character in expression"⟩) ∧
      calc_evaluate A (some "abc".toList) out_result (some previous) =
        (false, out_result,
          some ⟨.CALC_ERR_SYNTAX, "Invalid character in expression"⟩) := by
  have key : ∀ (d : Char) (tl : List Char), isspace d = false → isdigit d = false →
      d ≠ '.' → is_operator d = false → d ≠ '(' → d ≠ ')' →
      scan_loop A (d :: tl) ([] : List V) [] =
        .error (.CALC_ERR_SYNTAX, "Invalid character in expression") := by
    intro d tl h1 h2 h3 h4 h5 h6
    rw [scan_loop]
    simp [h1, h2, h3, h4, h5, h6]
  constructor
  · apply calc_evaluate_of_scan_error A _ (.CALC_ERR_SYNTAX, "Invalid character in expression")
    rw [scan_loop_skip_spaces A ws _ hws]
    exact key c rest hsp hdig hdot hop hl hr
  · exact calc_evaluate_of_scan_error A _ (.CALC_ERR_SYNTAX, "Invalid character in expression")
      (key 'a' ['b', 'c'] (by decide) (by decide) (by decide) (by decide) (by decide)
        (by decide)) _ _

/-- Witness for C14 at `"  ?1"`. -/
theorem invalid_first_character_witness :
    (∀ w ∈ [' ', ' '], isspace w = true) ∧ isspace '?' = false ∧ isdigit '?' = false ∧
    is_operator '?' = false ∧
    calc_evaluate decimalArith (some ([' ', ' '] ++ '?' :: ['1'])) (some 7)
        (some ⟨.CALC_OK, ""⟩) =
      (false, some 7, some ⟨.CALC_ERR_SYNTAX, "Invalid character in expression"⟩) :=
  ⟨by decide, by decide, by decide, by decide,
    (invalid_first_character decimalArith [' ', ' '] '?' ['1'] (by decide) (by decide)
      (by decide) (by decide) (by decide) (by decide) (by decide) (some 7)
      ⟨.CALC_OK, ""⟩).1⟩

/-- C17: for each of the five operators and a value stack `r :: l :: below`
(with `r` not zero for `/`), `apply_operator` succeeds with `res :: below`,
where `res` is `l op r` with the earlier-pushed `l` on the left: one entry
fewer, the entries below the two operands unchanged. -/
theorem apply_operator_frame {V : Type} (A : Arith V) (op : Char) (l r : V)
    (below : List V) (hop : is_operator op = true)
    (hz : op = '/' → A.isZero r = false) :
    ∃ res : V, apply_operator A op (r :: l :: below) = .ok (res :: below) ∧
      (res :: below).length + 1 = (r :: l :: below).length ∧
      (op = '+' → res = A.add l r) ∧ (op = '-' → res = A.sub l r) ∧
      (op = '*' → res = A.mul l r) ∧ (op = '/' → res = A.div l r) ∧
      (op = '^' → res = A.pow l r) := by
  refine ⟨opValue A op l r, apply_operator_ok A op l r below hop hz, by simp, ?_⟩
  rcases (is_operator_iff op).mp hop with h | h | h | h | h <;> subst h <;>
    simp [opValue]

/-- Witness for C17: `6 / 3` on top of a stack holding `5`. -/
theorem apply_operator_frame_witness :
    is_operator '/' = true ∧ ('/' = '/' → decimalArith.isZero 3 = false) ∧
    ∃ res : ℚ, apply_operator decimalArith '/' (3 :: 6 :: [5]) = .ok (res :: [5]) ∧
      (res :: [5]).length + 1 = (3 :: 6 :: [5]).length ∧
      ('/' = '+' → res = decimalArith.add 6 3) ∧ ('/' = '-' → res = decimalArith.sub 6 3) ∧
      ('/' = '*' → res = decimalArith.mul 6 3) ∧ ('/' = '/' → res = decimalArith.div 6 3) ∧
      ('/' = '^' → res = decimalArith.pow 6 3) :=
  ⟨by decide, fun _ => by simp [decimalArith],
    apply_operator_frame decimalArith '/' 6 3 [5] (by decide)
      (fun _ => by simp [decimalArith])⟩

/-! ## Termination of the configuration machine -/

theorem apply_operator_length {V : Type} (A : Arith V) (op : Char) (vs vs' : List V)
    (h : apply_operator A op vs = .ok vs') : vs'.length + 1 = vs.length := by
  unfold apply_operator at h
  split at h
  · split_ifs at h <;> simp only [Except.ok.injEq, reduceCtorEq] at h <;> subst h <;> simp
  · simp at h

theorem potential_step {V : Type} (A : Arith V) (cfg cfg' : Config V)
    (h : Config.step A cfg = some cfg') : cfg'.potential < cfg.potential := by
  cases cfg with
  | scanning s vs os =>
    cases s with
    | nil =>
      simp only [Config.step, Option.some.injEq] at h
      subst h
      simp [Config.potential]
    | cons c rest =>
      simp only [Config.step] at h
      split_ifs at h <;> simp only [Option.some.injEq] at h <;> subst h <;>
        simp only [Config.potential, List.length_cons, List.length_drop] <;> omega
  | closing rest vs os =>
    cases os with
    | nil => simp [Config.step] at h
    | cons op os =>
      simp only [Config.step] at h
      split_ifs at h
      · simp only [Option.some.injEq] at h
        subst h
        simp only [Config.potential, List.length_cons]
        omega
      · cases ha : apply_operator A op vs with
        | error e => simp [ha] at h
        | ok vs' =>
          simp only [ha, Option.some.injEq] at h
          subst h
          simp only [Config.potential, List.length_cons]
          omega
  | reducing c rest vs os =>
    cases os with
    | nil =>
      simp only [Config.step] at h
      split_ifs at h
      simp only [Option.some.injEq] at h
      subst h
      simp [Config.potential]
    | cons top_op os =>
      simp only [Config.step] at h
      split_ifs at h
      · cases ha : apply_operator A top_op vs with
        | error e => simp [ha] at h
        | ok vs' =>
          simp only [ha, Option.some.injEq] at h
          subst h
          simp only [Config.potential, List.length_cons]
          omega
      · simp only [Option.some.injEq] at h
        subst h
        simp only [Config.potential, List.length_cons]
        omega
  | draining vs os =>
    cases os with
    | nil => simp [Config.step] at h
    | cons op os =>
      simp only [Config.step] at h
      split_ifs at h
      cases ha : apply_operator A op vs with
      | error e => simp [ha] at h
      | ok vs' =>
        simp only [ha, Option.some.injEq] at h
        subst h
        simp only [Config.potential, List.length_cons]
        omega

theorem reaches_terminal {V : Type} (A : Arith V) (n : ℕ) :
    ∀ cfg : Config V, cfg.potential ≤ n →
      ∃ last, Relation.ReflTransGen (fun a b => Config.step A a = some b) cfg last ∧
        Config.step A last = none := by
  induction n with
  | zero =>
    intro cfg h
    cases cfg <;> simp [Config.potential] at h
  | succ n ih =>
    intro cfg h
    cases hs : Config.step A cfg with
    | none => exact ⟨cfg, Relation.ReflTransGen.refl, hs⟩
    | some cfg' =>
      have hlt := potential_step A cfg cfg' hs
      obtain ⟨last, hr, hl⟩ := ih cfg' (by omega)
      exact ⟨last, Relation.ReflTransGen.head hs hr, hl⟩

theorem visits_terminal {V : Type} (A : Arith V) (s : List Char) :
    ∃ last : Config V, Visits A s last ∧ Config.step A last = none :=
  reaches_terminal A _ (.scanning s [] []) (le_refl _)

/-! ## Invariants of the two stacks -/

theorem stackSymbols_tail (c : Char) (os : List Char) (h : stackSymbols (c :: os)) :
    stackSymbols os :=
  fun x hx => h x (List.mem_cons_of_mem c hx)

theorem stackSymbols_cons (c : Char) (os : List Char) (hc : c = '(' ∨ is_operator c = true)
    (h : stackSymbols os) : stackSymbols (c :: os) := by
  intro x hx
  rcases List.mem_cons.mp hx with hx | hx
  · rw [hx]; exact hc
  · exact h x hx

theorem stackOrdered_tail (c : Char) (os : List Char) (h : stackOrdered (c :: os)) :
    stackOrdered os :=
  List.Chain'.tail h

theorem stackOrdered_lparen (os : List Char) (h : stackOrdered os) :
    stackOrdered ('(' :: os) := by
  unfold stackOrdered at *
  rw [List.chain'_cons']
  refine ⟨?_, h⟩
  intro y _ hy
  exact absurd hy (by decide)

theorem stackOrdered_push (c top : Char) (os : List Char) (h : stackOrdered (top :: os))
    (hstop : ¬ (is_operator top = true ∧ (precedence top > precedence c ∨
      (precedence top = precedence c ∧ is_right_associative c = false)))) :
    stackOrdered (c :: top :: os) := by
  unfold stackOrdered at *
  rw [List.chain'_cons']
  refine ⟨?_, h⟩
  intro y hy _ hty
  simp only [List.head?_cons, Option.mem_def, Option.some.injEq] at hy
  subst hy
  have h1 : ¬ precedence top > precedence c := fun hgt => hstop ⟨hty, Or.inl hgt⟩
  rcases lt_or_eq_of_le (not_lt.mp h1) with hlt | heq
  · exact Or.inl hlt
  · right
    refine ⟨heq, ?_⟩
    cases hra : is_right_associative c with
    | true => simpa [is_right_associative] using hra
    | false => exact absurd ⟨hty, Or.inr ⟨heq, hra⟩⟩ hstop

theorem invariant_step {V : Type} (A : Arith V) (cfg cfg' : Config V)
    (hinv : cfg.invariant) (h : Config.step A cfg = some cfg') : cfg'.invariant := by
  cases cfg with
  | scanning s vs os =>
    obtain ⟨hv, ho, hsym, hord, _⟩ := hinv
    simp only [Config.vals, Config.ops] at hv ho hsym hord
    cases s with
    | nil =>
      simp only [Config.step, Option.some.injEq] at h
      subst h
      exact ⟨hv, ho, hsym, hord, trivial⟩
    | cons c rest =>
      simp only [Config.step] at h
      split_ifs at h with h1 h2 h3 h4 h5 h6 h7 h8 <;>
        simp only [Option.some.injEq] at h <;> subst h
      · exact ⟨hv, ho, hsym, hord, trivial⟩
      · refine ⟨?_, ho, hsym, hord, trivial⟩
        simp only [Config.vals, List.length_cons]
        omega
      · refine ⟨hv, ?_, ?_, ?_, trivial⟩
        · simp only [Config.ops, List.length_cons]
          omega
        · exact stackSymbols_cons c os (Or.inl h5) hsym
        · simp only [Config.ops]
          rw [h5]
          exact stackOrdered_lparen os hord
      · exact ⟨hv, ho, hsym, hord, trivial⟩
      · exact ⟨hv, ho, hsym, hord, h8⟩
  | closing rest vs os =>
    obtain ⟨hv, ho, hsym, hord, _⟩ := hinv
    simp only [Config.vals, Config.ops] at hv ho hsym hord
    cases os with
    | nil => simp [Config.step] at h
    | cons op os =>
      have ho' : os.length ≤ MAX_STACK_SIZE := by
        simp only [List.length_cons] at ho
        omega
      simp only [Config.step] at h
      split_ifs at h
      · simp only [Option.some.injEq] at h
        subst h
        exact ⟨hv, ho', stackSymbols_tail op os hsym, stackOrdered_tail op os hord, trivial⟩
      · cases ha : apply_operator A op vs with
        | error e => simp [ha] at h
        | ok vs' =>
          simp only [ha, Option.some.injEq] at h
          subst h
          have hl := apply_operator_length A op vs vs' ha
          exact ⟨by simp only [Config.vals]; omega, ho', stackSymbols_tail op os hsym,
            stackOrdered_tail op os hord, trivial⟩
  | reducing c rest vs os =>
    obtain ⟨hv, ho, hsym, hord, hc⟩ := hinv
    simp only [Config.vals, Config.ops] at hv ho hsym hord
    cases os with
    | nil =>
      simp only [Config.step] at h
      split_ifs at h
      simp only [Option.some.injEq] at h
      subst h
      refine ⟨hv, by simp [Config.ops, MAX_STACK_SIZE], ?_, ?_, trivial⟩
      · exact stackSymbols_cons c [] (Or.inr hc) hsym
      · simp [Config.ops, stackOrdered]
    | cons top_op os =>
      have ho' : os.length ≤ MAX_STACK_SIZE := by
        simp only [List.length_cons] at ho
        omega
      simp only [Config.step] at h
      split_ifs at h with h1 h2
      · cases ha : apply_operator A top_op vs with
        | error e => simp [ha] at h
        | ok vs' =>
          simp only [ha, Option.some.injEq] at h
          subst h
          have hl := apply_operator_length A top_op vs vs' ha
          exact ⟨by simp only [Config.vals]; omega, ho', stackSymbols_tail top_op os hsym,
            stackOrdered_tail top_op os hord, hc⟩
      · simp only [Option.some.injEq] at h
        subst h
        refine ⟨hv, ?_, stackSymbols_cons c _ (Or.inr hc) hsym,
          stackOrdered_push c top_op os hord h1, trivial⟩
        simp only [Config.ops, List.length_cons] at h2 ⊢
        omega
  | draining vs os =>
    obtain ⟨hv, ho, hsym, hord, _⟩ := hinv
    simp only [Config.vals, Config.ops] at hv ho hsym hord
    cases os with
    | nil => simp [Config.step] at h
    | cons op os =>
      have ho' : os.length ≤ MAX_STACK_SIZE := by
        simp only [List.length_cons] at ho
        omega
      simp only [Config.step] at h
      split_ifs at h
      cases ha : apply_operator A op vs with
      | error e => simp [ha] at h
      | ok vs' =>
        simp only [ha, Option.some.injEq] at h
        subst h
        have hl := apply_operator_length A op vs vs' ha
        exact ⟨by simp only [Config.vals]; omega, ho', stackSymbols_tail op os hsym,
          stackOrdered_tail op os hord, trivial⟩

theorem visits_invariant {V : Type} (A : Arith V) (s : List Char) (cfg : Config V)
    (h : Visits A s cfg) : cfg.invariant := by
  induction h with
  | refl =>
    refine ⟨by simp [Config.vals], by simp [Config.ops], ?_, ?_, trivial⟩
    · intro c hc
      simp [Config.ops] at hc
    · simp [Config.ops, stackOrdered]
  | tail _ hstep ih => exact invariant_step A _ _ ih hstep

theorem apply_operator_error_of_operator {V : Type} (A : Arith V) (op : Char) (vs : List V)
    (e : Failure) (hop : is_operator op = true) (h : apply_operator A op vs = .error e) :
    e.1 = .CALC_ERR_SYNTAX ∨ e.1 = .CALC_ERR_DIV_BY_ZERO := by
  unfold apply_operator at h
  split at h
  · rcases (is_operator_iff op).mp hop with h' | h' | h' | h' | h' <;> subst h' <;>
      simp at h
    split_ifs at h
    simp only [Except.error.injEq] at h
    subst h
    exact Or.inr rfl
  · simp only [Except.error.injEq] at h
    subst h
    exact Or.inl rfl

theorem applies_operator_of_invariant {V : Type} (cfg : Config V) (op : Char) (vs : List V)
    (hinv : cfg.invariant) (h : cfg.applies = some (op, vs)) : is_operator op = true := by
  obtain ⟨_, _, hsym, _, _⟩ := hinv
  cases cfg with
  | scanning s vs' os => simp [Config.applies] at h
  | closing rest vs' os =>
    cases os with
    | nil => simp [Config.applies] at h
    | cons top os =>
      simp only [Config.applies] at h
      split_ifs at h with h1
      simp only [Option.some.injEq, Prod.mk.injEq] at h
      obtain ⟨rfl, _⟩ := h
      rcases hsym top (by simp [Config.ops]) with h2 | h2
      · exact absurd h2 h1
      · exact h2
  | reducing c rest vs' os =>
    cases os with
    | nil => simp [Config.applies] at h
    | cons top os =>
      simp only [Config.applies] at h
      split_ifs at h with h1
      simp only [Option.some.injEq, Prod.mk.injEq] at h
      obtain ⟨rfl, _⟩ := h
      exact h1.1
  | draining vs' os =>
    cases os with
    | nil => simp [Config.applies] at h
    | cons top os =>
      simp only [Config.applies] at h
      split_ifs at h with h1
      simp only [Option.some.injEq, Prod.mk.injEq] at h
      obtain ⟨rfl, _⟩ := h
      rcases hsym top (by simp [Config.ops]) with h2 | h2
      · exact absurd (Or.inl h2) h1
      · exact h2

theorem terminal_unknown {V : Type} (A : Arith V) (cfg : Config V) (e : Failure)
    (hinv : cfg.invariant) (hstep : Config.step A cfg = none)
    (hout : Config.outcome A cfg = .error e) (hcode : e.1 = .CALC_ERR_UNKNOWN) :
    (e.2 = "Value stack overflow" ∧ MAX_STACK_SIZE ≤ cfg.vals.length) ∨
      (e.2 = "Operator stack overflow" ∧ MAX_STACK_SIZE ≤ cfg.ops.length) := by
  have happ : ∀ op vs e', cfg.applies = some (op, vs) →
      apply_operator A op vs = .error e' → e'.1 ≠ .CALC_ERR_UNKNOWN := by
    intro op vs e' ha he
    have hop := applies_operator_of_invariant cfg op vs hinv ha
    rcases apply_operator_error_of_operator A op vs e' hop he with h | h <;> rw [h] <;> decide
  cases cfg with
  | scanning s vs os =>
    cases s with
    | nil => simp [Config.step] at hstep
    | cons c rest =>
      simp only [Config.step] at hstep
      simp only [Config.outcome] at hout
      rw [scan_loop] at hout
      split_ifs at hstep hout <;> simp only [Except.error.injEq, reduceCtorEq] at hout <;>
        subst hout <;> simp_all [Config.vals, Config.ops]
  | closing rest vs os =>
    cases os with
    | nil =>
      simp only [Config.outcome] at hout
      rw [reduce_to_lparen] at hout
      simp only [Except.error.injEq] at hout
      subst hout
      simp at hcode
    | cons op os =>
      simp only [Config.step] at hstep
      simp only [Config.outcome] at hout
      rw [reduce_to_lparen] at hout
      split_ifs at hstep hout with h1
      cases ha : apply_operator A op vs with
      | ok vs' => simp [ha] at hstep
      | error e' =>
        simp only [ha, Except.error.injEq] at hout
        subst hout
        exact absurd hcode (happ op vs e' (by simp [Config.applies, h1]) ha)
  | reducing c rest vs os =>
    cases os with
    | nil => simp [Config.step, MAX_STACK_SIZE] at hstep
    | cons top os =>
      simp only [Config.step] at hstep
      simp only [Config.outcome] at hout
      rw [reduce_for_operator] at hout
      by_cases hc : is_operator top = true ∧ (precedence top > precedence c ∨
          (precedence top = precedence c ∧ is_right_associative c = false))
      · rw [if_pos hc] at hstep
        rw [if_pos hc.1, if_pos hc.2] at hout
        cases ha : apply_operator A top vs with
        | ok vs' => simp [ha] at hstep
        | error e' =>
          simp only [ha, Except.error.injEq] at hout
          subst hout
          exact absurd hcode (happ top vs e' (by simp [Config.applies, hc]) ha)
      · rw [if_neg hc] at hstep
        have hstop : reduce_for_operator A c vs (top :: os) = .ok (vs, top :: os) := by
          rw [reduce_for_operator]
          by_cases h1 : is_operator top = true
          · rw [if_pos h1, if_neg (fun h2 => hc ⟨h1, h2⟩)]
          · rw [if_neg h1]
        rw [← reduce_for_operator, hstop] at hout
        split_ifs at hstep with hfull
        simp only [hfull, if_true, Except.error.injEq] at hout
        subst hout
        exact Or.inr ⟨rfl, hfull⟩
  | draining vs os =>
    cases os with
    | nil =>
      simp only [Config.outcome, finish] at hout
      rw [apply_remaining] at hout
      split at hout
      · rename_i e' he
        simp at he
      · simp at hout
      · simp only [Except.error.injEq] at hout
        subst hout
        simp at hcode
    | cons op os =>
      simp only [Config.step] at hstep
      simp only [Config.outcome, finish] at hout
      rw [apply_remaining] at hout
      split_ifs at hstep hout with h1
      · simp only [Except.error.injEq] at hout
        subst hout
        simp at hcode
      · cases ha : apply_operator A op vs with
        | ok vs' => simp [ha] at hstep
        | error e' =>
          simp only [ha, Except.error.injEq] at hout
          subst hout
          exact absurd hcode (happ op vs e' (by simp [Config.applies, h1]) ha)

theorem step_heights {V : Type} (A : Arith V) (cfg cfg' : Config V)
    (h : Config.step A cfg = some cfg') :
    cfg'.vals.length ≤ cfg.vals.length + 1 ∧ cfg'.ops.length ≤ cfg.ops.length + 1 := by
  cases cfg with
  | scanning s vs os =>
    cases s with
    | nil =>
      simp only [Config.step, Option.some.injEq] at h
      subst h
      simp [Config.vals, Config.ops]
    | cons c rest =>
      simp only [Config.step] at h
      split_ifs at h <;> simp only [Option.some.injEq] at h <;> subst h <;>
        simp [Config.vals, Config.ops]
  | closing rest vs os =>
    cases os with
    | nil => simp [Config.step] at h
    | cons op os =>
      simp only [Config.step] at h
      split_ifs at h
      · simp only [Option.some.injEq] at h
        subst h
        simp only [Config.vals, Config.ops, List.length_cons]
        omega
      · cases ha : apply_operator A op vs with
        | error e => simp [ha] at h
        | ok vs' =>
          simp only [ha, Option.some.injEq] at h
          subst h
          have hl := apply_operator_length A op vs vs' ha
          simp only [Config.vals, Config.ops, List.length_cons]
          omega
  | reducing c rest vs os =>
    cases os with
    | nil =>
      simp only [Config.step] at h
      split_ifs at h
      simp only [Option.some.injEq] at h
      subst h
      simp [Config.vals, Config.ops]
    | cons top os =>
      simp only [Config.step] at h
      split_ifs at h
      · cases ha : apply_operator A top vs with
        | error e => simp [ha] at h
        | ok vs' =>
          simp only [ha, Option.some.injEq] at h
          subst h
          have hl := apply_operator_length A top vs vs' ha
          simp only [Config.vals, Config.ops, List.length_cons]
          omega
      · simp only [Option.some.injEq] at h
        subst h
        simp [Config.vals, Config.ops]
  | draining vs os =>
    cases os with
    | nil => simp [Config.step] at h
    | cons op os =>
      simp only [Config.step] at h
      split_ifs at h
      cases ha : apply_operator A op vs with
      | error e => simp [ha] at h
      | ok vs' =>
        simp only [ha, Option.some.injEq] at h
        subst h
        have hl := apply_operator_length A op vs vs' ha
        simp only [Config.vals, Config.ops, List.length_cons]
        omega

/-- C16: at every configuration an evaluation passes through, both stacks
hold at most 256 entries; an iteration grows a stack by at most one entry and
the grown stack still holds at most 256, so every push goes to an index below
256; `apply_operator` touches the value stack only when it holds at least two
entries, and then leaves one entry fewer. -/
theorem stacks_stay_within_capacity {V : Type} (A : Arith V) (s : List Char)
    (cfg : Config V) (h : Visits A s cfg) :
    MAX_STACK_SIZE = 256 ∧
    cfg.vals.length ≤ MAX_STACK_SIZE ∧ cfg.ops.length ≤ MAX_STACK_SIZE ∧
    (∀ cfg', Config.step A cfg = some cfg' →
      cfg'.vals.length ≤ cfg.vals.length + 1 ∧ cfg'.ops.length ≤ cfg.ops.length + 1 ∧
      cfg'.vals.length ≤ MAX_STACK_SIZE ∧ cfg'.ops.length ≤ MAX_STACK_SIZE) ∧
    (∀ op vs, cfg.applies = some (op, vs) →
      (vs.length < 2 → apply_operator A op vs = .error (.CALC_ERR_SYNTAX, "Syntax error")) ∧
      ∀ vs', apply_operator A op vs = .ok vs' →
        2 ≤ vs.length ∧ vs'.length + 1 = vs.length ∧ vs'.length < MAX_STACK_SIZE) := by
  have hinv := visits_invariant A s cfg h
  refine ⟨rfl, hinv.1, hinv.2.1, ?_, ?_⟩
  · intro cfg' hs
    have hinv' := invariant_step A cfg cfg' hinv hs
    have hh := step_heights A cfg cfg' hs
    exact ⟨hh.1, hh.2, hinv'.1, hinv'.2.1⟩
  · intro op vs ha
    have hvs : vs = cfg.vals := by
      cases cfg with
      | scanning s' vs' os => simp [Config.applies] at ha
      | closing rest vs' os =>
        cases os with
        | nil => simp [Config.applies] at ha
        | cons top os =>
          simp only [Config.applies] at ha
          split_ifs at ha
          simp only [Option.some.injEq, Prod.mk.injEq] at ha
          exact ha.2.symm
      | reducing c rest vs' os =>
        cases os with
        | nil => simp [Config.applies] at ha
        | cons top os =>
          simp only [Config.applies] at ha
          split_ifs at ha
          simp only [Option.some.injEq, Prod.mk.injEq] at ha
          exact ha.2.symm
      | draining vs' os =>
        cases os with
        | nil => simp [Config.applies] at ha
        | cons top os =>
          simp only [Config.applies] at ha
          split_ifs at ha
          simp only [Option.some.injEq, Prod.mk.injEq] at ha
          exact ha.2.symm
    refine ⟨apply_operator_underflow A op vs, ?_⟩
    intro vs' hok
    have hl := apply_operator_length A op vs vs' hok
    have hcap := hinv.1
    rw [← hvs] at hcap
    refine ⟨?_, hl, by omega⟩
    by_contra hlt
    rw [apply_operator_underflow A op vs (by omega)] at hok
    simp at hok

/-- Witness for C16 at the end of the scan of `0/0`: two values, one operator. -/
theorem stacks_stay_within_capacity_witness :
    Visits decimalArith "0/0".toList
        (.draining [(decimalArith.strtod ['0']).1, (decimalArith.strtod ['0']).1] ['/']) ∧
      (Config.draining [(decimalArith.strtod ['0']).1, (decimalArith.strtod ['0']).1]
        ['/']).vals.length ≤ MAX_STACK_SIZE ∧
      (Config.draining [(decimalArith.strtod ['0']).1, (decimalArith.strtod ['0']).1]
        ['/']).ops.length ≤ MAX_STACK_SIZE :=
  ⟨visits_literal_div_literal decimalArith ['0'] ['0'] (isLiteral_digit _ (by decide))
      (isLiteral_digit _ (by decide)),
    (stacks_stay_within_capacity decimalArith "0/0".toList _
      (visits_literal_div_literal decimalArith ['0'] ['0'] (isLiteral_digit _ (by decide))
        (isLiteral_digit _ (by decide)))).2.1,
    (stacks_stay_within_capacity decimalArith "0/0".toList _
      (visits_literal_div_literal decimalArith ['0'] ['0'] (isLiteral_digit _ (by decide))
        (isLiteral_digit _ (by decide)))).2.2.1⟩

/-- C18: every call of `apply_operator` made during an evaluation passes one
of the five operators, so "Unknown operator" is never reported: a failure with
code `Unknown` carries one of the two overflow messages, and the evaluation
stopped at a configuration whose value stack or operator stack was full. -/
theorem unknown_is_stack_overflow {V : Type} (A : Arith V) (s : List Char) :
    (∀ (cfg : Config V) (op : Char) (vs : List V), Visits A s cfg →
      cfg.applies = some (op, vs) →
      op = '+' ∨ op = '-' ∨ op = '*' ∨ op = '/' ∨ op = '^') ∧
    ∀ (out_result : Option V) (previous err : CalcError),
      (calc_evaluate A (some s) out_result (some previous)).2.2 = some err →
      err.code = .CALC_ERR_UNKNOWN →
      (err.message = "Value stack overflow" ∨ err.message = "Operator stack overflow") ∧
      ∃ last : Config V, Visits A s last ∧ Config.step A last = none ∧
        (MAX_STACK_SIZE ≤ last.vals.length ∨ MAX_STACK_SIZE ≤ last.ops.length) := by
  constructor
  · intro cfg op vs hv ha
    exact (is_operator_iff op).mp
      (applies_operator_of_invariant cfg op vs (visits_invariant A s cfg hv) ha)
  · intro out_result previous err herr hcode
    obtain ⟨last, hv, hstep⟩ := visits_terminal A s
    have hout := visits_outcome A s last hv
    cases hs : scan_loop A s [] [] with
    | ok v =>
      simp only [calc_evaluate, hs, set_error, Option.some.injEq] at herr
      rw [← herr] at hcode
      simp at hcode
    | error e =>
      simp only [calc_evaluate, hs, set_error, Option.some.injEq] at herr
      rw [hs] at hout
      have hcode' : e.1 = .CALC_ERR_UNKNOWN := by
        rw [← herr] at hcode
        exact hcode
      rcases terminal_unknown A last e (visits_invariant A s last hv) hstep hout hcode' with
        ⟨hm, hfull⟩ | ⟨hm, hfull⟩
      · refine ⟨Or.inl ?_, last, hv, hstep, Or.inl hfull⟩
        rw [← herr, hm]
        rfl
      · refine ⟨Or.inr ?_, last, hv, hstep, Or.inr hfull⟩
        rw [← herr, hm]
        rfl

/-- Witness for C18: the division applied at the end of the scan of `0/0`. -/
theorem unknown_is_stack_overflow_witness :
    Visits decimalArith "0/0".toList
        (.draining [(decimalArith.strtod ['0']).1, (decimalArith.strtod ['0']).1] ['/']) ∧
      ('/' = '+' ∨ '/' = '-' ∨ '/' = '*' ∨ '/' = '/' ∨ '/' = '^') :=
  ⟨visits_literal_div_literal decimalArith ['0'] ['0'] (isLiteral_digit _ (by decide))
      (isLiteral_digit _ (by decide)),
    (unknown_is_stack_overflow decimalArith "0/0".toList).1 _ '/' _
      (visits_literal_div_literal decimalArith ['0'] ['0'] (isLiteral_digit _ (by decide))
        (isLiteral_digit _ (by decide))) rfl⟩

/-- C20: at every configuration an evaluation passes through, the operator
stack holds only `(` and the five operators, and of two operators with `y`
directly above `x` either `precedence x < precedence y`, or the precedences
are equal and `y` is `^`. -/
theorem operator_stack_is_ordered {V : Type} (A : Arith V) (s : List Char)
    (cfg : Config V) (h : Visits A s cfg) :
    (∀ c ∈ cfg.ops, c = '(' ∨ c = '+' ∨ c = '-' ∨ c = '*' ∨ c = '/' ∨ c = '^') ∧
    ∀ (above below : List Char) (y x : Char), cfg.ops = above ++ y :: x :: below →
      is_operator y = true → is_operator x = true →
      precedence x < precedence y ∨ (precedence x = precedence y ∧ y = '^') := by
  obtain ⟨_, _, hsym, hord, _⟩ := visits_invariant A s cfg h
  constructor
  · intro c hc
    rcases hsym c hc with h1 | h1
    · exact Or.inl h1
    · exact Or.inr ((is_operator_iff c).mp h1)
  · intro above below y x hsplit hy hx
    unfold stackOrdered at hord
    rw [hsplit, List.chain'_split] at hord
    exact (List.chain'_cons.mp hord.2).1 hy hx

theorem step_operator {V : Type} (A : Arith V) (c : Char) (rest : List Char) (vs : List V)
    (os : List Char) (hc : is_operator c = true) :
    Config.step A (.scanning (c :: rest) vs os) = some (.reducing c rest vs os) := by
  have h1 : isspace c = false ∧ isdigit c = false ∧ c ≠ '.' ∧ c ≠ '(' ∧ c ≠ ')' := by
    rcases (is_operator_iff c).mp hc with h | h | h | h | h <;> subst h <;> decide
  simp [Config.step, h1.1, h1.2.1, h1.2.2.1, h1.2.2.2.1, h1.2.2.2.2, hc]

theorem visits_two_operators {V : Type} (A : Arith V) (a b c : List Char) (op1 op2 : Char)
    (ha : IsLiteral A a) (hb : IsLiteral A b) (hc : IsLiteral A c)
    (h1 : is_operator op1 = true) (h2 : is_operator op2 = true)
    (hp : precedence op1 < precedence op2) :
    Visits A (a ++ op1 :: (b ++ op2 :: c))
      (.draining [(A.strtod c).1, (A.strtod b).1, (A.strtod a).1] [op2, op1]) := by
  have s1 := step_literal A a (op1 :: (b ++ op2 :: c)) [] [] ha
    (endsLiteral_operator op1 _ h1) (by simp [MAX_STACK_SIZE])
  have s2 := step_operator A op1 (b ++ op2 :: c) [(A.strtod a).1] [] h1
  have s3 : Config.step A (.reducing op1 (b ++ op2 :: c) [(A.strtod a).1] []) =
      some (.scanning (b ++ op2 :: c) [(A.strtod a).1] [op1]) := by
    simp [Config.step, MAX_STACK_SIZE]
  have s4 := step_literal A b (op2 :: c) [(A.strtod a).1] [op1] hb
    (endsLiteral_operator op2 _ h2) (by simp [MAX_STACK_SIZE])
  have s5 := step_operator A op2 c [(A.strtod b).1, (A.strtod a).1] [op1] h2
  have s6 : Config.step A (.reducing op2 c [(A.strtod b).1, (A.strtod a).1] [op1]) =
      some (.scanning c [(A.strtod b).1, (A.strtod a).1] [op2, op1]) := by
    have hno : ¬ (is_operator op1 = true ∧ (precedence op1 > precedence op2 ∨
        (precedence op1 = precedence op2 ∧ is_right_associative op2 = false))) := by
      rintro ⟨_, h | ⟨h, _⟩⟩ <;> omega
    simp only [Config.step, if_neg hno]
    simp [MAX_STACK_SIZE]
  have s7 := step_literal A c [] [(A.strtod b).1, (A.strtod a).1] [op2, op1] hc
    (by simp [endsLiteral]) (by simp [MAX_STACK_SIZE])
  rw [List.append_nil] at s7
  have s8 : Config.step A
      (.scanning [] [(A.strtod c).1, (A.strtod b).1, (A.strtod a).1] [op2, op1]) =
      some (.draining [(A.strtod c).1, (A.strtod b).1, (A.strtod a).1] [op2, op1]) := by
    simp [Config.step]
  have v1 := visits_next A _ _ _ (visits_start A (a ++ op1 :: (b ++ op2 :: c))) s1
  have v2 := visits_next A _ _ _ v1 s2
  have v3 := visits_next A _ _ _ v2 s3
  have v4 := visits_next A _ _ _ v3 s4
  have v5 := visits_next A _ _ _ v4 s5
  have v6 := visits_next A _ _ _ v5 s6
  have v7 := visits_next A _ _ _ v6 s7
  exact visits_next A _ _ _ v7 s8

theorem visits_one_two_three :
    Visits decimalArith "1+2*3".toList
      (.draining [(decimalArith.strtod ['3']).1, (decimalArith.strtod ['2']).1,
        (decimalArith.strtod ['1']).1] ['*', '+']) :=
  visits_two_operators decimalArith ['1'] ['2'] ['3'] '+' '*' (isLiteral_digit _ (by decide))
    (isLiteral_digit _ (by decide)) (isLiteral_digit _ (by decide)) (by decide) (by decide)
    (by decide)

/-- Witness for C20: the operator stack `* +` left at the end of the scan of
`1+2*3`, where `+` lies directly below `*` and binds less tightly. -/
theorem operator_stack_is_ordered_witness :
    Visits decimalArith "1+2*3".toList
        (.draining [(decimalArith.strtod ['3']).1, (decimalArith.strtod ['2']).1,
          (decimalArith.strtod ['1']).1] ['*', '+']) ∧
      (precedence '+' < precedence '*' ∨ (precedence '+' = precedence '*' ∧ '*' = '^')) :=
  ⟨visits_one_two_three,
    (operator_stack_is_ordered decimalArith "1+2*3".toList _ visits_one_two_three).2
      [] [] '*' '+' rfl (by decide) (by decide)⟩

/-! ## Runs: length, tokens and applications -/

theorem potential_pos {V : Type} (cfg : Config V) : 1 ≤ cfg.potential := by
  cases cfg <;> simp only [Config.potential] <;> omega

theorem runFor_length {V : Type} (A : Arith V) (n : ℕ) :
    ∀ cfg : Config V, (Config.runFor A n cfg).length ≤ cfg.potential := by
  induction n with
  | zero => intro cfg; simpa [Config.runFor] using potential_pos cfg
  | succ n ih =>
    intro cfg
    cases hs : Config.step A cfg with
    | none => simpa [Config.runFor, hs] using potential_pos cfg
    | some cfg' =>
      have h1 := ih cfg'
      have h2 := potential_step A cfg cfg' hs
      simp only [Config.runFor, hs, List.length_cons]
      omega

theorem runFor_reaches {V : Type} (A : Arith V) (n : ℕ) :
    ∀ cfg c : Config V, c ∈ Config.runFor A n cfg →
      Relation.ReflTransGen (fun a b => Config.step A a = some b) cfg c := by
  induction n with
  | zero =>
    intro cfg c hc
    simp only [Config.runFor, List.mem_singleton] at hc
    rw [hc]
  | succ n ih =>
    intro cfg c hc
    cases hs : Config.step A cfg with
    | none =>
      simp only [Config.runFor, hs, List.mem_singleton] at hc
      rw [hc]
    | some cfg' =>
      simp only [Config.runFor, hs, List.mem_cons] at hc
      rcases hc with hc | hc
      · rw [hc]
      · exact Relation.ReflTransGen.head hs (ih cfg' c hc)

theorem runFor_ends {V : Type} (A : Arith V) (n : ℕ) :
    ∀ cfg : Config V, cfg.potential ≤ n →
      ∃ pre last, Config.runFor A n cfg = pre ++ [last] ∧ Config.step A last = none := by
  induction n with
  | zero =>
    intro cfg h
    have := potential_pos cfg
    omega
  | succ n ih =>
    intro cfg h
    cases hs : Config.step A cfg with
    | none => exact ⟨[], cfg, by simp [Config.runFor, hs], hs⟩
    | some cfg' =>
      have hlt := potential_step A cfg cfg' hs
      obtain ⟨pre, last, hrun, hlast⟩ := ih cfg' (by omega)
      exact ⟨cfg :: pre, last, by simp [Config.runFor, hs, hrun], hlast⟩

theorem numberCount_append {V : Type} (xs ys : List (Token V)) :
    numberCount (xs ++ ys) = numberCount xs + numberCount ys := by
  induction xs with
  | nil => simp [numberCount]
  | cons t ts ih =>
    cases t with
    | number v =>
      show numberCount (ts ++ ys) + 1 = numberCount ts + 1 + numberCount ys
      omega
    | operator c => exact ih
    | lparen => exact ih
    | rparen => exact ih

theorem operatorCount_append {V : Type} (xs ys : List (Token V)) :
    operatorCount (xs ++ ys) = operatorCount xs + operatorCount ys := by
  induction xs with
  | nil => simp [operatorCount]
  | cons t ts ih =>
    cases t with
    | number v => exact ih
    | operator c =>
      show operatorCount (ts ++ ys) + 1 = operatorCount ts + 1 + operatorCount ys
      omega
    | lparen => exact ih
    | rparen => exact ih

theorem filterMap_token_cons {V : Type} (A : Arith V) (cfg : Config V)
    (l : List (Config V)) :
    (cfg :: l).filterMap (Config.token A) =
      (Config.token A cfg).toList ++ l.filterMap (Config.token A) := by
  cases h : Config.token A cfg <;> simp [List.filterMap_cons, h]

theorem countP_not_lparen_cons (c : Char) (os : List Char) (hc : c ≠ '(') :
    (c :: os).countP (fun x => x != '(') = os.countP (fun x => x != '(') + 1 := by
  simp [List.countP_cons, hc]

theorem countP_lparen_cons (os : List Char) :
    ('(' :: os).countP (fun x => x != '(') = os.countP (fun x => x != '(') := by
  simp [List.countP_cons]

/-- One iteration moves exactly one unit per event: a number token adds a
value, an operator token adds a pending operator, an application removes one
of each. -/
theorem step_accounts {V : Type} (A : Arith V) (cfg cfg' : Config V)
    (h : Config.step A cfg = some cfg') :
    cfg'.pendingOperators + applicationCount [cfg] =
        cfg.pendingOperators + operatorCount (Config.token A cfg).toList ∧
      cfg'.vals.length + applicationCount [cfg] =
        cfg.vals.length + numberCount (Config.token A cfg).toList := by
  cases cfg with
  | scanning s vs os =>
    cases s with
    | nil =>
      simp only [Config.step, Option.some.injEq] at h
      subst h
      simp [Config.pendingOperators, Config.ops, Config.vals, applicationCount,
        Config.applies, Config.token, operatorCount, numberCount]
    | cons c rest =>
      simp only [Config.step] at h
      split_ifs at h with h1 h2 h3 h4 h5 h6 h7 h8 <;>
        simp only [Option.some.injEq] at h <;> subst h
      · simp [Config.pendingOperators, Config.ops, Config.vals, applicationCount,
          Config.applies, Config.token, operatorCount, numberCount, h1]
      · simp [Config.pendingOperators, Config.ops, Config.vals, applicationCount,
          Config.applies, Config.token, operatorCount, numberCount, h1, h2, h3]
      · subst h5
        simp [Config.pendingOperators, Config.ops, Config.vals, applicationCount,
          Config.applies, Config.token, operatorCount, numberCount, h1, h2]
      · subst h7
        simp [Config.pendingOperators, Config.ops, Config.vals, applicationCount,
          Config.applies, Config.token, operatorCount, numberCount, h1, h2]
      · have hne := (operator_not_paren c h8).1
        simp [Config.pendingOperators, Config.ops, Config.vals, applicationCount,
          Config.applies, Config.token, operatorCount, numberCount, h1, h2, h5, h7, h8, hne]
  | closing rest vs os =>
    cases os with
    | nil => simp [Config.step] at h
    | cons op os =>
      simp only [Config.step] at h
      split_ifs at h with h1
      · simp only [Option.some.injEq] at h
        subst h
        subst h1
        simp [Config.pendingOperators, Config.ops, Config.vals, applicationCount,
          Config.applies, Config.token, operatorCount, numberCount]
      · cases ha : apply_operator A op vs with
        | error e => simp [ha] at h
        | ok vs' =>
          simp only [ha, Option.some.injEq] at h
          subst h
          have hl := apply_operator_length A op vs vs' ha
          simp only [Config.pendingOperators, Config.ops, Config.vals, applicationCount,
            Config.applies, Config.token, operatorCount, numberCount, if_neg h1,
            countP_not_lparen_cons op os h1, Option.toList]
          exact ⟨trivial, by omega⟩
  | reducing c rest vs os =>
    cases os with
    | nil =>
      simp only [Config.step] at h
      split_ifs at h
      simp only [Option.some.injEq] at h
      subst h
      simp [Config.pendingOperators, Config.ops, Config.vals, applicationCount,
        Config.applies, Config.token, operatorCount, numberCount]
    | cons top os =>
      simp only [Config.step] at h
      split_ifs at h with h1 h2
      · cases ha : apply_operator A top vs with
        | error e => simp [ha] at h
        | ok vs' =>
          simp only [ha, Option.some.injEq] at h
          subst h
          have hl := apply_operator_length A top vs vs' ha
          have hne := (operator_not_paren top h1.1).1
          simp only [Config.pendingOperators, Config.ops, Config.vals, applicationCount,
            Config.applies, Config.token, operatorCount, numberCount, if_pos h1,
            Option.toList]
          rw [List.countP_cons, List.countP_cons, List.countP_cons]
          simp only [hne, bne_iff_ne, ne_eq, not_false_eq_true, if_true]
          omega
      · simp only [Option.some.injEq] at h
        subst h
        simp [Config.pendingOperators, Config.ops, Config.vals, applicationCount,
          Config.applies, Config.token, operatorCount, numberCount, h1]
  | draining vs os =>
    cases os with
    | nil => simp [Config.step] at h
    | cons op os =>
      simp only [Config.step] at h
      split_ifs at h with h1
      cases ha : apply_operator A op vs with
      | error e => simp [ha] at h
      | ok vs' =>
        simp only [ha, Option.some.injEq] at h
        subst h
        have hl := apply_operator_length A op vs vs' ha
        have hne : op ≠ '(' := fun h' => h1 (Or.inl h')
        simp only [Config.pendingOperators, Config.ops, Config.vals, applicationCount,
          Config.applies, Config.token, operatorCount, numberCount, if_neg h1,
          countP_not_lparen_cons op os hne, Option.toList]
        exact ⟨trivial, by omega⟩

theorem applicationCount_cons {V : Type} (cfg : Config V) (l : List (Config V)) :
    applicationCount (cfg :: l) = applicationCount [cfg] + applicationCount l := by
  simp [applicationCount]

theorem applies_pending {V : Type} (cfg : Config V) :
    applicationCount [cfg] ≤ cfg.pendingOperators := by
  cases cfg with
  | scanning s vs os => simp [applicationCount, Config.applies]
  | closing rest vs os =>
    cases os with
    | nil => simp [applicationCount, Config.applies]
    | cons op os =>
      by_cases h1 : op = '('
      · simp [applicationCount, Config.applies, h1]
      · simp [applicationCount, Config.applies, h1, Config.pendingOperators, Config.ops,
          List.countP_cons]
  | reducing c rest vs os =>
    cases os with
    | nil => simp [applicationCount, Config.applies]
    | cons top os =>
      by_cases h1 : is_operator top = true ∧ (precedence top > precedence c ∨
          (precedence top = precedence c ∧ is_right_associative c = false))
      · have hne := (operator_not_paren top h1.1).1
        simp only [applicationCount, Config.applies, if_pos h1, Config.pendingOperators]
        rw [List.countP_cons, List.countP_cons]
        simp only [hne, bne_iff_ne, ne_eq, not_false_eq_true, if_true]
        omega
      · simp only [applicationCount, Config.applies, if_neg h1]
        omega
  | draining vs os =>
    cases os with
    | nil => simp [applicationCount, Config.applies]
    | cons op os =>
      by_cases h1 : op = '(' ∨ op = ')'
      · simp [applicationCount, Config.applies, h1]
      · have hne : op ≠ '(' := fun h' => h1 (Or.inl h')
        simp only [applicationCount, Config.applies, if_neg h1, Config.pendingOperators,
          Config.ops]
        rw [List.countP_cons]
        simp only [hne, bne_iff_ne, ne_eq, not_false_eq_true, if_true]
        omega

/-- Along any run, applications never outnumber the operator tokens read plus
the operators that were already waiting. -/
theorem runFor_applications_le {V : Type} (A : Arith V) (n : ℕ) :
    ∀ cfg : Config V,
      applicationCount (Config.runFor A n cfg) ≤
        operatorCount ((Config.runFor A n cfg).filterMap (Config.token A)) +
          cfg.pendingOperators := by
  have base : ∀ cfg : Config V,
      applicationCount [cfg] ≤
        operatorCount ([cfg].filterMap (Config.token A)) + cfg.pendingOperators := by
    intro cfg
    have := applies_pending cfg
    omega
  induction n with
  | zero => intro cfg; exact base cfg
  | succ n ih =>
    intro cfg
    cases hs : Config.step A cfg with
    | none =>
      simp only [Config.runFor, hs]
      exact base cfg
    | some cfg' =>
      have h1 := ih cfg'
      have h2 := (step_accounts A cfg cfg' hs).1
      simp only [Config.runFor, hs]
      rw [applicationCount_cons, filterMap_token_cons, operatorCount_append]
      omega

theorem terminal_ok {V : Type} (A : Arith V) (cfg : Config V) (v : V)
    (hstep : Config.step A cfg = none) (hout : Config.outcome A cfg = .ok v) :
    cfg = .draining [v] [] := by
  cases cfg with
  | scanning s vs os =>
    cases s with
    | nil => simp [Config.step] at hstep
    | cons c rest =>
      simp only [Config.step] at hstep
      simp only [Config.outcome] at hout
      rw [scan_loop] at hout
      split_ifs at hstep hout
  | closing rest vs os =>
    cases os with
    | nil =>
      simp only [Config.outcome] at hout
      rw [reduce_to_lparen] at hout
      simp at hout
    | cons op os =>
      simp only [Config.step] at hstep
      simp only [Config.outcome] at hout
      rw [reduce_to_lparen] at hout
      split_ifs at hstep hout
      cases ha : apply_operator A op vs with
      | ok vs' => simp [ha] at hstep
      | error e' => simp [ha] at hout
  | reducing c rest vs os =>
    cases os with
    | nil => simp [Config.step, MAX_STACK_SIZE] at hstep
    | cons top os =>
      simp only [Config.step] at hstep
      simp only [Config.outcome] at hout
      rw [reduce_for_operator] at hout
      by_cases hc : is_operator top = true ∧ (precedence top > precedence c ∨
          (precedence top = precedence c ∧ is_right_associative c = false))
      · rw [if_pos hc] at hstep
        rw [if_pos hc.1, if_pos hc.2] at hout
        cases ha : apply_operator A top vs with
        | ok vs' => simp [ha] at hstep
        | error e' => simp [ha] at hout
      · rw [if_neg hc] at hstep
        have hstop : reduce_for_operator A c vs (top :: os) = .ok (vs, top :: os) := by
          rw [reduce_for_operator]
          by_cases h1 : is_operator top = true
          · rw [if_pos h1, if_neg (fun h2 => hc ⟨h1, h2⟩)]
          · rw [if_neg h1]
        rw [← reduce_for_operator, hstop] at hout
        split_ifs at hstep with hfull
        simp only [List.length_cons] at hfull
        simp [hfull] at hout
  | draining vs os =>
    cases os with
    | nil =>
      simp only [Config.outcome, finish] at hout
      rw [apply_remaining] at hout
      match vs, hout with
      | [], hout => simp at hout
      | [v'], hout =>
        simp only [Except.ok.injEq] at hout
        rw [hout]
      | _ :: _ :: _, hout => simp at hout
    | cons op os =>
      simp only [Config.step] at hstep
      simp only [Config.outcome, finish] at hout
      rw [apply_remaining] at hout
      split_ifs at hstep hout with h1
      cases ha : apply_operator A op vs with
      | ok vs' => simp [ha] at hstep
      | error e' => simp [ha] at hout

/-- Along a successful run every number pushed and every operator read is
used up: values and number tokens balance operators, and every operator is
applied exactly once. -/
theorem runFor_success_accounts {V : Type} (A : Arith V) (v : V) (n : ℕ) :
    ∀ cfg : Config V, cfg.potential ≤ n → Config.outcome A cfg = .ok v →
      cfg.vals.length + numberCount ((Config.runFor A n cfg).filterMap (Config.token A)) =
          1 + operatorCount ((Config.runFor A n cfg).filterMap (Config.token A)) +
            cfg.pendingOperators ∧
        applicationCount (Config.runFor A n cfg) =
          operatorCount ((Config.runFor A n cfg).filterMap (Config.token A)) +
            cfg.pendingOperators := by
  induction n with
  | zero =>
    intro cfg h
    have := potential_pos cfg
    omega
  | succ n ih =>
    intro cfg hpot hout
    cases hs : Config.step A cfg with
    | none =>
      have hcfg := terminal_ok A cfg v hs hout
      subst hcfg
      simp [Config.runFor, Config.step, Config.token, Config.vals, Config.pendingOperators,
        Config.ops, numberCount, operatorCount, applicationCount, Config.applies]
    | some cfg' =>
      have hlt := potential_step A cfg cfg' hs
      have hout' : Config.outcome A cfg' = .ok v := by
        rw [outcome_step A cfg cfg' hs]
        exact hout
      obtain ⟨h1, h2⟩ := ih cfg' (by omega) hout'
      obtain ⟨h3, h4⟩ := step_accounts A cfg cfg' hs
      simp only [Config.runFor, hs]
      rw [applicationCount_cons, filterMap_token_cons, operatorCount_append,
        numberCount_append]
      constructor <;> omega

/-! ## Termination and token counts -/

theorem step_cursor_advances {V : Type} (A : Arith V) (c : Char) (rest : List Char)
    (vs : List V) (os : List Char) (cfg' : Config V)
    (h : Config.step A (.scanning (c :: rest) vs os) = some cfg') :
    cfg'.unread.length < (c :: rest).length := by
  simp only [Config.step] at h
  split_ifs at h <;> simp only [Option.some.injEq] at h <;> subst h <;>
    simp only [Config.unread, List.length_cons, List.length_drop] <;> omega

theorem step_loop_shrinks {V : Type} (A : Arith V) (cfg cfg' : Config V)
    (h : Config.step A cfg = some cfg') (hloop : Config.sameLoop cfg cfg') :
    cfg'.ops.length < cfg.ops.length := by
  cases cfg with
  | scanning s vs os => cases cfg' <;> simp [Config.sameLoop] at hloop
  | closing rest vs os =>
    cases os with
    | nil => simp [Config.step] at h
    | cons op os =>
      simp only [Config.step] at h
      split_ifs at h
      · simp only [Option.some.injEq] at h
        subst h
        simp [Config.sameLoop] at hloop
      · cases ha : apply_operator A op vs with
        | error e => simp [ha] at h
        | ok vs' =>
          simp only [ha, Option.some.injEq] at h
          subst h
          simp [Config.ops]
  | reducing c rest vs os =>
    cases os with
    | nil =>
      simp only [Config.step] at h
      split_ifs at h
      simp only [Option.some.injEq] at h
      subst h
      simp [Config.sameLoop] at hloop
    | cons top os =>
      simp only [Config.step] at h
      split_ifs at h
      · cases ha : apply_operator A top vs with
        | error e => simp [ha] at h
        | ok vs' =>
          simp only [ha, Option.some.injEq] at h
          subst h
          simp [Config.ops]
      · simp only [Option.some.injEq] at h
        subst h
        simp [Config.sameLoop] at hloop
  | draining vs os =>
    cases os with
    | nil => simp [Config.step] at h
    | cons op os =>
      simp only [Config.step] at h
      split_ifs at h
      cases ha : apply_operator A op vs with
      | error e => simp [ha] at h
      | ok vs' =>
        simp only [ha, Option.some.injEq] at h
        subst h
        simp [Config.ops]

theorem run_ends_with_result {V : Type} (A : Arith V) (s : List Char) :
    ∃ pre last, Config.run A (.scanning s [] []) = pre ++ [last] ∧
      Config.step A last = none ∧ Config.outcome A last = scan_loop A s [] [] := by
  obtain ⟨pre, last, hrun, hlast⟩ :=
    runFor_ends A (Config.scanning s ([] : List V) []).potential (.scanning s [] [])
      (le_refl _)
  refine ⟨pre, last, hrun, hlast, ?_⟩
  have hmem : last ∈ Config.runFor A (Config.scanning s ([] : List V) []).potential
      (.scanning s [] []) := by
    rw [hrun]
    simp
  exact visits_outcome A s last (runFor_reaches A _ _ last hmem)

/-- C15: evaluation terminates on every input.  Every scan-loop iteration
that does not return leaves strictly less unread input (a number token
consumes at least one character), every iteration of a reduction loop that
stays in the loop strictly shrinks the operator stack, so `Config.potential`
strictly decreases: the run from the start has at most `3 * length + 2`
configurations and ends where the function returns the value of the total
function `scan_loop`.  Along it `apply_operator` is called at most as often as
operator tokens are scanned. -/
theorem evaluation_terminates {V : Type} (A : Arith V) (s : List Char) :
    (∀ (c : Char) (rest : List Char) (vs : List V) (os : List Char) (cfg' : Config V),
      Config.step A (.scanning (c :: rest) vs os) = some cfg' →
      cfg'.unread.length < (c :: rest).length) ∧
    (∀ cfg cfg' : Config V, Config.step A cfg = some cfg' → Config.sameLoop cfg cfg' →
      cfg'.ops.length < cfg.ops.length) ∧
    (∀ cfg cfg' : Config V, Config.step A cfg = some cfg' →
      cfg'.potential < cfg.potential) ∧
    (∃ pre last, Config.run A (.scanning s [] []) = pre ++ [last] ∧
      Config.step A last = none ∧ Config.outcome A last = scan_loop A s [] []) ∧
    (Config.run A (.scanning s ([] : List V) [])).length ≤ 3 * s.length + 2 ∧
    applicationCount (Config.run A (.scanning s ([] : List V) [])) ≤
      operatorCount (tokensScanned A s) := by
  refine ⟨step_cursor_advances A, step_loop_shrinks A, potential_step A,
    run_ends_with_result A s, ?_, ?_⟩
  · have h := runFor_length A (Config.scanning s ([] : List V) []).potential
      (.scanning s [] [])
    simpa [Config.run, Config.potential] using h
  · have h := runFor_applications_le A (Config.scanning s ([] : List V) []).potential
      (.scanning s [] [])
    simpa [Config.run, tokensScanned, Config.pendingOperators, Config.ops] using h

/-- Witness for C15: the scan-loop iteration that reads the literal `1`. -/
theorem evaluation_terminates_witness :
    Config.step decimalArith (.scanning ['1'] [] []) =
        some (.scanning [] [(decimalArith.strtod ['1']).1] []) ∧
      (Config.scanning [] [(decimalArith.strtod ['1']).1] []).unread.length <
        ['1'].length :=
  have hstep : Config.step decimalArith (.scanning ['1'] [] []) =
      some (.scanning [] [(decimalArith.strtod ['1']).1] []) := by
    have h := step_literal decimalArith ['1'] [] [] [] (isLiteral_digit _ (by decide))
      (by decide) (by decide)
    simpa using h
  ⟨hstep, (evaluation_terminates decimalArith ['1']).1 '1' [] [] [] _ hstep⟩

/-- C19: on every input on which `calc_evaluate` succeeds, the number tokens
scanned are one more than the operator tokens scanned; every scanned operator
is applied exactly once, and each application leaves one value fewer. -/
theorem numbers_one_more_than_operators {V : Type} (A : Arith V) (s : List Char)
    (out_result : Option V) (out_error : Option CalcError)
    (h : (calc_evaluate A (some s) out_result out_error).1 = true) :
    numberCount (tokensScanned A s) = operatorCount (tokensScanned A s) + 1 ∧
      applicationCount (Config.run A (.scanning s ([] : List V) [])) =
        operatorCount (tokensScanned A s) ∧
      ∀ (op : Char) (vs vs' : List V), apply_operator A op vs = .ok vs' →
        vs'.length + 1 = vs.length := by
  cases hs : scan_loop A s [] [] with
  | error e => simp [calc_evaluate, hs] at h
  | ok v =>
    obtain ⟨h1, h2⟩ := runFor_success_accounts A v
      (Config.scanning s ([] : List V) []).potential (.scanning s [] []) (le_refl _) hs
    refine ⟨?_, ?_, apply_operator_length A⟩
    · simp only [Config.vals, Config.pendingOperators, Config.ops, List.length_nil,
        List.countP_nil] at h1
      simp only [tokensScanned, Config.run]
      omega
    · simp only [Config.pendingOperators, Config.ops, List.countP_nil] at h2
      simp only [tokensScanned, Config.run]
      omega

/-- Witness for C19 at `3+4*2`: three numbers, two operators. -/
theorem numbers_one_more_than_operators_witness :
    (calc_evaluate decimalArith (some "3+4*2".toList) (some 0) (some ⟨.CALC_OK, ""⟩)).1 = true ∧
      numberCount (tokensScanned decimalArith "3+4*2".toList) =
        operatorCount (tokensScanned decimalArith "3+4*2".toList) + 1 :=
  have hok : (calc_evaluate decimalArith (some "3+4*2".toList) (some 0)
      (some ⟨.CALC_OK, ""⟩)).1 = true := by
    have h := calc_three_literals_right decimalArith ['3'] ['4'] ['2'] '+' '*'
      (isLiteral_digit _ (by decide)) (isLiteral_digit _ (by decide))
      (isLiteral_digit _ (by decide)) (by decide) (by decide) (Or.inl (by decide))
      (by decide) (by decide)
    have h2 := calc_evaluate_of_scan decimalArith _ _ h (some 0) (some ⟨.CALC_OK, ""⟩)
    exact congrArg Prod.fst h2
  ⟨hok, (numbers_one_more_than_operators decimalArith "3+4*2".toList (some 0)
    (some ⟨.CALC_OK, ""⟩) hok).1⟩

/-! ## Balanced parentheses -/

theorem balancedFrom_cons_other (k : ℕ) (c : Char) (s : List Char) (h1 : c ≠ '(')
    (h2 : c ≠ ')') (h : BalancedFrom k s) : BalancedFrom k (c :: s) := by
  obtain ⟨hp, ht⟩ := h
  constructor
  · intro n
    cases n with
    | zero => simp
    | succ n =>
      have := hp n
      simpa [List.take_succ_cons, List.count_cons, h1, h2] using this
  · simpa [List.count_cons, h1, h2] using ht

theorem balancedFrom_cons_open (k : ℕ) (s : List Char) (h : BalancedFrom (k + 1) s) :
    BalancedFrom k ('(' :: s) := by
  obtain ⟨hp, ht⟩ := h
  constructor
  · intro n
    cases n with
    | zero => simp
    | succ n =>
      have := hp n
      simp only [List.take_succ_cons, List.count_cons, beq_self_eq_true, if_true]
      have hne : ('(' == ')') = false := by decide
      simp only [hne, Bool.false_eq_true, if_false]
      omega
  · have hne : ('(' == ')') = false := by decide
    simp only [List.count_cons, beq_self_eq_true, if_true, hne, Bool.false_eq_true, if_false]
    omega

theorem balancedFrom_cons_close (k : ℕ) (s : List Char) (h : BalancedFrom k s) :
    BalancedFrom (k + 1) (')' :: s) := by
  obtain ⟨hp, ht⟩ := h
  constructor
  · intro n
    cases n with
    | zero => simp
    | succ n =>
      have := hp n
      simp only [List.take_succ_cons, List.count_cons, beq_self_eq_true, if_true]
      have hne : (')' == '(') = false := by decide
      simp only [hne, Bool.false_eq_true, if_false]
      omega
  · have hne : (')' == '(') = false := by decide
    simp only [List.count_cons, beq_self_eq_true, if_true, hne, Bool.false_eq_true, if_false]
    omega

theorem balancedFrom_append (k : ℕ) (a b : List Char)
    (ha : ∀ x ∈ a, x ≠ '(' ∧ x ≠ ')') (h : BalancedFrom k b) : BalancedFrom k (a ++ b) := by
  induction a with
  | nil => exact h
  | cons c a ih =>
    rw [List.cons_append]
    exact balancedFrom_cons_other k c _ (ha c (by simp)).1 (ha c (by simp)).2
      (ih (fun x hx => ha x (by simp [hx])))

theorem reduce_to_lparen_count {V : Type} (A : Arith V) (os : List Char) :
    ∀ (vs vs' : List V) (os' : List Char), reduce_to_lparen A vs os = .ok (vs', os') →
      os'.count '(' + 1 = os.count '(' := by
  induction os with
  | nil =>
    intro vs vs' os' h
    rw [reduce_to_lparen] at h
    simp at h
  | cons op os ih =>
    intro vs vs' os' h
    rw [reduce_to_lparen] at h
    split_ifs at h with h1
    · simp only [Except.ok.injEq, Prod.mk.injEq] at h
      obtain ⟨_, rfl⟩ := h
      subst h1
      simp
    · cases ha : apply_operator A op vs with
      | error e => simp [ha] at h
      | ok vs2 =>
        simp only [ha] at h
        have := ih vs2 vs' os' h
        rw [List.count_cons_of_ne (fun h' => h1 h'.symm)]
        exact this

theorem reduce_for_operator_count {V : Type} (A : Arith V) (c : Char) (os : List Char) :
    ∀ (vs vs' : List V) (os' : List Char), reduce_for_operator A c vs os = .ok (vs', os') →
      os'.count '(' = os.count '(' := by
  induction os with
  | nil =>
    intro vs vs' os' h
    rw [reduce_for_operator] at h
    simp only [Except.ok.injEq, Prod.mk.injEq] at h
    rw [← h.2]
  | cons op os ih =>
    intro vs vs' os' h
    rw [reduce_for_operator] at h
    split_ifs at h with h1 h2
    · cases ha : apply_operator A op vs with
      | error e => simp [ha] at h
      | ok vs2 =>
        simp only [ha] at h
        have := ih vs2 vs' os' h
        have hne := (operator_not_paren op h1).1
        rw [List.count_cons_of_ne (fun h' => hne h'.symm)]
        exact this
    · simp only [Except.ok.injEq, Prod.mk.injEq] at h
      rw [← h.2]
    · simp only [Except.ok.injEq, Prod.mk.injEq] at h
      rw [← h.2]

theorem apply_remaining_count {V : Type} (A : Arith V) (os : List Char) :
    ∀ (vs vs' : List V), apply_remaining A vs os = .ok vs' → os.count '(' = 0 := by
  induction os with
  | nil => intro vs vs' _; rfl
  | cons op os ih =>
    intro vs vs' h
    rw [apply_remaining] at h
    split_ifs at h with h1
    cases ha : apply_operator A op vs with
    | error e => simp [ha] at h
    | ok vs2 =>
      simp only [ha] at h
      have := ih vs2 vs' h
      have hne : op ≠ '(' := fun h' => h1 (Or.inl h')
      rw [List.count_cons_of_ne (fun h' => hne h'.symm)]
      exact this

theorem scan_loop_balanced_aux {V : Type} (A : Arith V) (hlib : StrtodNoParen A) (n : ℕ) :
    ∀ (s : List Char) (vs : List V) (os : List Char) (v : V), s.length = n →
      scan_loop A s vs os = .ok v → BalancedFrom (os.count '(') s := by
  induction n using Nat.strong_induction_on with
  | _ n ih =>
    intro s vs os v hn h
    cases s with
    | nil =>
      rw [scan_loop, finish] at h
      cases hr : apply_remaining A vs os with
      | error e => simp [hr] at h
      | ok vs' =>
        have h0 := apply_remaining_count A os vs vs' hr
        rw [h0]
        exact ⟨fun n => by simp, by simp⟩
    | cons c rest =>
      subst hn
      rw [scan_loop] at h
      split_ifs at h with h1 h2 h3 h4 h5 h6 h7 h8
      · have hne : c ≠ '(' ∧ c ≠ ')' := by
          rcases (isspace_iff c).mp h1 with h' | h' | h' | h' | h' | h' <;> subst h' <;> decide
        exact balancedFrom_cons_other _ c rest hne.1 hne.2 (ih _ (by simp) rest vs os v rfl h)
      · have hb := ih _ (by
            simp only [List.length_drop, List.length_cons]
            omega) _ _ _ v rfl h
        have hsplit := List.take_append_drop (A.strtod (c :: rest)).2 (c :: rest)
        rw [← hsplit]
        exact balancedFrom_append _ _ _ (hlib c rest h2) hb
      · subst h5
        have hb := ih _ (by simp) rest vs _ v rfl h
        rw [List.count_cons_self] at hb
        exact balancedFrom_cons_open _ rest hb
      · subst h7
        cases hr : reduce_to_lparen A vs os with
        | error e => simp [hr] at h
        | ok p =>
          simp only [hr] at h
          have hb := ih _ (by simp) rest _ _ v rfl h
          have hc := reduce_to_lparen_count A os vs p.1 p.2 hr
          rw [← hc]
          exact balancedFrom_cons_close _ rest hb
      · cases hr : reduce_for_operator A c vs os with
        | error e => simp [hr] at h
        | ok p =>
          simp only [hr] at h
          split_ifs at h
          have hb := ih _ (by simp) rest _ _ v rfl h
          have hc := reduce_for_operator_count A c os vs p.1 p.2 hr
          rw [List.count_cons_of_ne (fun h' => h5 h'.symm), hc] at hb
          exact balancedFrom_cons_other _ c rest h5 h7 hb

theorem decimalStrtod_consumed (x : List Char) :
    ∀ ch ∈ x.take (decimalStrtod x).2, isdigit ch = true ∨ ch = '.' := by
  have hx : x.takeWhile isdigit ++ x.dropWhile isdigit = x := List.takeWhile_append_dropWhile _ _
  have hip : ∀ c ∈ x.takeWhile isdigit, isdigit c = true := fun c hc =>
    (List.mem_takeWhile_imp hc)
  by_cases hafter : ∃ r, x.dropWhile isdigit = '.' :: r
  · obtain ⟨r, hafter⟩ := hafter
    have hval := decimalStrtod_dot x r hafter
    have hr : r.takeWhile isdigit ++ r.dropWhile isdigit = r :=
      List.takeWhile_append_dropWhile _ _
    have hfp : ∀ c ∈ r.takeWhile isdigit, isdigit c = true := fun c hc =>
      (List.mem_takeWhile_imp hc)
    split_ifs at hval with h0
    · rw [hval]
      intro ch hch
      simp at hch
    · have hsplit : x = (x.takeWhile isdigit ++ '.' :: r.takeWhile isdigit) ++
          r.dropWhile isdigit := by
        rw [List.append_assoc, List.cons_append, hr, ← hafter, hx]
      have hlen : (decimalStrtod x).2 =
          (x.takeWhile isdigit ++ '.' :: r.takeWhile isdigit).length := by
        rw [hval]
        simp only [List.length_append, List.length_cons]
        omega
      intro ch hch
      rw [hlen] at hch
      rw [hsplit, List.take_left'] at hch
      · rcases List.mem_append.mp hch with h | h
        · exact Or.inl (hip ch h)
        · rcases List.mem_cons.mp h with h | h
          · exact Or.inr h
          · exact Or.inl (hfp ch h)
      · rw [← hsplit]
  · have hno : ∀ r, x.dropWhile isdigit ≠ '.' :: r := fun r h => hafter ⟨r, h⟩
    have hval := decimalStrtod_nodot x hno
    split_ifs at hval with h0
    · rw [hval]
      intro ch hch
      simp at hch
    · intro ch hch
      rw [hval] at hch
      have hsplit : x = x.takeWhile isdigit ++ x.dropWhile isdigit := hx.symm
      rw [hsplit, List.take_left'] at hch
      · exact Or.inl (hip ch hch)
      · rw [← hsplit]

theorem strtodNoParen_decimal : StrtodNoParen decimalArith := by
  intro c rest _ x hx
  rcases decimalStrtod_consumed (c :: rest) x hx with h | h
  · constructor <;> intro h' <;> rw [h'] at h <;> revert h <;> decide
  · constructor <;> intro h' <;> rw [h'] at h <;> revert h <;> decide

theorem scan_loop_unclosed {V : Type} (A : Arith V) (a b : List Char) (op : Char)
    (ha : IsLiteral A a) (hb : IsLiteral A b) (hop : is_operator op = true)
    (hz : op = '/' → A.isZero (A.strtod b).1 = false) :
    scan_loop A ('(' :: (a ++ op :: b)) [] [] =
      .error (.CALC_ERR_SYNTAX, "Mismatched parentheses") := by
  rw [scan_loop_lparen A _ [] [] (by simp [MAX_STACK_SIZE])]
  rw [scan_loop_literal A a (op :: b) _ [] _ ha.1 (ha.2 _ (endsLiteral_operator op b hop))
    (by simp [MAX_STACK_SIZE])]
  rw [scan_loop_operator A op b _ _ hop]
  rw [reduce_for_operator_stop A op _ ['('] (by intro h; exact absurd h (by decide))]
  simp only [List.length_cons, List.length_nil, MAX_STACK_SIZE, Nat.reduceLeDiff, if_false]
  have hlit := scan_loop_literal A b [] (A.strtod b).1 [(A.strtod a).1] [op, '('] hb.1
    (by simpa using hb.2 [] (by simp [endsLiteral])) (by simp [MAX_STACK_SIZE])
  rw [List.append_nil] at hlit
  rw [hlit, scan_loop, finish, apply_remaining]
  have hne := operator_not_paren op hop
  simp only [hne.1, hne.2, or_self, if_false, apply_operator_ok A op _ _ [] hop hz]
  rw [apply_remaining]
  simp

/-- C11: whenever `calc_evaluate` succeeds, the parentheses of the input are
balanced: no beginning of the input has more `)` than `(`, and the whole input
has as many `(` as `)`.  So an input with a stray `)` or an unclosed `(` fails;
`(1+2` fails with `Syntax` and "Mismatched parentheses".  The library `strtod`
is assumed not to consume parentheses into a number. -/
theorem success_means_balanced {V : Type} (A : Arith V) (hlib : StrtodNoParen A)
    (s : List Char) (out_result : Option V) (out_error : Option CalcError)
    (h : (calc_evaluate A (some s) out_result out_error).1 = true) :
    ((∀ n, (s.take n).count ')' ≤ (s.take n).count '(') ∧ s.count '(' = s.count ')') ∧
      calc_evaluate decimalArith (some "(1+2".toList) (some 7) (some ⟨.CALC_OK, ""⟩) =
        (false, some 7, some ⟨.CALC_ERR_SYNTAX, "Mismatched parentheses"⟩) := by
  constructor
  · cases hs : scan_loop A s [] [] with
    | error e => simp [calc_evaluate, hs] at h
    | ok v =>
      have hb := scan_loop_balanced_aux A hlib s.length s [] [] v rfl hs
      simpa [BalancedFrom] using hb
  · exact calc_evaluate_of_scan_error decimalArith _ _
      (scan_loop_unclosed decimalArith ['1'] ['2'] '+' (isLiteral_digit _ (by decide))
        (isLiteral_digit _ (by decide)) (by decide) (by decide)) _ _

/-- Witness for C11 at `(1+2)*3`, which succeeds and is balanced. -/
theorem success_means_balanced_witness :
    StrtodNoParen decimalArith ∧
      (calc_evaluate decimalArith (some "(1+2)*3".toList) (some 0)
        (some ⟨.CALC_OK, ""⟩)).1 = true ∧
      ((∀ n, ("(1+2)*3".toList.take n).count ')' ≤ ("(1+2)*3".toList.take n).count '(') ∧
        "(1+2)*3".toList.count '(' = "(1+2)*3".toList.count ')') :=
  have hok : (calc_evaluate decimalArith (some "(1+2)*3".toList) (some 0)
      (some ⟨.CALC_OK, ""⟩)).1 = true := by
    have h := calc_paren_then_literal decimalArith ['1'] ['2'] ['3'] '+' '*'
      (isLiteral_digit _ (by decide)) (isLiteral_digit _ (by decide))
      (isLiteral_digit _ (by decide)) (by decide) (by decide) (by decide) (by decide)
    have h2 := calc_evaluate_of_scan decimalArith _ _ h (some 0) (some ⟨.CALC_OK, ""⟩)
    exact congrArg Prod.fst h2
  ⟨strtodNoParen_decimal, hok,
    (success_means_balanced decimalArith strtodNoParen_decimal "(1+2)*3".toList (some 0)
      (some ⟨.CALC_OK, ""⟩) hok).1⟩

/-! ## Token sequences outside the grammar -/

theorem runFor_fuel {V : Type} (A : Arith V) (n : ℕ) :
    ∀ (m : ℕ) (cfg : Config V), cfg.potential ≤ n → cfg.potential ≤ m →
      Config.runFor A n cfg = Config.runFor A m cfg := by
  induction n with
  | zero =>
    intro m cfg h
    have := potential_pos cfg
    omega
  | succ n ih =>
    intro m cfg hn hm
    cases m with
    | zero =>
      have := potential_pos cfg
      omega
    | succ m =>
      cases hs : Config.step A cfg with
      | none => simp [Config.runFor, hs]
      | some cfg' =>
        have hlt := potential_step A cfg cfg' hs
        simp only [Config.runFor, hs]
        rw [ih m cfg' (by omega) (by omega)]

theorem run_cons {V : Type} (A : Arith V) (cfg cfg' : Config V)
    (hs : Config.step A cfg = some cfg') : Config.run A cfg = cfg :: Config.run A cfg' := by
  have hlt := potential_step A cfg cfg' hs
  obtain ⟨k, hk⟩ : ∃ k, cfg.potential = k + 1 := ⟨cfg.potential - 1, by
    have := potential_pos cfg
    omega⟩
  simp only [Config.run, hk, Config.runFor, hs]
  rw [runFor_fuel A k cfg'.potential cfg' (by omega) (le_refl _)]

theorem run_last {V : Type} (A : Arith V) (cfg : Config V)
    (hs : Config.step A cfg = none) : Config.run A cfg = [cfg] := by
  obtain ⟨k, hk⟩ : ∃ k, cfg.potential = k + 1 := ⟨cfg.potential - 1, by
    have := potential_pos cfg
    omega⟩
  simp only [Config.run, hk, Config.runFor, hs]

theorem infixTokens_ne_nil {V : Type} (l : List (Token V)) (h : InfixTokens l) : l ≠ [] := by
  cases h <;> simp

theorem infixTokens_getLast {V : Type} (l : List (Token V)) (h : InfixTokens l) :
    ∀ c, l.getLast? ≠ some (Token.operator c) := by
  induction h with
  | number v => intro c; simp
  | binary l r c _ hr _ ihr =>
    intro c'
    have hne := infixTokens_ne_nil r hr
    rw [List.getLast?_append_of_ne_nil _ (by simp)]
    obtain ⟨x, xs, hx⟩ := List.exists_cons_of_ne_nil hne
    rw [hx, List.getLast?_cons_cons, ← hx]
    exact ihr c'
  | paren e _ _ =>
    intro c
    rw [← List.cons_append, List.getLast?_append_of_ne_nil _ (by simp)]
    simp

theorem decimalStrtod_digits_stop (ds rest : List Char) (hne : ds ≠ [])
    (hds : ∀ c ∈ ds, isdigit c = true)
    (hrest : ∀ c tl, rest = c :: tl → isdigit c = false ∧ c ≠ '.') :
    decimalStrtod (ds ++ rest) = ((digitsValue ds : ℚ), ds.length) := by
  obtain ⟨h1, h2⟩ := takeWhile_append_stop isdigit ds rest hds (fun c tl h => (hrest c tl h).1)
  have hno : ∀ r, (ds ++ rest).dropWhile isdigit ≠ '.' :: r := by
    intro r h
    rw [h2] at h
    exact (hrest '.' r h).2 rfl
  have hlen : ds.length ≠ 0 := by
    cases ds with
    | nil => exact absurd rfl hne
    | cons d tl => simp
  rw [decimalStrtod_nodot _ hno, h1, if_neg hlen]

theorem strtod_digit_stop (d : Char) (n : ℕ) (rest : List Char) (hd : isdigit d = true)
    (hn : d.toNat - 48 = n)
    (hrest : ∀ c tl, rest = c :: tl → isdigit c = false ∧ c ≠ '.') :
    decimalArith.strtod (d :: rest) = ((n : ℚ), 1) := by
  have h := decimalStrtod_digits_stop [d] rest (by simp) (by simpa using hd) hrest
  show decimalStrtod ([d] ++ rest) = ((n : ℚ), 1)
  rw [h]
  simp [digitsValue, hn]

theorem run_one_two_plus :
    Config.run decimalArith (.scanning "1 2+".toList [] []) =
      [.scanning ['1', ' ', '2', '+'] [] [],
        .scanning [' ', '2', '+'] [1] [],
        .scanning ['2', '+'] [1] [],
        .scanning ['+'] [2, 1] [],
        .reducing '+' [] [2, 1] [],
        .scanning [] [2, 1] ['+'],
        .draining [2, 1] ['+'],
        .draining [decimalArith.add 1 2] []] := by
  have conv1 : decimalArith.strtod ('1' :: [' ', '2', '+']) = (1, 1) := by
    simpa using strtod_digit_stop '1' 1 [' ', '2', '+'] (by decide) (by decide)
      (by simp; decide)
  have conv2 : decimalArith.strtod ('2' :: ['+']) = (2, 1) := by
    simpa using strtod_digit_stop '2' 2 ['+'] (by decide) (by decide) (by simp; decide)
  have d1 : isspace '1' = false ∧ isdigit '1' = true := by decide
  have d2 : isspace '2' = false ∧ isdigit '2' = true := by decide
  have sp : isspace ' ' = true := by decide
  have s0 : Config.step decimalArith (.scanning ['1', ' ', '2', '+'] [] []) =
      some (.scanning [' ', '2', '+'] [1] []) := by
    simp [Config.step, d1.1, d1.2, conv1, MAX_STACK_SIZE]
  have s1 : Config.step decimalArith (.scanning [' ', '2', '+'] [1] []) =
      some (.scanning ['2', '+'] [1] []) := by
    simp [Config.step, sp]
  have s2 : Config.step decimalArith (.scanning ['2', '+'] [1] []) =
      some (.scanning ['+'] [2, 1] []) := by
    simp [Config.step, d2.1, d2.2, conv2, MAX_STACK_SIZE]
  have s3 := step_operator decimalArith '+' [] [(2 : ℚ), 1] [] (by decide)
  have s4 : Config.step decimalArith (.reducing '+' [] [(2 : ℚ), 1] []) =
      some (.scanning [] [2, 1] ['+']) := by
    simp [Config.step, MAX_STACK_SIZE]
  have s5 : Config.step decimalArith (.scanning [] [(2 : ℚ), 1] ['+']) =
      some (.draining [2, 1] ['+']) := by
    simp [Config.step]
  have s6 : Config.step decimalArith (.draining [(2 : ℚ), 1] ['+']) =
      some (.draining [decimalArith.add 1 2] []) := by
    simp [Config.step, apply_operator]
  have s7 : Config.step decimalArith (.draining [decimalArith.add 1 2] []) = none := by
    simp [Config.step]
  show Config.run decimalArith (.scanning ['1', ' ', '2', '+'] [] []) = _
  rw [run_cons _ _ _ s0, run_cons _ _ _ s1, run_cons _ _ _ s2, run_cons _ _ _ s3,
    run_cons _ _ _ s4, run_cons _ _ _ s5, run_cons _ _ _ s6, run_last _ _ s7]

theorem tokens_one_two_plus :
    tokensScanned decimalArith "1 2+".toList =
      [.number 1, .number 2, .operator '+'] := by
  have conv1 : decimalArith.strtod ('1' :: [' ', '2', '+']) = (1, 1) := by
    simpa using strtod_digit_stop '1' 1 [' ', '2', '+'] (by decide) (by decide)
      (by simp; decide)
  have conv2 : decimalArith.strtod ('2' :: ['+']) = (2, 1) := by
    simpa using strtod_digit_stop '2' 2 ['+'] (by decide) (by decide) (by simp; decide)
  have d1 : isspace '1' = false ∧ isdigit '1' = true := by decide
  have d2 : isspace '2' = false ∧ isdigit '2' = true := by decide
  have dp : isspace '+' = false ∧ isdigit '+' = false ∧ is_operator '+' = true := by decide
  have sp : isspace ' ' = true := by decide
  rw [tokensScanned, run_one_two_plus]
  simp [Config.token, d1.1, d1.2, d2.1, d2.2, dp.1, dp.2.1, dp.2.2, sp, conv1, conv2]

theorem scan_one_two_plus :
    scan_loop decimalArith "1 2+".toList [] [] = .ok 3 := by
  have hmem : Config.draining [decimalArith.add 1 2] [] ∈
      Config.run decimalArith (.scanning "1 2+".toList [] []) := by
    rw [run_one_two_plus]
    simp
  have hv : Visits decimalArith "1 2+".toList (.draining [decimalArith.add 1 2] []) :=
    runFor_reaches decimalArith _ _ _ hmem
  have h := visits_outcome decimalArith _ _ hv
  rw [← h]
  simp only [Config.outcome, finish, apply_remaining]
  show Except.ok ((1 : ℚ) + 2) = Except.ok 3
  norm_num

/-- C12 refuted at `1 2+`: the scanner reads the tokens `1`, `2`, `+` and
nothing else, this sequence is not generated by the grammar
`E ::= number | E op E | ( E )` (it ends in an operator), and `calc_evaluate`
nevertheless succeeds with the value `3`. -/
theorem operator_after_operands_is_accepted :
    tokensScanned decimalArith "1 2+".toList = [.number 1, .number 2, .operator '+'] ∧
      ¬ InfixTokens [Token.number (1 : ℚ), .number 2, .operator '+'] ∧
      calc_evaluate decimalArith (some "1 2+".toList) (some 0) (some ⟨.CALC_OK, ""⟩) =
        (true, some 3, some ⟨.CALC_OK, ""⟩) := by
  refine ⟨tokens_one_two_plus, ?_, ?_⟩
  · intro h
    exact infixTokens_getLast _ h '+' (by simp)
  · exact calc_evaluate_of_scan decimalArith _ _ scan_one_two_plus (some 0)
      (some ⟨.CALC_OK, ""⟩)

theorem apply_operator_div_error {V : Type} (A : Arith V) (op : Char) (vs : List V)
    (e : Failure) (h : apply_operator A op vs = .error e)
    (hcode : e.1 = .CALC_ERR_DIV_BY_ZERO) :
    op = '/' ∧ ∃ right left below, vs = right :: left :: below ∧ A.isZero right = true := by
  unfold apply_operator at h
  split at h
  · rename_i right left below
    split_ifs at h with h1 h2 h3 h4 h5 h6 <;>
      simp only [Except.error.injEq, reduceCtorEq] at h <;> subst h
    · exact ⟨h4, right, left, below, rfl, h5⟩
    · simp at hcode
  · simp only [Except.error.injEq] at h
    subst h
    simp at hcode

theorem terminal_div {V : Type} (A : Arith V) (cfg : Config V) (e : Failure)
    (hstep : Config.step A cfg = none) (hout : Config.outcome A cfg = .error e)
    (hcode : e.1 = .CALC_ERR_DIV_BY_ZERO) :
    ∃ right left below, cfg.applies = some ('/', right :: left :: below) ∧
      A.isZero right = true := by
  have happ : ∀ op vs, cfg.applies = some (op, vs) → apply_operator A op vs = .error e →
      ∃ right left below, cfg.applies = some ('/', right :: left :: below) ∧
        A.isZero right = true := by
    intro op vs ha he
    obtain ⟨hop, right, left, below, hvs, hz⟩ := apply_operator_div_error A op vs e he hcode
    subst hop hvs
    exact ⟨right, left, below, ha, hz⟩
  cases cfg with
  | scanning s vs os =>
    cases s with
    | nil => simp [Config.step] at hstep
    | cons c rest =>
      simp only [Config.step] at hstep
      simp only [Config.outcome] at hout
      rw [scan_loop] at hout
      split_ifs at hstep hout <;> simp only [Except.error.injEq, reduceCtorEq] at hout <;>
        subst hout <;> simp at hcode
  | closing rest vs os =>
    cases os with
    | nil =>
      simp only [Config.outcome] at hout
      rw [reduce_to_lparen] at hout
      simp only [Except.error.injEq] at hout
      subst hout
      simp at hcode
    | cons op os =>
      simp only [Config.step] at hstep
      simp only [Config.outcome] at hout
      rw [reduce_to_lparen] at hout
      split_ifs at hstep hout with h1
      cases ha : apply_operator A op vs with
      | ok vs' => simp [ha] at hstep
      | error e' =>
        simp only [ha, Except.error.injEq] at hout
        subst hout
        exact happ op vs (by simp [Config.applies, h1]) ha
  | reducing c rest vs os =>
    cases os with
    | nil => simp [Config.step, MAX_STACK_SIZE] at hstep
    | cons top os =>
      simp only [Config.step] at hstep
      simp only [Config.outcome] at hout
      rw [reduce_for_operator] at hout
      by_cases hc : is_operator top = true ∧ (precedence top > precedence c ∨
          (precedence top = precedence c ∧ is_right_associative c = false))
      · rw [if_pos hc] at hstep
        rw [if_pos hc.1, if_pos hc.2] at hout
        cases ha : apply_operator A top vs with
        | ok vs' => simp [ha] at hstep
        | error e' =>
          simp only [ha, Except.error.injEq] at hout
          subst hout
          exact happ top vs (by simp [Config.applies, hc]) ha
      · rw [if_neg hc] at hstep
        have hstop : reduce_for_operator A c vs (top :: os) = .ok (vs, top :: os) := by
          rw [reduce_for_operator]
          by_cases h1 : is_operator top = true
          · rw [if_pos h1, if_neg (fun h2 => hc ⟨h1, h2⟩)]
          · rw [if_neg h1]
        rw [← reduce_for_operator, hstop] at hout
        split_ifs at hstep with hfull
        simp only [hfull, if_true, Except.error.injEq] at hout
        subst hout
        simp at hcode
  | draining vs os =>
    cases os with
    | nil =>
      simp only [Config.outcome, finish] at hout
      rw [apply_remaining] at hout
      match vs, hout with
      | [], hout =>
        simp only [Except.error.injEq] at hout
        subst hout
        simp at hcode
      | [v'], hout => simp at hout
      | _ :: _ :: _, hout =>
        simp only [Except.error.injEq] at hout
        subst hout
        simp at hcode
    | cons op os =>
      simp only [Config.step] at hstep
      simp only [Config.outcome, finish] at hout
      rw [apply_remaining] at hout
      split_ifs at hstep hout with h1
      · simp only [Except.error.injEq] at hout
        subst hout
        simp at hcode
      · cases ha : apply_operator A op vs with
        | ok vs' => simp [ha] at hstep
        | error e' =>
          simp only [ha, Except.error.injEq] at hout
          subst hout
          exact happ op vs (by simp [Config.applies, h1]) ha

theorem run_one_two :
    Config.run decimalArith (.scanning "1 2".toList [] []) =
      [.scanning ['1', ' ', '2'] [] [],
        .scanning [' ', '2'] [1] [],
        .scanning ['2'] [1] [],
        .scanning [] [2, 1] [],
        .draining [2, 1] []] := by
  have conv1 : decimalArith.strtod ('1' :: [' ', '2']) = (1, 1) := by
    simpa using strtod_digit_stop '1' 1 [' ', '2'] (by decide) (by decide) (by simp; decide)
  have conv2 : decimalArith.strtod ('2' :: []) = (2, 1) := by
    simpa using strtod_digit_stop '2' 2 [] (by decide) (by decide) (by simp)
  have d1 : isspace '1' = false ∧ isdigit '1' = true := by decide
  have d2 : isspace '2' = false ∧ isdigit '2' = true := by decide
  have sp : isspace ' ' = true := by decide
  have s0 : Config.step decimalArith (.scanning ['1', ' ', '2'] [] []) =
      some (.scanning [' ', '2'] [1] []) := by
    simp [Config.step, d1.1, d1.2, conv1, MAX_STACK_SIZE]
  have s1 : Config.step decimalArith (.scanning [' ', '2'] [1] []) =
      some (.scanning ['2'] [1] []) := by
    simp [Config.step, sp]
  have s2 : Config.step decimalArith (.scanning ['2'] [1] []) =
      some (.scanning [] [2, 1] []) := by
    simp [Config.step, d2.1, d2.2, conv2, MAX_STACK_SIZE]
  have s3 : Config.step decimalArith (.scanning [] [(2 : ℚ), 1] []) =
      some (.draining [2, 1] []) := by
    simp [Config.step]
  have s4 : Config.step decimalArith (.draining [(2 : ℚ), 1] []) = none := by
    simp [Config.step]
  show Config.run decimalArith (.scanning ['1', ' ', '2'] [] []) = _
  rw [run_cons _ _ _ s0, run_cons _ _ _ s1, run_cons _ _ _ s2, run_cons _ _ _ s3,
    run_last _ _ s4]

theorem tokens_one_two :
    tokensScanned decimalArith "1 2".toList = [.number 1, .number 2] := by
  have conv1 : decimalArith.strtod ('1' :: [' ', '2']) = (1, 1) := by
    simpa using strtod_digit_stop '1' 1 [' ', '2'] (by decide) (by decide) (by simp; decide)
  have conv2 : decimalArith.strtod ('2' :: []) = (2, 1) := by
    simpa using strtod_digit_stop '2' 2 [] (by decide) (by decide) (by simp)
  have d1 : isspace '1' = false ∧ isdigit '1' = true := by decide
  have d2 : isspace '2' = false ∧ isdigit '2' = true := by decide
  have sp : isspace ' ' = true := by decide
  rw [tokensScanned, run_one_two]
  simp [Config.token, d1.1, d1.2, d2.1, d2.2, sp, conv1, conv2]

/-- C12 as amended: an input whose scanned tokens do not have exactly one more
number than operators (a missing operand, two adjacent numbers or empty
parentheses that nothing else makes up for, values left over after reduction)
makes `calc_evaluate` fail.  The code is `Syntax`, unless the evaluation
stopped earlier at a division by zero (`DivByZero`) or at a full stack
(`Unknown`). -/
theorem count_mismatch_fails {V : Type} (A : Arith V) (s : List Char)
    (out_result : Option V) (previous : CalcError)
    (h : numberCount (tokensScanned A s) ≠ operatorCount (tokensScanned A s) + 1) :
    ∃ err : CalcError,
      calc_evaluate A (some s) out_result (some previous) = (false, out_result, some err) ∧
      (err.code = .CALC_ERR_SYNTAX ∨
        (err.code = .CALC_ERR_DIV_BY_ZERO ∧
          ∃ (last : Config V) (right left : V) (below : List V), Visits A s last ∧
            last.applies = some ('/', right :: left :: below) ∧ A.isZero right = true) ∨
        (err.code = .CALC_ERR_UNKNOWN ∧
          ∃ last : Config V, Visits A s last ∧ Config.step A last = none ∧
            (MAX_STACK_SIZE ≤ last.vals.length ∨ MAX_STACK_SIZE ≤ last.ops.length))) := by
  cases hs : scan_loop A s [] [] with
  | ok v =>
    exfalso
    obtain ⟨h1, _⟩ := runFor_success_accounts A v
      (Config.scanning s ([] : List V) []).potential (.scanning s [] []) (le_refl _) hs
    simp only [Config.vals, Config.pendingOperators, Config.ops, List.length_nil,
      List.countP_nil] at h1
    apply h
    simp only [tokensScanned, Config.run]
    omega
  | error e =>
    refine ⟨⟨e.1, ⟨e.2.data.take 127⟩⟩, by simp [calc_evaluate, hs, set_error], ?_⟩
    obtain ⟨last, hv, hstep⟩ := visits_terminal A s
    have hout := visits_outcome A s last hv
    rw [hs] at hout
    rcases scan_loop_error_code A s [] [] e hs with hc | hc | hc
    · exact Or.inl hc
    · obtain ⟨right, left, below, ha, hz⟩ := terminal_div A last e hstep hout hc
      exact Or.inr (Or.inl ⟨hc, last, right, left, below, hv, ha, hz⟩)
    · rcases terminal_unknown A last e (visits_invariant A s last hv) hstep hout hc with
        ⟨_, hfull⟩ | ⟨_, hfull⟩
      · exact Or.inr (Or.inr ⟨hc, last, hv, hstep, Or.inl hfull⟩)
      · exact Or.inr (Or.inr ⟨hc, last, hv, hstep, Or.inr hfull⟩)

/-- Witness for C12 as amended: the two adjacent numbers of `1 2`. -/
theorem count_mismatch_fails_witness :
    numberCount (tokensScanned decimalArith "1 2".toList) ≠
        operatorCount (tokensScanned decimalArith "1 2".toList) + 1 ∧
      ∃ err : CalcError,
        calc_evaluate decimalArith (some "1 2".toList) (some 7) (some ⟨.CALC_OK, ""⟩) =
          (false, some 7, some err) ∧
        (err.code = .CALC_ERR_SYNTAX ∨
          (err.code = .CALC_ERR_DIV_BY_ZERO ∧
            ∃ (last : Config ℚ) (right left : ℚ) (below : List ℚ),
              Visits decimalArith "1 2".toList last ∧
              last.applies = some ('/', right :: left :: below) ∧
              decimalArith.isZero right = true) ∨
          (err.code = .CALC_ERR_UNKNOWN ∧
            ∃ last : Config ℚ, Visits decimalArith "1 2".toList last ∧
              Config.step decimalArith last = none ∧
              (MAX_STACK_SIZE ≤ last.vals.length ∨ MAX_STACK_SIZE ≤ last.ops.length))) :=
  have hne : numberCount (tokensScanned decimalArith "1 2".toList) ≠
      operatorCount (tokensScanned decimalArith "1 2".toList) + 1 := by
    rw [tokens_one_two]
    decide
  ⟨hne, count_mismatch_fails decimalArith "1 2".toList (some 7) ⟨.CALC_OK, ""⟩ hne⟩

end Calc
